import Mathlib

/-!
Verification development for the backend core of a dynamic binary translator:
a shallow embedding of the block-local register allocator
(src/backend_x64/reg_alloc.cpp) and the constant-propagation pass
(src/ir_opt/constant_propagation_pass.cpp), together with theorems about
both subsystems.

Assertions (ASSERT / ASSERT_MSG / DEBUG_ASSERT) are modelled by the
Except String monad: an assertion failure is Except.error carrying the
assertion message from the source; a successfully completed operation is
Except.ok.
-/

namespace Dynarmic

/-! ## IR data model (§3 of the specification)

`IR::Value` is a tagged union of an immediate of one of the primitive
widths or a reference to an `IR::Inst`.  Instructions inside one block are
identified by their position in the block, so a reference is a natural
number index.  Modelled from the spec: the class definitions of
`IR::Value` / `IR::Inst` (frontend/ir) are not among the provided sources;
only their behaviour as described in §3 and §6 of the specification and as
exercised by the two provided .cpp files is embedded. -/

inductive ImmTy where
  | U1
  | U8
  | U16
  | U32
  | U64
deriving DecidableEq, Repr

/-- Bit width of an immediate type. -/
def ImmTy.bits : ImmTy → Nat
  | .U1 => 1
  | .U8 => 8
  | .U16 => 16
  | .U32 => 32
  | .U64 => 64

inductive Value where
  | imm (ty : ImmTy) (val : Nat)
  | ref (idx : Nat)
deriving DecidableEq, Repr

def Value.isImmediate : Value → Bool
  | .imm _ _ => true
  | .ref _ => false

/-- `IR::Value::IsZero`: an immediate whose value is zero. -/
def Value.isZero : Value → Bool
  | .imm _ 0 => true
  | _ => false

/-- `IR::Value::HasAllBitsSet`: an immediate with every bit of its width set.
Modelled from the spec: predicate `has_all_bits_set` of §3. -/
def Value.hasAllBitsSet : Value → Bool
  | .imm ty v => v == 2 ^ ty.bits - 1
  | .ref _ => false

/-- `IR::Value::IsUnsignedImmediate(n)`. -/
def Value.isUnsignedImmediate (n : Nat) : Value → Bool
  | .imm _ v => v == n
  | .ref _ => false

def msgNotImmediate : String := ("GetImmediate on a non-immediate value")

/-- `IR::Value::GetImmediateAsU64`: the immediate zero-extended to 64 bits.
Immediate values are stored already reduced modulo their width. -/
def Value.immAsU64 : Value → Except String Nat
  | .imm _ v => .ok v
  | .ref _ => .error msgNotImmediate

/-- `IR::Value::GetImmediateAsS64`: the immediate sign-extended to 64 bits. -/
def Value.immAsS64 : Value → Except String Int
  | .imm ty v =>
      .ok (if 2 ^ (ty.bits - 1) ≤ v then (v : Int) - 2 ^ ty.bits else (v : Int))
  | .ref _ => .error msgNotImmediate

/-- The opcodes dispatched on by the constant-propagation pass, the
`GetCarryFromOp` pseudo-operation, and a catch-all `other` constructor for
the remaining members of the closed opcode enum. -/
inductive Opcode where
  | LeastSignificantWord
  | MostSignificantWord
  | LeastSignificantHalf
  | LeastSignificantByte
  | MostSignificantBit
  | LogicalShiftLeft32
  | LogicalShiftLeft64
  | LogicalShiftRight32
  | LogicalShiftRight64
  | ArithmeticShiftRight32
  | ArithmeticShiftRight64
  | RotateRight32
  | RotateRight64
  | Mul32
  | Mul64
  | SignedDiv32
  | SignedDiv64
  | UnsignedDiv32
  | UnsignedDiv64
  | And32
  | And64
  | Eor32
  | Eor64
  | Or32
  | Or64
  | Not32
  | Not64
  | SignExtendByteToWord
  | SignExtendHalfToWord
  | SignExtendByteToLong
  | SignExtendHalfToLong
  | SignExtendWordToLong
  | ZeroExtendByteToWord
  | ZeroExtendHalfToWord
  | ZeroExtendByteToLong
  | ZeroExtendHalfToLong
  | ZeroExtendWordToLong
  | ByteReverseWord
  | ByteReverseHalf
  | ByteReverseDual
  | GetCarryFromOp
  | other (n : Nat)
deriving DecidableEq, Repr

/-- A single SSA definition: an opcode and its ordered operand sequence. -/
structure Inst where
  opcode : Opcode
  args : List Value
deriving DecidableEq, Repr

/-- An `IR::Block`: an ordered sequence of instructions.  References in
operands are indices into this sequence. -/
abbrev Block := List Inst

def msgInstIndex : String := ("instruction index out of range")
def msgArgIndex : String := ("Inst::GetArg: index out of range")

def getInst (b : Block) (k : Nat) : Except String Inst :=
  match b.get? k with
  | some i => .ok i
  | none => .error msgInstIndex

/-- `IR::Inst::GetArg(i)`; asserts that the index is in range. -/
def Inst.getArg (inst : Inst) (i : Nat) : Except String Value :=
  match inst.args.get? i with
  | some v => .ok v
  | none => .error msgArgIndex

def Inst.numArgs (inst : Inst) : Nat := inst.args.length

/-- `IR::Inst::AreAllArgsImmediates`. -/
def Inst.areAllArgsImmediates (inst : Inst) : Bool :=
  inst.args.all Value.isImmediate

/-- `IR::Inst::SetArg(i, v)` on the instruction at index `k` of the block. -/
def setArg (b : Block) (k i : Nat) (v : Value) : Block :=
  match b.get? k with
  | some inst => b.set k { inst with args := inst.args.set i v }
  | none => b

/-- `IR::Inst::ReplaceUsesWith(v)` applied to the instruction at index `k`:
every operand of every instruction of the block that refers to `k` is
rewritten to `v`. -/
def replaceUsesWith (b : Block) (k : Nat) (v : Value) : Block :=
  b.map (fun inst =>
    { inst with args := inst.args.map (fun a => if a = Value.ref k then v else a) })

/-- `IR::Inst::GetAssociatedPseudoOperation(Op::GetCarryFromOp)` for the
instruction at index `k`.  Modelled from the spec: §3 — associated
pseudo-operations "extract secondary results from this instruction" and are
"discoverable by opcode tag"; a pseudo-operation names its primary
instruction as its operand, so the carry pseudo-op of `k` is the first
instruction with opcode `GetCarryFromOp` whose first operand refers to `k`. -/
def getCarryPseudoOp (b : Block) (k : Nat) : Option Nat :=
  (List.range b.length).find? (fun j =>
    match b.get? j with
    | some inst => inst.opcode == Opcode.GetCarryFromOp && inst.args.get? 0 == some (Value.ref k)
    | none => false)

/-! ## Constant-propagation pass (src/ir_opt/constant_propagation_pass.cpp) -/

/-- `ReplaceUsesWith(inst, is_32_bit, value)` helper of the pass (lines
25–31 of the source): the computed 64-bit value is emitted as a `u32`
immediate for 32-bit opcodes and as a `u64` immediate otherwise. -/
def mkValue (is32 : Bool) (v : Nat) : Value :=
  if is32 then Value.imm .U32 (v % 2 ^ 32) else Value.imm .U64 (v % 2 ^ 64)

/-- Common::Swap16.  Modelled from the spec: byte-reversal helpers of
common/bit_util.h are not among the provided sources (§4.D "swap bytes"). -/
def swap16 (v : Nat) : Nat :=
  let v := v % 2 ^ 16
  (v % 2 ^ 8) * 2 ^ 8 + v / 2 ^ 8

/-- Common::Swap32.  Modelled from the spec, as `swap16`. -/
def swap32 (v : Nat) : Nat :=
  let v := v % 2 ^ 32
  swap16 (v % 2 ^ 16) * 2 ^ 16 + swap16 (v / 2 ^ 16)

/-- Common::Swap64.  Modelled from the spec, as `swap16`. -/
def swap64 (v : Nat) : Nat :=
  let v := v % 2 ^ 64
  swap32 (v % 2 ^ 32) * 2 ^ 32 + swap32 (v / 2 ^ 32)

/-- `static_cast<u64>` of a signed 64-bit value: two's-complement wrap. -/
def toU64 (i : Int) : Nat := (i % (2 ^ 64 : Int)).toNat

/-- C++ signed 64-bit division truncates toward zero; dividing by zero is
undefined behaviour, modelled as an assertion failure. -/
def msgDivUB : String := ("undefined behaviour: integer division by zero")

def sdiv64 (a b : Int) : Except String Int :=
  if b = 0 then .error msgDivUB else .ok (Int.tdiv a b)

def udiv64 (a b : Nat) : Except String Nat :=
  if b = 0 then .error msgDivUB else .ok (a / b)

/-- `FoldCommutative(inst, is_32_bit, imm_fn)` (lines 37–74): the returned
`Bool` tells the caller whether the instruction is still live.  The
instruction being folded is at index `k` of the block.  `GetInstRecursive`
is modelled as plain dereference (modelled from the spec: §4.D describes the
fusion as acting on the operand's producing instruction). -/
def foldCommutative (b : Block) (k : Nat) (is32 : Bool) (fn : Nat → Nat → Nat) :
    Except String (Block × Bool) := do
  let inst ← getInst b k
  let lhs ← inst.getArg 0
  let rhs ← inst.getArg 1
  match lhs.isImmediate, rhs.isImmediate with
  | true, true => do
      let a ← lhs.immAsU64
      let c ← rhs.immAsU64
      .ok (replaceUsesWith b k (mkValue is32 (fn a c)), false)
  | true, false => do
      match rhs with
      | .imm _ _ => .error msgNotImmediate
      | .ref j => do
          let rhsInst ← getInst b j
          if rhsInst.opcode = inst.opcode then do
            let r1 ← rhsInst.getArg 1
            if r1.isImmediate then do
              let a ← lhs.immAsU64
              let c ← r1.immAsU64
              let r0 ← rhsInst.getArg 0
              .ok (setArg (setArg b k 0 r0) k 1 (mkValue is32 (fn a c)), true)
            else
              .ok (setArg (setArg b k 0 rhs) k 1 lhs, true)
          else
            .ok (setArg (setArg b k 0 rhs) k 1 lhs, true)
  | false, true => do
      match lhs with
      | .imm _ _ => .error msgNotImmediate
      | .ref j => do
          let lhsInst ← getInst b j
          if lhsInst.opcode = inst.opcode then do
            let l1 ← lhsInst.getArg 1
            if l1.isImmediate then do
              let a ← rhs.immAsU64
              let c ← l1.immAsU64
              let l0 ← lhsInst.getArg 0
              .ok (setArg (setArg b k 0 l0) k 1 (mkValue is32 (fn a c)), true)
            else
              .ok (b, true)
          else
            .ok (b, true)
  | false, false => .ok (b, true)

/-- `FoldAND` (lines 84–93). -/
def foldAND (b : Block) (k : Nat) (is32 : Bool) : Except String Block := do
  let (b1, live) ← foldCommutative b k is32 (fun a c => a &&& c)
  if live then do
    let inst ← getInst b1 k
    let rhs ← inst.getArg 1
    if rhs.isZero then
      .ok (replaceUsesWith b1 k (mkValue is32 0))
    else if rhs.hasAllBitsSet then do
      let a0 ← inst.getArg 0
      .ok (replaceUsesWith b1 k a0)
    else
      .ok b1
  else
    .ok b1

/-- `FoldByteReverse` (lines 99–116). -/
def foldByteReverse (b : Block) (k : Nat) (op : Opcode) : Except String Block := do
  let inst ← getInst b k
  let operand ← inst.getArg 0
  if operand.isImmediate then do
    let v ← operand.immAsU64
    if op = Opcode.ByteReverseWord then
      .ok (replaceUsesWith b k (Value.imm .U32 (swap32 (v % 2 ^ 32))))
    else if op = Opcode.ByteReverseHalf then
      .ok (replaceUsesWith b k (Value.imm .U16 (swap16 (v % 2 ^ 16))))
    else
      .ok (replaceUsesWith b k (Value.imm .U64 (swap64 v)))
  else
    .ok b

/-- `FoldDivide` (lines 124–144). -/
def foldDivide (b : Block) (k : Nat) (is32 isSigned : Bool) : Except String Block := do
  let inst ← getInst b k
  let rhs ← inst.getArg 1
  if rhs.isZero then
    .ok (replaceUsesWith b k (mkValue is32 0))
  else do
    let lhs ← inst.getArg 0
    if lhs.isImmediate && rhs.isImmediate then
      if isSigned then do
        let a ← lhs.immAsS64
        let c ← rhs.immAsS64
        let r ← sdiv64 a c
        .ok (replaceUsesWith b k (mkValue is32 (toU64 r)))
      else do
        let a ← lhs.immAsU64
        let c ← rhs.immAsU64
        let r ← udiv64 a c
        .ok (replaceUsesWith b k (mkValue is32 r))
    else if rhs.isUnsignedImmediate 1 then
      .ok (replaceUsesWith b k lhs)
    else
      .ok b

/-- `FoldEOR` (lines 152–159). -/
def foldEOR (b : Block) (k : Nat) (is32 : Bool) : Except String Block := do
  let (b1, live) ← foldCommutative b k is32 (fun a c => a ^^^ c)
  if live then do
    let inst ← getInst b1 k
    let rhs ← inst.getArg 1
    if rhs.isZero then do
      let a0 ← inst.getArg 0
      .ok (replaceUsesWith b1 k a0)
    else
      .ok b1
  else
    .ok b1

/-- `FoldLeastSignificantByte` (lines 161–168). -/
def foldLeastSignificantByte (b : Block) (k : Nat) : Except String Block := do
  let inst ← getInst b k
  if inst.areAllArgsImmediates then do
    let operand ← inst.getArg 0
    let v ← operand.immAsU64
    .ok (replaceUsesWith b k (Value.imm .U8 (v % 2 ^ 8)))
  else
    .ok b

/-- `FoldLeastSignificantHalf` (lines 170–177). -/
def foldLeastSignificantHalf (b : Block) (k : Nat) : Except String Block := do
  let inst ← getInst b k
  if inst.areAllArgsImmediates then do
    let operand ← inst.getArg 0
    let v ← operand.immAsU64
    .ok (replaceUsesWith b k (Value.imm .U16 (v % 2 ^ 16)))
  else
    .ok b

/-- `FoldLeastSignificantWord` (lines 179–186). -/
def foldLeastSignificantWord (b : Block) (k : Nat) : Except String Block := do
  let inst ← getInst b k
  if inst.areAllArgsImmediates then do
    let operand ← inst.getArg 0
    let v ← operand.immAsU64
    .ok (replaceUsesWith b k (Value.imm .U32 (v % 2 ^ 32)))
  else
    .ok b

/-- `FoldMostSignificantBit` (lines 188–195). -/
def foldMostSignificantBit (b : Block) (k : Nat) : Except String Block := do
  let inst ← getInst b k
  if inst.areAllArgsImmediates then do
    let operand ← inst.getArg 0
    let v ← operand.immAsU64
    .ok (replaceUsesWith b k (Value.imm .U1 (if v / 2 ^ 31 ≠ 0 then 1 else 0)))
  else
    .ok b

/-- `FoldMostSignificantWord` (lines 197–209). -/
def foldMostSignificantWord (b : Block) (k : Nat) : Except String Block := do
  let carry := getCarryPseudoOp b k
  let inst ← getInst b k
  if inst.areAllArgsImmediates then do
    let operand ← inst.getArg 0
    let v ← operand.immAsU64
    let b1 :=
      match carry with
      | some c => replaceUsesWith b c (Value.imm .U1 ((v / 2 ^ 31) % 2))
      | none => b
    .ok (replaceUsesWith b1 k (Value.imm .U32 ((v / 2 ^ 32) % 2 ^ 32)))
  else
    .ok b

/-- `FoldMultiply` (lines 219–228). -/
def foldMultiply (b : Block) (k : Nat) (is32 : Bool) : Except String Block := do
  let (b1, live) ← foldCommutative b k is32 (fun a c => (a * c) % 2 ^ 64)
  if live then do
    let inst ← getInst b1 k
    let rhs ← inst.getArg 1
    if rhs.isZero then
      .ok (replaceUsesWith b1 k (mkValue is32 0))
    else if rhs.isUnsignedImmediate 1 then do
      let a0 ← inst.getArg 0
      .ok (replaceUsesWith b1 k a0)
    else
      .ok b1
  else
    .ok b1

/-- `FoldNOT` (lines 231–240). -/
def foldNOT (b : Block) (k : Nat) (is32 : Bool) : Except String Block := do
  let inst ← getInst b k
  let operand ← inst.getArg 0
  if operand.isImmediate then do
    let v ← operand.immAsU64
    .ok (replaceUsesWith b k (mkValue is32 (2 ^ 64 - 1 - v)))
  else
    .ok b

/-- `FoldOR` (lines 248–255). -/
def foldOR (b : Block) (k : Nat) (is32 : Bool) : Except String Block := do
  let (b1, live) ← foldCommutative b k is32 (fun a c => a ||| c)
  if live then do
    let inst ← getInst b1 k
    let rhs ← inst.getArg 1
    if rhs.isZero then do
      let a0 ← inst.getArg 0
      .ok (replaceUsesWith b1 k a0)
    else
      .ok b1
  else
    .ok b1

/-- `FoldShifts` (lines 257–275). -/
def foldShifts (b : Block) (k : Nat) : Except String Block := do
  let carry := getCarryPseudoOp b k
  let inst ← getInst b k
  let b1 :=
    if inst.numArgs = 3 ∧ carry.isNone then
      setArg b k 2 (Value.imm .U1 0)
    else
      b
  let inst1 ← getInst b1 k
  let amount ← inst1.getArg 1
  if ¬ amount.isZero then
    .ok b1
  else do
    let b2 ←
      match carry with
      | some c => do
          let a2 ← inst1.getArg 2
          pure (replaceUsesWith b1 c a2)
      | none => pure b1
    let inst2 ← getInst b2 k
    let a0 ← inst2.getArg 0
    .ok (replaceUsesWith b2 k a0)

/-- `FoldSignExtendXToWord` (lines 277–284). -/
def foldSignExtendXToWord (b : Block) (k : Nat) : Except String Block := do
  let inst ← getInst b k
  if inst.areAllArgsImmediates then do
    let operand ← inst.getArg 0
    let v ← operand.immAsS64
    .ok (replaceUsesWith b k (Value.imm .U32 ((v % (2 ^ 32 : Int)).toNat)))
  else
    .ok b

/-- `FoldSignExtendXToLong` (lines 286–293). -/
def foldSignExtendXToLong (b : Block) (k : Nat) : Except String Block := do
  let inst ← getInst b k
  if inst.areAllArgsImmediates then do
    let operand ← inst.getArg 0
    let v ← operand.immAsS64
    .ok (replaceUsesWith b k (Value.imm .U64 (toU64 v)))
  else
    .ok b

/-- `FoldZeroExtendXToWord` (lines 295–302). -/
def foldZeroExtendXToWord (b : Block) (k : Nat) : Except String Block := do
  let inst ← getInst b k
  if inst.areAllArgsImmediates then do
    let operand ← inst.getArg 0
    let v ← operand.immAsU64
    .ok (replaceUsesWith b k (Value.imm .U32 (v % 2 ^ 32)))
  else
    .ok b

/-- `FoldZeroExtendXToLong` (lines 304–311). -/
def foldZeroExtendXToLong (b : Block) (k : Nat) : Except String Block := do
  let inst ← getInst b k
  if inst.areAllArgsImmediates then do
    let operand ← inst.getArg 0
    let v ← operand.immAsU64
    .ok (replaceUsesWith b k (Value.imm .U64 v))
  else
    .ok b

/-- The opcode dispatch of `ConstantPropagation` (lines 314–399) applied to
the instruction at index `k`. -/
def foldInstAt (b : Block) (k : Nat) : Except String Block := do
  let inst ← getInst b k
  match inst.opcode with
  | .LeastSignificantWord => foldLeastSignificantWord b k
  | .MostSignificantWord => foldMostSignificantWord b k
  | .LeastSignificantHalf => foldLeastSignificantHalf b k
  | .LeastSignificantByte => foldLeastSignificantByte b k
  | .MostSignificantBit => foldMostSignificantBit b k
  | .LogicalShiftLeft32 => foldShifts b k
  | .LogicalShiftLeft64 => foldShifts b k
  | .LogicalShiftRight32 => foldShifts b k
  | .LogicalShiftRight64 => foldShifts b k
  | .ArithmeticShiftRight32 => foldShifts b k
  | .ArithmeticShiftRight64 => foldShifts b k
  | .RotateRight32 => foldShifts b k
  | .RotateRight64 => foldShifts b k
  | .Mul32 => foldMultiply b k true
  | .Mul64 => foldMultiply b k false
  | .SignedDiv32 => foldDivide b k true true
  | .SignedDiv64 => foldDivide b k false true
  | .UnsignedDiv32 => foldDivide b k true false
  | .UnsignedDiv64 => foldDivide b k false false
  | .And32 => foldAND b k true
  | .And64 => foldAND b k false
  | .Eor32 => foldEOR b k true
  | .Eor64 => foldEOR b k false
  | .Or32 => foldOR b k true
  | .Or64 => foldOR b k false
  | .Not32 => foldNOT b k true
  | .Not64 => foldNOT b k false
  | .SignExtendByteToWord => foldSignExtendXToWord b k
  | .SignExtendHalfToWord => foldSignExtendXToWord b k
  | .SignExtendByteToLong => foldSignExtendXToLong b k
  | .SignExtendHalfToLong => foldSignExtendXToLong b k
  | .SignExtendWordToLong => foldSignExtendXToLong b k
  | .ZeroExtendByteToWord => foldZeroExtendXToWord b k
  | .ZeroExtendHalfToWord => foldZeroExtendXToWord b k
  | .ZeroExtendByteToLong => foldZeroExtendXToLong b k
  | .ZeroExtendHalfToLong => foldZeroExtendXToLong b k
  | .ZeroExtendWordToLong => foldZeroExtendXToLong b k
  | .ByteReverseWord => foldByteReverse b k inst.opcode
  | .ByteReverseHalf => foldByteReverse b k inst.opcode
  | .ByteReverseDual => foldByteReverse b k inst.opcode
  | _ => .ok b

/-- The single forward sweep restricted to the first `n` instructions. -/
def passUpTo (b : Block) : Nat → Except String Block
  | 0 => .ok b
  | n + 1 => do
      let b1 ← passUpTo b n
      foldInstAt b1 n

/-- `ConstantPropagation(block)`: one forward sweep over the block. -/
def constantPropagation (b : Block) : Except String Block :=
  passUpTo b b.length

/-! ## Statement vocabulary: opcode families of the pass -/

/-- The four division opcodes. -/
def divOps : List Opcode := [.SignedDiv32, .SignedDiv64, .UnsignedDiv32, .UnsignedDiv64]

/-- Whether a width-parameterized pass opcode is the 32-bit variant. -/
def opcode32 : Opcode → Bool
  | .SignedDiv32 | .UnsignedDiv32 | .And32 | .Eor32 | .Or32 | .Mul32 | .Not32 => true
  | _ => false

/-- The commutative foldable opcodes (AND, EOR, OR, MUL; both widths). -/
def commOps : List Opcode := [.And32, .And64, .Eor32, .Eor64, .Or32, .Or64, .Mul32, .Mul64]

/-- The `imm_fn` passed by each commutative folder to `FoldCommutative`:
the direct evaluation of the operation on 64-bit unsigned values. -/
def commEval : Opcode → Nat → Nat → Nat
  | .And32, a, c => a &&& c
  | .And64, a, c => a &&& c
  | .Eor32, a, c => a ^^^ c
  | .Eor64, a, c => a ^^^ c
  | .Or32, a, c => a ||| c
  | .Or64, a, c => a ||| c
  | .Mul32, a, c => (a * c) % 2 ^ 64
  | .Mul64, a, c => (a * c) % 2 ^ 64
  | _, _, _ => 0

/-- The eight shift/rotate opcodes handled by `FoldShifts`. -/
def shiftOps : List Opcode :=
  [.LogicalShiftLeft32, .LogicalShiftLeft64, .LogicalShiftRight32, .LogicalShiftRight64,
   .ArithmeticShiftRight32, .ArithmeticShiftRight64, .RotateRight32, .RotateRight64]

/-! ## Well-formedness of blocks and liveness of definitions

An SSA block is well-formed when every operand reference points strictly
upward: instruction `j` only refers to instructions with index below `j`
(the frontend emits operands before their consumers).  A definition is
live when some instruction of the block still refers to it. -/

/-- One operand respects SSA order at position `j`. -/
def argOk (j : Nat) : Value → Bool
  | .ref t => decide (t < j)
  | .imm _ _ => true

/-- Executable well-formedness check. -/
def wfb (b : Block) : Bool :=
  (List.range b.length).all (fun j =>
    match b.get? j with
    | some inst => inst.args.all (argOk j)
    | none => true)

/-- A block is well-formed when every reference points to an earlier
instruction. -/
def WF (b : Block) : Prop := wfb b = true

/-- Instruction `t` is still referenced by some operand in the block. -/
def refsTo (b : Block) (t : Nat) : Prop :=
  ∃ inst ∈ b, Value.ref t ∈ inst.args

/-- Every reference carried by the value is below `n`. -/
def refBelow (v : Value) (n : Nat) : Prop :=
  ∀ t, v = Value.ref t → t < n

/-- Facts shared by every successful action the pass performs while its
cursor is at index `n`: the block keeps its length, instructions strictly
below the cursor are untouched, well-formedness is preserved, no dead
definition becomes referenced again, and no opcode changes. -/
def StepPres (b b2 : Block) (n : Nat) : Prop :=
  b2.length = b.length ∧
  (∀ j, j < n → b2.get? j = b.get? j) ∧
  WF b2 ∧
  (∀ t, ¬ refsTo b t → ¬ refsTo b2 t) ∧
  (∀ j i1 i2, b.get? j = some i1 → b2.get? j = some i2 → i2.opcode = i1.opcode)

/-- The normalization invariant up to index `n`: every already-processed
commutative instruction that is still referenced has a non-immediate
operand in position 0. -/
def Good (b : Block) (n : Nat) : Prop :=
  ∀ k inst, k < n → b.get? k = some inst → inst.opcode ∈ commOps →
    refsTo b k → ∀ a0, inst.args.get? 0 = some a0 → a0.isImmediate = false

/-- Common shape of the four commutative folders: `FoldCommutative` ran
first (yielding `b1`), and the identity tail then either kept the block,
replaced uses with a folded immediate, or replaced uses with operand 0. -/
def CommTailShape (n : Nat) (is32 : Bool) (b1 b2 : Block) (live : Bool) : Prop :=
  (live = false ∧ b2 = b1) ∨
  (live = true ∧
    (b2 = b1 ∨
     b2 = replaceUsesWith b1 n (mkValue is32 0) ∨
     (∃ inst1 a0, getInst b1 n = .ok inst1 ∧ inst1.getArg 0 = .ok a0 ∧
       b2 = replaceUsesWith b1 n a0)))

/-! ## Register allocator (src/backend_x64/reg_alloc.cpp)

HostLoc is the flat catalog of §3: 16 named GPRs, 16 vector (XMM)
registers, then `SpillCount` spill slots, in enum order, so a HostLoc is
an index below `HostLocCount` (`static_cast<HostLoc>(i)` in the source).
Modelled from the spec: the catalog itself (backend_x64/hostloc.h) is not
among the provided sources; §3/§4.A fix its three classes and the two
reserved registers (the stack pointer RSP and the state register R15). -/

def SpillCount : Nat := 32
def HostLocCount : Nat := 64

abbrev HostLoc := Fin HostLocCount

def RAX : HostLoc := ⟨0, by decide⟩
def RCX : HostLoc := ⟨1, by decide⟩
def RDX : HostLoc := ⟨2, by decide⟩
def RBX : HostLoc := ⟨3, by decide⟩
def RSP : HostLoc := ⟨4, by decide⟩
def RBP : HostLoc := ⟨5, by decide⟩
def RSI : HostLoc := ⟨6, by decide⟩
def RDI : HostLoc := ⟨7, by decide⟩
def R8 : HostLoc := ⟨8, by decide⟩
def R9 : HostLoc := ⟨9, by decide⟩
def R10 : HostLoc := ⟨10, by decide⟩
def R11 : HostLoc := ⟨11, by decide⟩
def R12 : HostLoc := ⟨12, by decide⟩
def R13 : HostLoc := ⟨13, by decide⟩
def R14 : HostLoc := ⟨14, by decide⟩
def R15 : HostLoc := ⟨15, by decide⟩
def XMM0 : HostLoc := ⟨16, by decide⟩
def XMM1 : HostLoc := ⟨17, by decide⟩
def XMM2 : HostLoc := ⟨18, by decide⟩
def XMM3 : HostLoc := ⟨19, by decide⟩
def XMM4 : HostLoc := ⟨20, by decide⟩
def XMM5 : HostLoc := ⟨21, by decide⟩

/-- `HostLocSpill(i)`: spill slot `i` (the slots follow the registers in
the enumeration). -/
def hostLocSpill (i : Nat) : HostLoc := ⟨32 + i % SpillCount, by
  have h : i % SpillCount < SpillCount := Nat.mod_lt _ (by decide)
  simp only [SpillCount] at h ⊢
  simp only [HostLocCount]
  omega⟩

def HostLocIsGPR (l : HostLoc) : Bool := decide (l.val < 16)
def HostLocIsXMM (l : HostLoc) : Bool := decide (16 ≤ l.val) && decide (l.val < 32)
def HostLocIsSpill (l : HostLoc) : Bool := decide (32 ≤ l.val)
def HostLocIsRegister (l : HostLoc) : Bool := HostLocIsGPR l || HostLocIsXMM l

/-- `IsSameHostLocClass` (lines 45–49). -/
def isSameHostLocClass (a b : HostLoc) : Bool :=
  (HostLocIsGPR a && HostLocIsGPR b) || (HostLocIsXMM a && HostLocIsXMM b)
    || (HostLocIsSpill a && HostLocIsSpill b)

/-- Per-HostLoc allocator record (§3 LocInfo).  Modelled from the spec:
reg_alloc.h is not among the provided sources.  `IsIdle` tests "not
locked": the selection algorithm of §4.C step 1 discards exactly the
locked entries, and `SelectARegister` (lines 272–290) discards via
`IsRegisterAllocated = !IsIdle`, which forces this reading (with
`IsIdle = resident ∧ ¬locked` an empty register could never be selected). -/
structure LocInfo where
  values : List Nat
  locked : Bool
deriving DecidableEq, Repr

/-- The default-constructed LocInfo (`{}` in the source). -/
def LocInfo.init : LocInfo := ⟨[], false⟩

def LocInfo.IsEmpty (i : LocInfo) : Bool := !i.locked && i.values.isEmpty
def LocInfo.IsIdle (i : LocInfo) : Bool := !i.locked
def LocInfo.IsScratch (i : LocInfo) : Bool := i.locked && i.values.isEmpty
def LocInfo.IsUse (i : LocInfo) : Bool := i.locked && !i.values.isEmpty
def LocInfo.IsLocked (i : LocInfo) : Bool := i.locked
def LocInfo.Lock (i : LocInfo) : LocInfo := { i with locked := true }
def LocInfo.AddValue (i : LocInfo) (v : Nat) : LocInfo := { i with values := i.values ++ [v] }
def LocInfo.ContainsValue (i : LocInfo) (v : Nat) : Bool := i.values.contains v

/-- `end_of_alloc_scope` on one LocInfo (§3): any lock is released and
values whose remaining-use count is zero are evicted. -/
def LocInfo.EndOfAllocScope (i : LocInfo) (uses : Nat → Nat) : LocInfo :=
  ⟨i.values.filter (fun v => uses v != 0), false⟩

/-- Host instructions the allocator writes into the code stream. -/
inductive MEvent where
  | mov (dst src : HostLoc)
  | xchg (a b : HostLoc)
  | xorSelf (r : HostLoc)
  | movImm (r : HostLoc) (v : Nat)
deriving DecidableEq, Repr

/-- The allocator state: the LocInfo table, the remaining-use count of
every IR instruction (identified by its id), and the emitted host code. -/
structure RState where
  locs : HostLoc → LocInfo
  uses : Nat → Nat
  emitted : List MEvent

/-- The state at the start of a block: every LocInfo empty, use counts as
initialized by the frontend. -/
def initState (uses : Nat → Nat) : RState := ⟨fun _ => LocInfo.init, uses, []⟩

def RState.setLoc (st : RState) (l : HostLoc) (i : LocInfo) : RState :=
  { st with locs := fun l2 => if l2 = l then i else st.locs l2 }

def RState.emit (st : RState) (e : MEvent) : RState :=
  { st with emitted := st.emitted ++ [e] }

/-- `IR::Inst::DecrementRemainingUses` on instruction id `v`. -/
def RState.decUses (st : RState) (v : Nat) : RState :=
  { st with uses := fun j => if j = v then st.uses v - 1 else st.uses j }

def msgNeverHappen : String := ("This should never happen.")
def msgTodoMove : String := ("TODO")
def msgInvalidMove : String := ("Invalid RegAlloc::EmitMove")
def msgXmmXchg : String := ("Check your code: Exchanging XMM registers is unnecessary")
def msgInvalidExchange : String := ("Invalid RegAlloc::EmitExchange")
def msgAllAllocated : String := ("All candidate registers have already been allocated")
def msgSpillFull : String := ("All spill locations are full")
def msgOnlyRegistersSpill : String := ("Only registers can be spilled")
def msgNoNeedToSpill : String := ("There is no need to spill unoccupied registers")
def msgAllocatedNotSpill : String := ("Registers that have been allocated must not be spilt")
def msgRanOutOfUses : String := ("use_inst ran out of uses. (Use-d an IR::Inst* too many times)")
def msgUseOpArgImm : String := ("UseOpArg does not support immediates")
def msgNotDefined : String := ("use_inst has not been defined")
def msgAlreadyDefined : String := ("def_inst has already been defined")
def msgInvalidCurrentLocation : String := ("Invalid current_location")
def msgImmNotImm : String := ("imm is not an immediate")
def msgDesiredNotRegister : String := ("desired locations must be registers")
def msgBad : String := ("bad")
def msgReserved : String := ("hostloc is a reserved register")
def msgMoveGuard : String := ("Move: LocInfo(to).IsEmpty and not LocInfo(from).IsLocked")
def msgExchangeGuard : String := ("Exchange: neither LocInfo may be locked")
def msgMoveOutGuard : String := ("MoveOutOfTheWay: LocInfo(reg) must not be locked")
def msgUseKindGuard : String := ("current_location must be Idle or Use")
def msgIdleGuard : String := ("current_location must be Idle")
def msgScratchGuard : String := ("location must be Scratch")
def msgUseGuard : String := ("location must be Use")

/-- `ImmediateToU64` (lines 19–32): note U16 falls into the default case
and asserts. -/
def immediateToU64 : Value → Except String Nat
  | .imm .U1 x => .ok x
  | .imm .U8 x => .ok x
  | .imm .U32 x => .ok x
  | .imm .U64 x => .ok x
  | _ => .error msgNeverHappen

/-- `HostLocToX64` (lines 34–43): registers map to their encoder operand
(modelled as the HostLoc itself); anything else asserts.  The
DEBUG_ASSERT excludes the two reserved registers. -/
def hostLocToX64 (l : HostLoc) : Except String HostLoc :=
  if HostLocIsGPR l then
    if l = RSP ∨ l = R15 then .error msgReserved else .ok l
  else if HostLocIsXMM l then .ok l
  else .error msgNeverHappen

/-- `EmitMove` (lines 51–71): the move-matrix; gpr↔xmm is unimplemented
(TODO assert). -/
def emitMove (st : RState) (dst src : HostLoc) : Except String RState :=
  if HostLocIsXMM dst && HostLocIsXMM src then .ok (st.emit (.mov dst src))
  else if HostLocIsGPR dst && HostLocIsGPR src then .ok (st.emit (.mov dst src))
  else if HostLocIsXMM dst && HostLocIsGPR src then .error msgTodoMove
  else if HostLocIsGPR dst && HostLocIsXMM src then .error msgTodoMove
  else if HostLocIsXMM dst && HostLocIsSpill src then .ok (st.emit (.mov dst src))
  else if HostLocIsSpill dst && HostLocIsXMM src then .ok (st.emit (.mov dst src))
  else if HostLocIsGPR dst && HostLocIsSpill src then .ok (st.emit (.mov dst src))
  else if HostLocIsSpill dst && HostLocIsGPR src then .ok (st.emit (.mov dst src))
  else .error msgInvalidMove

/-- `EmitExchange` (lines 73–81): only gpr↔gpr; xmm↔xmm is forbidden by
assertion. -/
def emitExchange (st : RState) (a b : HostLoc) : Except String RState :=
  if HostLocIsGPR a && HostLocIsGPR b then .ok (st.emit (.xchg a b))
  else if HostLocIsXMM a && HostLocIsXMM b then .error msgXmmXchg
  else .error msgInvalidExchange

/-- `ValueLocation` (lines 292–298): the first HostLoc whose LocInfo
contains the value. -/
def valueLocation (st : RState) (v : Nat) : Option HostLoc :=
  (List.finRange HostLocCount).find? (fun l => (st.locs l).ContainsValue v)

def isRegisterOccupied (st : RState) (l : HostLoc) : Bool := ! (st.locs l).IsEmpty

def isRegisterAllocated (st : RState) (l : HostLoc) : Bool := ! (st.locs l).IsIdle

/-- `IsLastUse` (lines 310–315): the baseline always answers `false`, so
the fast path it guards is dead. -/
def isLastUse (_st : RState) (_i : Nat) : Bool := false

/-- `SelectARegister` (lines 272–290).  The first `std::partition` +
`erase` keeps exactly the candidates that are not allocated (not locked);
the assertion fires when none survive; the second partition moves the
unoccupied survivors to the front (any compliant reordering; stable
here), and the front candidate is returned. -/
def selectARegister (st : RState) (desired : List HostLoc) : Except String HostLoc :=
  let candidates := desired.filter (fun l => ! isRegisterAllocated st l)
  if candidates.isEmpty then .error msgAllAllocated
  else
    match candidates.filter (fun l => ! isRegisterOccupied st l) ++
        candidates.filter (fun l => isRegisterOccupied st l) with
    | [] => .error msgAllAllocated
    | l :: _ => .ok l

/-- `DefineValue` (lines 317–320). -/
def defineValue (defInst : Nat) (l : HostLoc) (st : RState) : Except String RState :=
  if (valueLocation st defInst).isSome then .error msgAlreadyDefined
  else .ok (st.setLoc l ((st.locs l).AddValue defInst))

/-- `FindFreeSpill` (lines 335–341). -/
def findFreeSpill (st : RState) : Except String HostLoc :=
  match (List.range SpillCount).find? (fun i => ! isRegisterOccupied st (hostLocSpill i)) with
  | some i => .ok (hostLocSpill i)
  | none => .error msgSpillFull

/-- `SpillRegister` (lines 322–333): move to the first free spill slot and
transplant the LocInfo. -/
def spillRegister (l : HostLoc) (st : RState) : Except String RState := do
  if ¬ HostLocIsRegister l then .error msgOnlyRegistersSpill
  else if ¬ isRegisterOccupied st l then .error msgNoNeedToSpill
  else if isRegisterAllocated st l then .error msgAllocatedNotSpill
  else do
    let newLoc ← findFreeSpill st
    let st2 ← emitMove st newLoc l
    .ok ((st2.setLoc newLoc (st2.locs l)).setLoc l LocInfo.init)

/-- `EndOfAllocScope` (lines 343–347). -/
def endOfAllocScope (st : RState) : RState :=
  { st with locs := fun l => (st.locs l).EndOfAllocScope st.uses }

/-- `AssertNoMoreUses` (lines 349–353). -/
def assertNoMoreUses (st : RState) : Except String RState :=
  if (List.finRange HostLocCount).all (fun l => (st.locs l).IsEmpty) then .ok st
  else .error msgBad

/-- `Reset` (lines 355–357). -/
def resetState (st : RState) : RState := { st with locs := fun _ => LocInfo.init }

/-- `LoadImmediateIntoHostLocReg` (lines 395–406): zero immediates use the
xor-self idiom; `HostLocToReg64` requires a GPR. -/
def loadImmediateIntoHostLocReg (imm : Value) (l : HostLoc) (st : RState) :
    Except String (HostLoc × RState) := do
  if ¬ imm.isImmediate then .error msgImmNotImm
  else if ¬ HostLocIsGPR l then .error msgNeverHappen
  else do
    let v ← immediateToU64 imm
    if v = 0 then .ok (l, st.emit (.xorSelf l))
    else .ok (l, st.emit (.movImm l v))

/-- `Move` (lines 408–419). -/
def move (dst src : HostLoc) (st : RState) : Except String RState :=
  if ¬ ((st.locs dst).IsEmpty && ! (st.locs src).IsLocked) then .error msgMoveGuard
  else if (st.locs src).IsEmpty then .ok st
  else
    emitMove ((st.setLoc dst (st.locs src)).setLoc src LocInfo.init) dst src

/-- `Exchange` (lines 421–437). -/
def exchange (a b : HostLoc) (st : RState) : Except String RState :=
  if (st.locs a).IsLocked || (st.locs b).IsLocked then .error msgExchangeGuard
  else if (st.locs a).IsEmpty then move a b st
  else if (st.locs b).IsEmpty then move b a st
  else
    emitExchange ((st.setLoc a (st.locs b)).setLoc b (st.locs a)) a b

/-- `MoveOutOfTheWay` (lines 439–444). -/
def moveOutOfTheWay (l : HostLoc) (st : RState) : Except String RState :=
  if (st.locs l).IsLocked then .error msgMoveOutGuard
  else if isRegisterOccupied st l then spillRegister l st
  else .ok st

/-- `ScratchHostLocReg` (lines 221–235). -/
def scratchHostLocReg (desired : List HostLoc) (st : RState) :
    Except String (HostLoc × RState) := do
  if ¬ desired.all HostLocIsRegister then .error msgDesiredNotRegister
  else do
    let l ← selectARegister st desired
    let st2 ← if isRegisterOccupied st l then spillRegister l st else pure st
    let st3 := st2.setLoc l ((st2.locs l).Lock)
    if ¬ (st3.locs l).IsScratch then .error msgScratchGuard
    else .ok (l, st3)

/-- `UseScratchHostLocReg(IR::Inst*, ...)` (lines 184–219). -/
def useScratchHostLocRegI (i : Nat) (desired : List HostLoc) (st : RState) :
    Except String (HostLoc × RState) := do
  if ¬ desired.all HostLocIsRegister then .error msgDesiredNotRegister
  else
    match valueLocation st i with
    | none => .error msgNotDefined
    | some cur =>
      if st.uses i = 0 then .error msgRanOutOfUses
      else do
        let newl ← selectARegister st desired
        let st2 ← if isRegisterOccupied st newl then spillRegister newl st else pure st
        if HostLocIsSpill cur then do
          let st3 ← emitMove st2 newl cur
          let st4 := st3.setLoc newl ((st3.locs newl).Lock)
          let st5 := st4.decUses i
          if ¬ (st5.locs newl).IsScratch then .error msgScratchGuard
          else .ok (newl, st5)
        else if HostLocIsRegister cur then do
          if ¬ ((st2.locs cur).IsIdle || (st2.locs cur).IsUse) then .error msgUseKindGuard
          else do
            let st3 ←
              if cur ≠ newl then emitMove st2 newl cur
              else if ¬ (st2.locs cur).IsIdle then .error msgIdleGuard
              else pure st2
            let st4 := st3.setLoc newl LocInfo.init
            let st5 := st4.setLoc newl ((st4.locs newl).Lock)
            let st6 := st5.decUses i
            if ¬ (st6.locs newl).IsScratch then .error msgScratchGuard
            else .ok (newl, st6)
        else .error msgInvalidCurrentLocation

/-- `UseScratchHostLocReg(IR::Value, ...)` (lines 176–182). -/
def useScratchHostLocRegV (v : Value) (desired : List HostLoc) (st : RState) :
    Except String (HostLoc × RState) :=
  match v with
  | .ref i => useScratchHostLocRegI i desired st
  | .imm _ _ => do
      let (l, st2) ← scratchHostLocReg desired st
      loadImmediateIntoHostLocReg v l st2

/-- `UseHostLocReg(IR::Inst*, ...)` (lines 140–164).  Note the use count
is decremented at entry, before any dispatch. -/
def useHostLocRegI (i : Nat) (desired : List HostLoc) (st : RState) :
    Except String (HostLoc × RState) := do
  let st1 := st.decUses i
  match valueLocation st1 i with
  | none => .error msgNotDefined
  | some cur =>
    if cur ∈ desired then
      .ok (cur, st1.setLoc cur ((st1.locs cur).Lock))
    else if (st1.locs cur).IsLocked then
      useScratchHostLocRegI i desired st1
    else do
      let dest ← selectARegister st1 desired
      let st2 ←
        if isSameHostLocClass dest cur then exchange dest cur st1
        else do
          let stx ← moveOutOfTheWay dest st1
          move dest cur stx
      .ok (dest, st2.setLoc dest ((st2.locs dest).Lock))

/-- `UseHostLocReg(IR::Value, ...)` (lines 132–138). -/
def useHostLocRegV (v : Value) (desired : List HostLoc) (st : RState) :
    Except String (HostLoc × RState) :=
  match v with
  | .ref i => useHostLocRegI i desired st
  | .imm _ _ => do
      let (l, st2) ← scratchHostLocReg desired st
      loadImmediateIntoHostLocReg v l st2

/-- `UseOpArg` (lines 166–174): immediates assert; otherwise delegate and
convert the location (spill locations would assert in HostLocToX64). -/
def useOpArg (v : Value) (desired : List HostLoc) (st : RState) :
    Except String (HostLoc × RState) :=
  match v with
  | .imm _ _ => .error msgUseOpArgImm
  | .ref i => do
      let (l, st2) ← useHostLocRegI i desired st
      let x ← hostLocToX64 l
      .ok (x, st2)

/-- `any_gpr`: the allocatable GPRs in enum order, excluding the reserved
RSP and R15.  Modelled from the spec (§4.A). -/
def anyGpr : List HostLoc :=
  [RAX, RCX, RDX, RBX, RBP, RSI, RDI, R8, R9, R10, R11, R12, R13, R14]

/-- `UseDefOpArgHostLocReg` (lines 99–130).  The `IsLastUse` fast path
(lines 107–123) is embedded faithfully but is dead because `IsLastUse`
always answers false. -/
def useDefOpArgHostLocReg (useV : Value) (defI : Nat) (desired : List HostLoc)
    (st : RState) : Except String ((HostLoc × HostLoc) × RState) := do
  if ¬ desired.all HostLocIsRegister then .error msgDesiredNotRegister
  else if (valueLocation st defI).isSome then .error msgAlreadyDefined
  else if ¬ (useV.isImmediate ||
      (match useV with | .ref i => (valueLocation st i).isSome | _ => false)) then
    .error msgNotDefined
  else do
    let fast ←
      match useV with
      | .ref i =>
          if isLastUse st i then
            match valueLocation st i with
            | none => .error msgNotDefined
            | some cur =>
              if ¬ (st.locs cur).IsIdle then
                if HostLocIsSpill cur then do
                  let st2 := st.setLoc cur ((st.locs cur).Lock)
                  if ¬ (st2.locs cur).IsUse then .error msgUseGuard
                  else do
                    let (l, st3) ← scratchHostLocReg desired st2
                    let st4 ← defineValue defI l st3
                    pure (some ((cur, l), st4))
                else do
                  let st2 := st.setLoc cur ((st.locs cur).Lock)
                  let st3 ← defineValue defI cur st2
                  let x ← hostLocToX64 cur
                  pure (some ((x, cur), st3))
              else pure none
          else pure none
      | _ => pure none
    match fast with
    | some r => .ok r
    | none => do
        let (oparg, st2) ← useOpArg useV anyGpr st
        let (defReg, st3) ← scratchHostLocReg desired st2
        let st4 ← defineValue defI defReg st3
        .ok ((oparg, defReg), st4)

/-- `RegisterAddDef` (lines 83–97). -/
def registerAddDef (defI : Nat) (useV : Value) (st : RState) : Except String RState := do
  if (valueLocation st defI).isSome then .error msgAlreadyDefined
  else
    match useV with
    | .imm _ _ => do
        let (l, st2) ← scratchHostLocReg anyGpr st
        let st3 ← defineValue defI l st2
        let (_, st4) ← loadImmediateIntoHostLocReg useV l st3
        .ok st4
    | .ref i => do
        let st2 := st.decUses i
        match valueLocation st2 i with
        | none => .error msgNotDefined
        | some l => defineValue defI l st2

/-- `UseHostLoc` (lines 359–393). -/
def useHostLoc (i : Nat) (desired : List HostLoc) (st : RState) :
    Except String ((HostLoc × Bool) × RState) := do
  if ¬ desired.all HostLocIsRegister then .error msgDesiredNotRegister
  else
    match valueLocation st i with
    | none => .error msgNotDefined
    | some cur =>
      if cur ∈ desired then do
        let wasBeingUsed := (st.locs cur).IsLocked
        if ¬ ((st.locs cur).IsUse || (st.locs cur).IsIdle) then .error msgUseKindGuard
        else do
          let st2 := st.setLoc cur ((st.locs cur).Lock)
          let st3 := st2.decUses i
          if ¬ (st3.locs cur).IsUse then .error msgUseGuard
          else .ok ((cur, wasBeingUsed), st3)
      else if HostLocIsSpill cur then do
        let wasBeingUsed := (st.locs cur).IsLocked
        let st2 := st.setLoc cur ((st.locs cur).Lock)
        let st3 := st2.decUses i
        if ¬ (st3.locs cur).IsUse then .error msgUseGuard
        else .ok ((cur, wasBeingUsed), st3)
      else if HostLocIsRegister cur then do
        let newl ← selectARegister st desired
        if ¬ (st.locs cur).IsIdle then .error msgIdleGuard
        else do
          let st2 ← emitExchange st newl cur
          let a := st2.locs newl
          let c := st2.locs cur
          let st3 := (st2.setLoc newl c).setLoc cur a
          let st4 := st3.setLoc newl ((st3.locs newl).Lock)
          let st5 := st4.decUses i
          if ¬ (st5.locs newl).IsUse then .error msgUseGuard
          else .ok ((newl, false), st5)
      else .error msgInvalidCurrentLocation

/-- ABI description.  Modelled from the spec (§6): the first four integer
parameter registers, the integer return register, and the ordered
caller-saved set, which contains the return and parameter registers (§8:
"the five named ABI registers become Scratch; every other caller-saved
register becomes Scratch").  The concrete identities follow the Win64
convention the backend targets. -/
def ABI_RETURN : HostLoc := RAX
def ABI_PARAM1 : HostLoc := RCX
def ABI_PARAM2 : HostLoc := RDX
def ABI_PARAM3 : HostLoc := R8
def ABI_PARAM4 : HostLoc := R9

def ABI_ALL_CALLER_SAVE : List HostLoc :=
  [RAX, RCX, RDX, R8, R9, R10, R11, XMM0, XMM1, XMM2, XMM3, XMM4, XMM5]

/-- The lazily-computed `other_caller_save` list of `HostCall`
(lines 242–249): the caller-saved set with the four parameter registers
erased — and nothing else erased. -/
def otherCallerSave : List HostLoc :=
  [ABI_PARAM1, ABI_PARAM2, ABI_PARAM3, ABI_PARAM4].foldl
    (fun r l => r.erase l) ABI_ALL_CALLER_SAVE

/-- `HostCall` (lines 237–270). -/
def hostCall (resultDef : Option Nat) (a0 a1 a2 a3 : Option Value) (st : RState) :
    Except String RState := do
  let st1 ←
    match resultDef with
    | some r => do
        let (l, stx) ← scratchHostLocReg [ABI_RETURN] st
        defineValue r l stx
    | none => do
        let (_, stx) ← scratchHostLocReg [ABI_RETURN] st
        pure stx
  let st2 ← (List.zip [a0, a1, a2, a3] [ABI_PARAM1, ABI_PARAM2, ABI_PARAM3, ABI_PARAM4]).foldlM
    (fun stx p =>
      match p.1 with
      | some v => do
          let (_, sty) ← useScratchHostLocRegV v [p.2] stx
          pure sty
      | none => do
          let (_, sty) ← scratchHostLocReg [p.2] stx
          pure sty) st1
  otherCallerSave.foldlM
    (fun stx l => do
      let (_, sty) ← scratchHostLocReg [l] stx
      pure sty) st2

/-! ## Residence invariant of the allocator (claim C2) -/

/-- Value `v` currently names HostLoc `l` as its home. -/
def ContainsV (st : RState) (l : HostLoc) (v : Nat) : Prop :=
  v ∈ (st.locs l).values

/-- Value `v` is resident somewhere. -/
def Resident (st : RState) (v : Nat) : Prop := ∃ l, ContainsV st l v

/-- The residence invariant: every value with a positive remaining-use
count that is resident at all is resident in exactly one HostLoc. -/
def AllocInv (st : RState) : Prop :=
  ∀ v, 0 < st.uses v → Resident st v → ∃! l, ContainsV st l v

/-- The invariant of the residence claim in its strong form: every value
with a positive remaining-use count is resident in exactly one HostLoc. -/
def UniqueResidence (st : RState) : Prop :=
  ∀ v, 0 < st.uses v → ∃! l, ContainsV st l v

/-- Simulation facts carried across one successful allocator action:
the invariant is preserved, no value with remaining uses is evicted, and
use counts never increase. -/
def APres (st st2 : RState) : Prop :=
  (AllocInv st → AllocInv st2) ∧
  (∀ v, Resident st v → 0 < st2.uses v → Resident st2 v) ∧
  (∀ v, st2.uses v ≤ st.uses v)

/-- The allocator operations named by the claim: define, the use family,
scratch, spill, move, exchange and end-of-scope. -/
inductive AllocOp where
  | defineOp (v : Nat) (l : HostLoc)
  | useReg (v : Value) (desired : List HostLoc)
  | useScratchReg (v : Value) (desired : List HostLoc)
  | scratchReg (desired : List HostLoc)
  | useOpA (v : Value) (desired : List HostLoc)
  | useDefOp (u : Value) (d : Nat) (desired : List HostLoc)
  | addDef (d : Nat) (u : Value)
  | callHost (res : Option Nat) (a0 a1 a2 a3 : Option Value)
  | useLoc (v : Nat) (desired : List HostLoc)
  | spillOp (l : HostLoc)
  | moveOp (dst src : HostLoc)
  | exchangeOp (a b : HostLoc)
  | moveOutOp (l : HostLoc)
  | endScope

/-- Run one public allocator operation, keeping only the state. -/
def applyOp : AllocOp → RState → Except String RState
  | .defineOp v l, st => defineValue v l st
  | .useReg v d, st => (useHostLocRegV v d st).map Prod.snd
  | .useScratchReg v d, st => (useScratchHostLocRegV v d st).map Prod.snd
  | .scratchReg d, st => (scratchHostLocReg d st).map Prod.snd
  | .useOpA v d, st => (useOpArg v d st).map Prod.snd
  | .useDefOp u dd d, st => (useDefOpArgHostLocReg u dd d st).map Prod.snd
  | .addDef dd u, st => registerAddDef dd u st
  | .callHost r a0 a1 a2 a3, st => hostCall r a0 a1 a2 a3 st
  | .useLoc v d, st => (useHostLoc v d st).map Prod.snd
  | .spillOp l, st => spillRegister l st
  | .moveOp a b, st => move a b st
  | .exchangeOp a b, st => exchange a b st
  | .moveOutOp l, st => moveOutOfTheWay l st
  | .endScope, st => .ok (endOfAllocScope st)

/-! ## Basic lemmas about the block-rewriting primitives -/

@[simp]
theorem exc_ok_bind {α β : Type} (a : α) (f : α → Except String β) :
    (Except.ok a : Except String α) >>= f = f a := rfl

@[simp]
theorem exc_error_bind {α β : Type} (e : String) (f : α → Except String β) :
    (Except.error e : Except String α) >>= f = Except.error e := rfl

@[simp]
theorem exc_pure_eq {α : Type} (a : α) :
    (pure a : Except String α) = Except.ok a := rfl

theorem list_map_id_of_mem {α : Type} (l : List α) (f : α → α) (h : ∀ a ∈ l, f a = a) :
    l.map f = l := by
  induction l with
  | nil => rfl
  | cons x xs ih =>
      simp only [List.map_cons, List.cons.injEq]
      exact ⟨h x (by simp), ih (fun a ha => h a (by simp [ha]))⟩

theorem replaceUsesWith_length (b : Block) (k : Nat) (v : Value) :
    (replaceUsesWith b k v).length = b.length := by
  simp [replaceUsesWith]

theorem replaceUsesWith_get? (b : Block) (k : Nat) (v : Value) (j : Nat) :
    (replaceUsesWith b k v).get? j =
      (b.get? j).map (fun inst =>
        { inst with args := inst.args.map (fun a => if a = Value.ref k then v else a) }) := by
  simp [replaceUsesWith, List.get?_map]

theorem setArg_length (b : Block) (k i : Nat) (v : Value) :
    (setArg b k i v).length = b.length := by
  unfold setArg
  cases h : b.get? k <;> simp

theorem setArg_get?_ne (b : Block) (k i : Nat) (v : Value) (j : Nat) (hjk : j ≠ k) :
    (setArg b k i v).get? j = b.get? j := by
  unfold setArg
  cases h : b.get? k
  · rfl
  · exact List.get?_set_ne _ _ (fun h2 => hjk h2.symm)

theorem setArg_get?_same (b : Block) (k i : Nat) (v : Value) (inst : Inst)
    (h : b.get? k = some inst) :
    (setArg b k i v).get? k = some { inst with args := inst.args.set i v } := by
  unfold setArg
  rw [h]
  have hk : k < b.length := List.get?_eq_some.mp h |>.choose
  exact List.get?_set_eq_of_lt _ hk

/-- After `replaceUsesWith b k v` with `v ≠ ref k`, no operand of any
instruction of the block refers to `k` any more: every use was replaced. -/
theorem replaceUsesWith_no_refs (b : Block) (k : Nat) (v : Value) (hv : v ≠ Value.ref k) :
    ∀ inst ∈ replaceUsesWith b k v, Value.ref k ∉ inst.args := by
  intro inst hmem
  simp only [replaceUsesWith, List.mem_map] at hmem
  obtain ⟨inst0, _, rfl⟩ := hmem
  simp only [List.mem_map]
  rintro ⟨a, _, ha⟩
  by_cases h : a = Value.ref k <;> simp [h] at ha <;> exact hv ha

/-! ## Claim C3: division by an immediate zero divisor -/

/-- C3: for every division instruction (SignedDiv32/64, UnsignedDiv32/64)
whose divisor operand is the immediate zero, the constant-propagation pass
replaces every use of the instruction with the immediate 0 of the
instruction's output width (u32 for the 32-bit opcodes, u64 for the 64-bit
ones), raises no error (`Except.ok`), and does so regardless of the
dividend operand. -/
theorem C3_foldDivide_zero_divisor (b : Block) (k : Nat) (inst : Inst) (ty : ImmTy)
    (hget : getInst b k = .ok inst)
    (hop : inst.opcode ∈ divOps)
    (hrhs : inst.getArg 1 = .ok (Value.imm ty 0)) :
    foldInstAt b k =
      .ok (replaceUsesWith b k
        (if opcode32 inst.opcode then Value.imm .U32 0 else Value.imm .U64 0)) ∧
    ∀ b2, foldInstAt b k = .ok b2 → ∀ inst2 ∈ b2, Value.ref k ∉ inst2.args := by
  have hzero : (Value.imm ty 0).isZero = true := rfl
  have hmain : foldInstAt b k =
      .ok (replaceUsesWith b k
        (if opcode32 inst.opcode then Value.imm .U32 0 else Value.imm .U64 0)) := by
    simp only [divOps, List.mem_cons, List.not_mem_nil, or_false] at hop
    rcases hop with h | h | h | h <;>
      simp [foldInstAt, hget, h, foldDivide, hrhs, hzero, mkValue, opcode32]
  refine ⟨hmain, ?_⟩
  intro b2 hb2
  rw [hmain] at hb2
  cases hb2
  exact replaceUsesWith_no_refs b k _ (by split <;> simp)


/-! ## Evaluation lemmas for the commutative folder -/

theorem foldCommutative_both_imm (b : Block) (k : Nat) (inst : Inst) (is32 : Bool)
    (fn : Nat → Nat → Nat) (ty1 ty2 : ImmTy) (v1 v2 : Nat)
    (hget : getInst b k = .ok inst)
    (h0 : inst.getArg 0 = .ok (Value.imm ty1 v1))
    (h1 : inst.getArg 1 = .ok (Value.imm ty2 v2)) :
    foldCommutative b k is32 fn =
      .ok (replaceUsesWith b k (mkValue is32 (fn v1 v2)), false) := by
  simp [foldCommutative, hget, h0, h1, Value.isImmediate, Value.immAsU64]

theorem foldAND_both_imm (b : Block) (k : Nat) (inst : Inst) (is32 : Bool)
    (ty1 ty2 : ImmTy) (v1 v2 : Nat)
    (hget : getInst b k = .ok inst)
    (h0 : inst.getArg 0 = .ok (Value.imm ty1 v1))
    (h1 : inst.getArg 1 = .ok (Value.imm ty2 v2)) :
    foldAND b k is32 = .ok (replaceUsesWith b k (mkValue is32 (v1 &&& v2))) := by
  simp [foldAND, foldCommutative_both_imm b k inst is32 _ ty1 ty2 v1 v2 hget h0 h1]

theorem foldEOR_both_imm (b : Block) (k : Nat) (inst : Inst) (is32 : Bool)
    (ty1 ty2 : ImmTy) (v1 v2 : Nat)
    (hget : getInst b k = .ok inst)
    (h0 : inst.getArg 0 = .ok (Value.imm ty1 v1))
    (h1 : inst.getArg 1 = .ok (Value.imm ty2 v2)) :
    foldEOR b k is32 = .ok (replaceUsesWith b k (mkValue is32 (v1 ^^^ v2))) := by
  simp [foldEOR, foldCommutative_both_imm b k inst is32 _ ty1 ty2 v1 v2 hget h0 h1]

theorem foldOR_both_imm (b : Block) (k : Nat) (inst : Inst) (is32 : Bool)
    (ty1 ty2 : ImmTy) (v1 v2 : Nat)
    (hget : getInst b k = .ok inst)
    (h0 : inst.getArg 0 = .ok (Value.imm ty1 v1))
    (h1 : inst.getArg 1 = .ok (Value.imm ty2 v2)) :
    foldOR b k is32 = .ok (replaceUsesWith b k (mkValue is32 (v1 ||| v2))) := by
  simp [foldOR, foldCommutative_both_imm b k inst is32 _ ty1 ty2 v1 v2 hget h0 h1]

theorem foldMultiply_both_imm (b : Block) (k : Nat) (inst : Inst) (is32 : Bool)
    (ty1 ty2 : ImmTy) (v1 v2 : Nat)
    (hget : getInst b k = .ok inst)
    (h0 : inst.getArg 0 = .ok (Value.imm ty1 v1))
    (h1 : inst.getArg 1 = .ok (Value.imm ty2 v2)) :
    foldMultiply b k is32 = .ok (replaceUsesWith b k (mkValue is32 ((v1 * v2) % 2 ^ 64))) := by
  simp [foldMultiply, foldCommutative_both_imm b k inst is32 _ ty1 ty2 v1 v2 hget h0 h1]

/-- Dispatch of `foldInstAt` for a commutative opcode: the switch selects
the matching folder with `is_32_bit` decided by the opcode. -/
theorem foldInstAt_comm_dispatch (b : Block) (k : Nat) (inst : Inst) (op : Opcode)
    (hget : getInst b k = .ok inst) (h : inst.opcode = op) (hop : op ∈ commOps) :
    foldInstAt b k =
      (match op with
       | .And32 => foldAND b k true
       | .And64 => foldAND b k false
       | .Eor32 => foldEOR b k true
       | .Eor64 => foldEOR b k false
       | .Or32 => foldOR b k true
       | .Or64 => foldOR b k false
       | .Mul32 => foldMultiply b k true
       | _ => foldMultiply b k false) := by
  simp only [commOps, List.mem_cons, List.not_mem_nil, or_false] at hop
  rcases hop with h2 | h2 | h2 | h2 | h2 | h2 | h2 | h2 <;> subst h2 <;>
    simp [foldInstAt, hget, h]

/-! ## Claim C5: commutative ops with two immediate operands fold exactly -/

/-- C5: for every commutative foldable instruction (AND, OR, XOR, MUL, in
32- or 64-bit width) both of whose operands are immediates, the pass
replaces all uses of the instruction with a single immediate equal to the
direct 64-bit evaluation of the operation truncated to the instruction's
output width — a u32 immediate for the 32-bit opcode, a u64 immediate for
the 64-bit opcode.  The final conjunct records that for the bitwise
32-bit opcodes on in-range operands the truncation drops nothing, so no
bit the original semantics would have retained is lost (for Mul32 the
32-bit semantics is itself the truncated product). -/
theorem C5_commutative_both_imm_fold (b : Block) (k : Nat) (inst : Inst)
    (ty1 ty2 : ImmTy) (v1 v2 : Nat)
    (hget : getInst b k = .ok inst)
    (hop : inst.opcode ∈ commOps)
    (h0 : inst.getArg 0 = .ok (Value.imm ty1 v1))
    (h1 : inst.getArg 1 = .ok (Value.imm ty2 v2)) :
    foldInstAt b k =
      .ok (replaceUsesWith b k
        (if opcode32 inst.opcode then Value.imm .U32 (commEval inst.opcode v1 v2 % 2 ^ 32)
         else Value.imm .U64 (commEval inst.opcode v1 v2 % 2 ^ 64))) ∧
    (∀ b2, foldInstAt b k = .ok b2 → ∀ inst2 ∈ b2, Value.ref k ∉ inst2.args) ∧
    (inst.opcode ∈ [Opcode.And32, Opcode.Eor32, Opcode.Or32] → v1 < 2 ^ 32 → v2 < 2 ^ 32 →
      commEval inst.opcode v1 v2 % 2 ^ 32 = commEval inst.opcode v1 v2) := by
  have hmain : foldInstAt b k =
      .ok (replaceUsesWith b k
        (if opcode32 inst.opcode then Value.imm .U32 (commEval inst.opcode v1 v2 % 2 ^ 32)
         else Value.imm .U64 (commEval inst.opcode v1 v2 % 2 ^ 64))) := by
    simp only [commOps, List.mem_cons, List.not_mem_nil, or_false] at hop
    rcases hop with h | h | h | h | h | h | h | h <;>
      rw [foldInstAt_comm_dispatch b k inst _ hget h (by simp [commOps])] <;>
      simp only [foldAND_both_imm b k inst _ ty1 ty2 v1 v2 hget h0 h1,
        foldEOR_both_imm b k inst _ ty1 ty2 v1 v2 hget h0 h1,
        foldOR_both_imm b k inst _ ty1 ty2 v1 v2 hget h0 h1,
        foldMultiply_both_imm b k inst _ ty1 ty2 v1 v2 hget h0 h1] <;>
      simp [mkValue, h, opcode32, commEval, Nat.mod_mod_of_dvd]
  refine ⟨hmain, ?_, ?_⟩
  · intro b2 hb2
    rw [hmain] at hb2
    cases hb2
    exact replaceUsesWith_no_refs b k _ (by split <;> simp)
  · intro hbw hv1 hv2
    simp only [List.mem_cons, List.not_mem_nil, or_false] at hbw
    rcases hbw with h | h | h <;> rw [h] <;> simp only [commEval] <;>
      refine Nat.mod_eq_of_lt ?_
    · exact lt_of_le_of_lt Nat.and_le_left hv1
    · exact Nat.xor_lt_two_pow hv1 hv2
    · exact Nat.or_lt_two_pow hv1 hv2

/-- Witness for C3 at a concrete block: `t1 = UnsignedDiv32(t0, 0u32)`. -/
theorem C3_witness :
    (getInst [Inst.mk (.other 0) [], Inst.mk .UnsignedDiv32 [Value.ref 0, Value.imm .U32 0],
        Inst.mk (.other 1) [Value.ref 1]] 1 =
      .ok (Inst.mk .UnsignedDiv32 [Value.ref 0, Value.imm .U32 0])) ∧
    foldInstAt [Inst.mk (.other 0) [], Inst.mk .UnsignedDiv32 [Value.ref 0, Value.imm .U32 0],
        Inst.mk (.other 1) [Value.ref 1]] 1 =
      .ok (replaceUsesWith [Inst.mk (.other 0) [], Inst.mk .UnsignedDiv32 [Value.ref 0, Value.imm .U32 0],
        Inst.mk (.other 1) [Value.ref 1]] 1
        (if opcode32 Opcode.UnsignedDiv32 then Value.imm .U32 0 else Value.imm .U64 0)) :=
  ⟨rfl,
    (C3_foldDivide_zero_divisor
      [Inst.mk (.other 0) [], Inst.mk .UnsignedDiv32 [Value.ref 0, Value.imm .U32 0],
        Inst.mk (.other 1) [Value.ref 1]] 1
      (Inst.mk .UnsignedDiv32 [Value.ref 0, Value.imm .U32 0]) .U32
      rfl (by decide) rfl).1⟩

/-- Witness for C5 at a concrete block: `t0 = And32(6u32, 5u32)`. -/
theorem C5_witness :
    (getInst [Inst.mk .And32 [Value.imm .U32 6, Value.imm .U32 5]] 0 =
      .ok (Inst.mk .And32 [Value.imm .U32 6, Value.imm .U32 5])) ∧
    foldInstAt [Inst.mk .And32 [Value.imm .U32 6, Value.imm .U32 5]] 0 =
      .ok (replaceUsesWith [Inst.mk .And32 [Value.imm .U32 6, Value.imm .U32 5]] 0
        (if opcode32 Opcode.And32 then Value.imm .U32 (commEval Opcode.And32 6 5 % 2 ^ 32)
         else Value.imm .U64 (commEval Opcode.And32 6 5 % 2 ^ 64))) :=
  ⟨rfl,
    (C5_commutative_both_imm_fold [Inst.mk .And32 [Value.imm .U32 6, Value.imm .U32 5]] 0
      (Inst.mk .And32 [Value.imm .U32 6, Value.imm .U32 5])
      .U32 .U32 6 5 rfl (by decide) rfl rfl).1⟩


/-! ## Claim C8: shift by an immediate zero amount -/

theorem getInst_ok_iff (b : Block) (k : Nat) (inst : Inst) :
    getInst b k = .ok inst ↔ b.get? k = some inst := by
  unfold getInst
  cases h : b.get? k <;> simp

theorem getInst_setArg_same (b : Block) (k i : Nat) (v : Value) (inst : Inst)
    (h : getInst b k = .ok inst) :
    getInst (setArg b k i v) k = .ok { inst with args := inst.args.set i v } := by
  rw [getInst_ok_iff] at h ⊢
  exact setArg_get?_same b k i v inst h

theorem getArg_set_ne (inst : Inst) (i j : Nat) (v : Value) (hij : j ≠ i) :
    Inst.getArg { inst with args := inst.args.set i v } j = inst.getArg j := by
  unfold Inst.getArg
  rw [List.get?_set_ne v inst.args hij.symm]

/-- If no operand of an instruction refers to `c`, `ReplaceUsesWith` on `c`
leaves that instruction untouched. -/
theorem getInst_replaceUsesWith_of_not_ref (b : Block) (c k : Nat) (v : Value) (inst : Inst)
    (h : getInst b k = .ok inst) (hn : Value.ref c ∉ inst.args) :
    getInst (replaceUsesWith b c v) k = .ok inst := by
  rw [getInst_ok_iff] at h ⊢
  rw [replaceUsesWith_get?, h]
  simp only [Option.map_some', Option.some.injEq]
  have : inst.args.map (fun a => if a = Value.ref c then v else a) = inst.args := by
    apply list_map_id_of_mem
    intro a ha
    have : a ≠ Value.ref c := fun he => hn (he ▸ ha)
    simp [this]
  rw [this]

/-- Dispatch of `foldInstAt` for a shift/rotate opcode. -/
theorem foldInstAt_shift_dispatch (b : Block) (k : Nat) (inst : Inst) (op : Opcode)
    (hget : getInst b k = .ok inst) (h : inst.opcode = op) (hop : op ∈ shiftOps) :
    foldInstAt b k = foldShifts b k := by
  simp only [shiftOps, List.mem_cons, List.not_mem_nil, or_false] at hop
  rcases hop with h2 | h2 | h2 | h2 | h2 | h2 | h2 | h2 <;> subst h2 <;>
    simp [foldInstAt, hget, h]

/-- C8: for every 32- or 64-bit shift or rotate instruction whose
shift-amount operand is the immediate zero, the pass replaces every use of
the instruction with its first operand; when a `GetCarryFromOp`
pseudo-operation is associated with it, that pseudo-operation's uses are
replaced with the third (incoming-carry) operand; and when the instruction
has three arguments but no associated carry pseudo-operation, the third
operand is first forced to the constant false (`u1 0`). -/
theorem C8_foldShifts_zero_amount (b : Block) (k : Nat) (inst : Inst) (ty : ImmTy) (a0 : Value)
    (hget : getInst b k = .ok inst)
    (hop : inst.opcode ∈ shiftOps)
    (hamount : inst.getArg 1 = .ok (Value.imm ty 0))
    (h0 : inst.getArg 0 = .ok a0) :
    (getCarryPseudoOp b k = none →
      foldInstAt b k =
        .ok (replaceUsesWith
          (if inst.numArgs = 3 then setArg b k 2 (Value.imm .U1 0) else b) k a0)) ∧
    (∀ c a2, getCarryPseudoOp b k = some c → inst.getArg 2 = .ok a2 →
      Value.ref c ∉ inst.args →
      foldInstAt b k = .ok (replaceUsesWith (replaceUsesWith b c a2) k a0)) := by
  have hdisp : foldInstAt b k = foldShifts b k :=
    foldInstAt_shift_dispatch b k inst inst.opcode hget rfl hop
  have hzero : (Value.imm ty 0).isZero = true := rfl
  constructor
  · intro hc
    rw [hdisp]
    by_cases h3 : inst.numArgs = 3
    · have hset : getInst (setArg b k 2 (Value.imm .U1 0)) k =
          .ok { inst with args := inst.args.set 2 (Value.imm .U1 0) } :=
        getInst_setArg_same b k 2 (Value.imm .U1 0) inst hget
      have ham2 : Inst.getArg { inst with args := inst.args.set 2 (Value.imm .U1 0) } 1 =
          .ok (Value.imm ty 0) := by
        rw [getArg_set_ne inst 2 1 (Value.imm .U1 0) (by omega)]
        exact hamount
      have h02 : Inst.getArg { inst with args := inst.args.set 2 (Value.imm .U1 0) } 0 =
          .ok a0 := by
        rw [getArg_set_ne inst 2 0 (Value.imm .U1 0) (by omega)]
        exact h0
      simp [foldShifts, hc, hget, h3, hset, ham2, hzero, h02]
    · simp [foldShifts, hc, hget, h3, hamount, hzero, h0]
  · intro c a2 hc ha2 hnc
    rw [hdisp]
    have hrep : getInst (replaceUsesWith b c a2) k = .ok inst :=
      getInst_replaceUsesWith_of_not_ref b c k a2 inst hget hnc
    simp [foldShifts, hc, hget, hamount, hzero, ha2, hrep, h0]

/-- Witness for C8 at a concrete block: `t1 = LogicalShiftLeft32(t0, 0u8, c)`
with an associated `GetCarryFromOp` at index 2. -/
theorem C8_witness :
    (getInst [Inst.mk (.other 0) [],
        Inst.mk .LogicalShiftLeft32 [Value.ref 0, Value.imm .U8 0, Value.imm .U1 1],
        Inst.mk .GetCarryFromOp [Value.ref 1]] 1 =
      .ok (Inst.mk .LogicalShiftLeft32 [Value.ref 0, Value.imm .U8 0, Value.imm .U1 1])) ∧
    foldInstAt [Inst.mk (.other 0) [],
        Inst.mk .LogicalShiftLeft32 [Value.ref 0, Value.imm .U8 0, Value.imm .U1 1],
        Inst.mk .GetCarryFromOp [Value.ref 1]] 1 =
      .ok (replaceUsesWith
        (replaceUsesWith [Inst.mk (.other 0) [],
          Inst.mk .LogicalShiftLeft32 [Value.ref 0, Value.imm .U8 0, Value.imm .U1 1],
          Inst.mk .GetCarryFromOp [Value.ref 1]] 2 (Value.imm .U1 1)) 1 (Value.ref 0)) :=
  ⟨rfl,
    (C8_foldShifts_zero_amount
      [Inst.mk (.other 0) [],
        Inst.mk .LogicalShiftLeft32 [Value.ref 0, Value.imm .U8 0, Value.imm .U1 1],
        Inst.mk .GetCarryFromOp [Value.ref 1]] 1
      (Inst.mk .LogicalShiftLeft32 [Value.ref 0, Value.imm .U8 0, Value.imm .U1 1])
      .U8 (Value.ref 0) rfl (by decide) rfl rfl).2 2 (Value.imm .U1 1)
      (by decide) rfl (by decide)⟩

/-! ## Lemmas about well-formedness, liveness and step preservation -/

theorem WF_iff (b : Block) :
    WF b ↔ ∀ j inst, b.get? j = some inst → ∀ t, Value.ref t ∈ inst.args → t < j := by
  unfold WF wfb
  rw [List.all_eq_true]
  constructor
  · intro h j inst hj t ht
    have hjlen : j < b.length := (List.get?_eq_some.mp hj).choose
    have h2 := h j (List.mem_range.mpr hjlen)
    rw [hj] at h2
    simp only [List.all_eq_true] at h2
    have h3 := h2 _ ht
    simpa [argOk] using h3
  · intro h j _
    cases hget : b.get? j with
    | none => simp
    | some inst =>
        simp only [List.all_eq_true]
        intro a ha
        cases a with
        | imm ty v => rfl
        | ref t =>
            simp only [argOk, decide_eq_true_eq]
            exact h j inst hget t ha

theorem refsTo_of_get? (b : Block) (j t : Nat) (inst : Inst)
    (hj : b.get? j = some inst) (ha : Value.ref t ∈ inst.args) : refsTo b t :=
  ⟨inst, List.get?_mem hj, ha⟩

theorem mem_replaceUsesWith (b : Block) (t : Nat) (v : Value) (inst2 : Inst)
    (h : inst2 ∈ replaceUsesWith b t v) :
    ∃ inst1 ∈ b,
      inst2 = { inst1 with
        args := inst1.args.map (fun a => if a = Value.ref t then v else a) } := by
  simp only [replaceUsesWith, List.mem_map] at h
  obtain ⟨inst1, h1, h2⟩ := h
  exact ⟨inst1, h1, h2.symm⟩

theorem stepPres_refl (b : Block) (n : Nat) (hwf : WF b) : StepPres b b n :=
  ⟨rfl, fun _ _ => rfl, hwf, fun _ h => h, by
    intro j i1 i2 h1 h2
    rw [h1] at h2
    cases h2
    rfl⟩

theorem stepPres_trans (b b1 b2 : Block) (n : Nat)
    (h1 : StepPres b b1 n) (h2 : StepPres b1 b2 n) : StepPres b b2 n := by
  obtain ⟨hl1, hb1, hw1, hr1, ho1⟩ := h1
  obtain ⟨hl2, hb2, hw2, hr2, ho2⟩ := h2
  refine ⟨hl2.trans hl1, ?_, hw2, fun t ht => hr2 t (hr1 t ht), ?_⟩
  · intro j hj
    rw [hb2 j hj, hb1 j hj]
  · intro j i1 i2 hi1 hi2
    cases hmid : b1.get? j with
    | none =>
        exfalso
        have : j < b1.length := by
          have : j < b2.length := (List.get?_eq_some.mp hi2).choose
          omega
        rw [List.get?_eq_none] at hmid
        omega
    | some im => exact (ho2 j im i2 hmid hi2).trans (ho1 j i1 im hi1 hmid)

theorem stepPres_replaceUsesWith (b : Block) (t n : Nat) (v : Value)
    (hwf : WF b) (hnt : n ≤ t) (hvb : refBelow v n)
    (hvr : ∀ t2, v = Value.ref t2 → refsTo b t2) :
    StepPres b (replaceUsesWith b t v) n := by
  have hwfs := (WF_iff b).mp hwf
  refine ⟨replaceUsesWith_length b t v, ?_, ?_, ?_, ?_⟩
  · intro j hj
    rw [replaceUsesWith_get?]
    cases hget : b.get? j with
    | none => rfl
    | some inst =>
        simp only [Option.map_some', Option.some.injEq]
        have : inst.args.map (fun a => if a = Value.ref t then v else a) = inst.args := by
          apply list_map_id_of_mem
          intro a ha
          have : a ≠ Value.ref t := by
            intro he
            have := hwfs j inst hget t (he ▸ ha)
            omega
          simp [this]
        rw [this]
  · rw [WF_iff]
    intro j inst2 hj t2 ht2
    rw [replaceUsesWith_get?] at hj
    cases hget : b.get? j with
    | none => rw [hget] at hj; cases hj
    | some inst1 =>
        rw [hget] at hj
        simp only [Option.map_some', Option.some.injEq] at hj
        subst hj
        simp only [List.mem_map] at ht2
        obtain ⟨a0, ha0, he⟩ := ht2
        by_cases hc : a0 = Value.ref t
        · subst hc
          rw [if_pos rfl] at he
          have hlt := hvb t2 he
          have hjt := hwfs j inst1 hget t ha0
          omega
        · rw [if_neg hc] at he
          exact hwfs j inst1 hget t2 (he ▸ ha0)
  · intro t2 hnr hr
    obtain ⟨inst2, hmem, harg⟩ := hr
    obtain ⟨inst1, hmem1, heq⟩ := mem_replaceUsesWith b t v inst2 hmem
    subst heq
    simp only [List.mem_map] at harg
    obtain ⟨a0, ha0, he⟩ := harg
    by_cases hc : a0 = Value.ref t
    · subst hc
      rw [if_pos rfl] at he
      exact hnr (hvr t2 he)
    · rw [if_neg hc] at he
      exact hnr ⟨inst1, hmem1, he ▸ ha0⟩
  · intro j i1 i2 h1 h2
    rw [replaceUsesWith_get?, h1] at h2
    simp only [Option.map_some', Option.some.injEq] at h2
    subst h2
    rfl

theorem stepPres_setArg (b : Block) (n i : Nat) (v : Value)
    (hwf : WF b) (hvb : refBelow v n)
    (hvr : ∀ t2, v = Value.ref t2 → refsTo b t2) :
    StepPres b (setArg b n i v) n := by
  have hwfs := (WF_iff b).mp hwf
  have hget2 : ∀ j i2, (setArg b n i v).get? j = some i2 →
      (b.get? j = some i2 ∧ j ≠ n) ∨
      (∃ i1, b.get? j = some i1 ∧ j = n ∧ i2 = { i1 with args := i1.args.set i v }) := by
    intro j i2 hj
    by_cases hjn : j = n
    · subst hjn
      cases hget : b.get? j with
      | none => unfold setArg at hj; rw [hget] at hj; rw [hget] at hj; cases hj
      | some i1 =>
          right
          refine ⟨i1, rfl, rfl, ?_⟩
          rw [setArg_get?_same b j i v i1 hget] at hj
          cases hj
          rfl
    · left
      rw [setArg_get?_ne b n i v j hjn] at hj
      exact ⟨hj, hjn⟩
  refine ⟨setArg_length b n i v, ?_, ?_, ?_, ?_⟩
  · intro j hj
    exact setArg_get?_ne b n i v j (by omega)
  · rw [WF_iff]
    intro j inst2 hj t2 ht2
    rcases hget2 j inst2 hj with ⟨h1, _⟩ | ⟨i1, h1, hjn, he⟩
    · exact hwfs j inst2 h1 t2 ht2
    · subst hjn
      subst he
      rcases List.mem_or_eq_of_mem_set ht2 with hm | hm
      · exact hwfs j i1 h1 t2 hm
      · have := hvb t2 hm.symm
        omega
  · intro t2 hnr hr
    obtain ⟨inst2, hmem, harg⟩ := hr
    obtain ⟨j, hj⟩ := List.get?_of_mem hmem
    rcases hget2 j inst2 hj with ⟨h1, _⟩ | ⟨i1, h1, hjn, he⟩
    · exact hnr ⟨inst2, List.get?_mem h1, harg⟩
    · subst he
      rcases List.mem_or_eq_of_mem_set harg with hm | hm
      · exact hnr ⟨i1, List.get?_mem h1, hm⟩
      · exact hnr (hvr t2 hm.symm)
  · intro j i1 i2 h1 h2
    rcases hget2 j i2 h2 with ⟨h3, _⟩ | ⟨i0, h3, hjn, he⟩
    · rw [h1] at h3; cases h3; rfl
    · rw [h1] at h3; cases h3; subst he; rfl

/-! ## Characterization of the commutative folder -/

theorem mkValue_ne_ref (is32 : Bool) (v : Nat) (t : Nat) : mkValue is32 v ≠ Value.ref t := by
  unfold mkValue
  split <;> simp

/-- Exhaustive description of the successful outcomes of
`FoldCommutative`: full fold, fusion from the left, normalization swap,
fusion from the right, or no change. -/
theorem foldCommutative_cases (b : Block) (n : Nat) (is32 : Bool) (fn : Nat → Nat → Nat)
    (b2 : Block) (live : Bool)
    (h : foldCommutative b n is32 fn = .ok (b2, live)) :
    ∃ inst lhs rhs, getInst b n = .ok inst ∧
      inst.getArg 0 = .ok lhs ∧ inst.getArg 1 = .ok rhs ∧
      ((∃ ty1 v1 ty2 v2, lhs = Value.imm ty1 v1 ∧ rhs = Value.imm ty2 v2 ∧
          live = false ∧ b2 = replaceUsesWith b n (mkValue is32 (fn v1 v2))) ∨
       (∃ ty1 v1 j instj r0 ty2 v2, lhs = Value.imm ty1 v1 ∧ rhs = Value.ref j ∧
          getInst b j = .ok instj ∧ instj.opcode = inst.opcode ∧
          instj.getArg 1 = .ok (Value.imm ty2 v2) ∧ instj.getArg 0 = .ok r0 ∧
          live = true ∧ b2 = setArg (setArg b n 0 r0) n 1 (mkValue is32 (fn v1 v2))) ∨
       (∃ ty1 v1 j, lhs = Value.imm ty1 v1 ∧ rhs = Value.ref j ∧
          live = true ∧ b2 = setArg (setArg b n 0 rhs) n 1 lhs) ∨
       (∃ j instj l0 tyr vr ty2 v2, lhs = Value.ref j ∧ rhs = Value.imm tyr vr ∧
          getInst b j = .ok instj ∧ instj.opcode = inst.opcode ∧
          instj.getArg 1 = .ok (Value.imm ty2 v2) ∧ instj.getArg 0 = .ok l0 ∧
          live = true ∧ b2 = setArg (setArg b n 0 l0) n 1 (mkValue is32 (fn vr v2))) ∨
       ((∃ j, lhs = Value.ref j) ∧ live = true ∧ b2 = b)) := by
  unfold foldCommutative at h
  cases hgi : getInst b n with
  | error e => rw [hgi] at h; simp at h
  | ok inst =>
  rw [hgi] at h
  simp only [exc_ok_bind] at h
  cases h0 : inst.getArg 0 with
  | error e => rw [h0] at h; simp at h
  | ok lhs =>
  rw [h0] at h
  simp only [exc_ok_bind] at h
  cases h1 : inst.getArg 1 with
  | error e => rw [h1] at h; simp at h
  | ok rhs =>
  rw [h1] at h
  simp only [exc_ok_bind] at h
  refine ⟨inst, lhs, rhs, rfl, h0, h1, ?_⟩
  cases lhs with
  | imm ty1 v1 =>
    cases rhs with
    | imm ty2 v2 =>
        simp only [Value.isImmediate, Value.immAsU64, exc_ok_bind, Except.ok.injEq,
          Prod.mk.injEq] at h
        exact Or.inl ⟨ty1, v1, ty2, v2, rfl, rfl, h.2.symm, h.1.symm⟩
    | ref j =>
        simp only [Value.isImmediate] at h
        cases hgj : getInst b j with
        | error e => rw [hgj] at h; simp at h
        | ok instj =>
        rw [hgj] at h
        simp only [exc_ok_bind] at h
        by_cases hopj : instj.opcode = inst.opcode
        · rw [if_pos hopj] at h
          cases hr1 : instj.getArg 1 with
          | error e => rw [hr1] at h; simp at h
          | ok r1 =>
          rw [hr1] at h
          simp only [exc_ok_bind] at h
          cases r1 with
          | imm ty2 v2 =>
              simp only [Value.isImmediate, Value.immAsU64, exc_ok_bind, if_true] at h
              cases hr0 : instj.getArg 0 with
              | error e => rw [hr0] at h; simp at h
              | ok r0 =>
              rw [hr0] at h
              simp only [exc_ok_bind, Except.ok.injEq, Prod.mk.injEq] at h
              exact Or.inr (Or.inl ⟨ty1, v1, j, instj, r0, ty2, v2, rfl, rfl, hgj, hopj,
                hr1, hr0, h.2.symm, h.1.symm⟩)
          | ref j2 =>
              simp only [Value.isImmediate, Bool.false_eq_true, if_false,
                Except.ok.injEq, Prod.mk.injEq] at h
              exact Or.inr (Or.inr (Or.inl ⟨ty1, v1, j, rfl, rfl, h.2.symm, h.1.symm⟩))
        · rw [if_neg hopj] at h
          simp only [Except.ok.injEq, Prod.mk.injEq] at h
          exact Or.inr (Or.inr (Or.inl ⟨ty1, v1, j, rfl, rfl, h.2.symm, h.1.symm⟩))
  | ref j =>
    cases rhs with
    | imm tyr vr =>
        simp only [Value.isImmediate] at h
        cases hgj : getInst b j with
        | error e => rw [hgj] at h; simp at h
        | ok instj =>
        rw [hgj] at h
        simp only [exc_ok_bind] at h
        by_cases hopj : instj.opcode = inst.opcode
        · rw [if_pos hopj] at h
          cases hr1 : instj.getArg 1 with
          | error e => rw [hr1] at h; simp at h
          | ok l1 =>
          rw [hr1] at h
          simp only [exc_ok_bind] at h
          cases l1 with
          | imm ty2 v2 =>
              simp only [Value.isImmediate, Value.immAsU64, exc_ok_bind, if_true] at h
              cases hr0 : instj.getArg 0 with
              | error e => rw [hr0] at h; simp at h
              | ok l0 =>
              rw [hr0] at h
              simp only [exc_ok_bind, Except.ok.injEq, Prod.mk.injEq] at h
              exact Or.inr (Or.inr (Or.inr (Or.inl ⟨j, instj, l0, tyr, vr, ty2, v2, rfl, rfl,
                hgj, hopj, hr1, hr0, h.2.symm, h.1.symm⟩)))
          | ref j2 =>
              simp only [Value.isImmediate, Bool.false_eq_true, if_false,
                Except.ok.injEq, Prod.mk.injEq] at h
              exact Or.inr (Or.inr (Or.inr (Or.inr ⟨⟨j, rfl⟩, h.2.symm, h.1.symm⟩)))
        · rw [if_neg hopj] at h
          simp only [Except.ok.injEq, Prod.mk.injEq] at h
          exact Or.inr (Or.inr (Or.inr (Or.inr ⟨⟨j, rfl⟩, h.2.symm, h.1.symm⟩)))
    | ref j2 =>
        simp only [Value.isImmediate, Except.ok.injEq, Prod.mk.injEq] at h
        exact Or.inr (Or.inr (Or.inr (Or.inr ⟨⟨j, rfl⟩, h.2.symm, h.1.symm⟩)))

/-! ## Step preservation for each folder -/

theorem getArg_ok_mem (inst : Inst) (i : Nat) (a : Value) (h : inst.getArg i = .ok a) :
    a ∈ inst.args := by
  unfold Inst.getArg at h
  cases hg : inst.args.get? i with
  | none => rw [hg] at h; cases h
  | some a2 => rw [hg] at h; cases h; exact List.get?_mem hg

theorem getInst_some (b : Block) (n : Nat) (inst : Inst) (h : getInst b n = .ok inst) :
    b.get? n = some inst := (getInst_ok_iff b n inst).mp h

theorem stepPres_replace_imm (b : Block) (t n : Nat) (ty : ImmTy) (v : Nat)
    (hwf : WF b) (hnt : n ≤ t) :
    StepPres b (replaceUsesWith b t (Value.imm ty v)) n :=
  stepPres_replaceUsesWith b t n _ hwf hnt (by intro t2 ht; cases ht)
    (by intro t2 ht; cases ht)

theorem stepPres_replace_mk (b : Block) (t n : Nat) (is32 : Bool) (v : Nat)
    (hwf : WF b) (hnt : n ≤ t) :
    StepPres b (replaceUsesWith b t (mkValue is32 v)) n :=
  stepPres_replaceUsesWith b t n _ hwf hnt
    (by intro t2 ht; exact absurd ht (mkValue_ne_ref is32 v t2))
    (by intro t2 ht; exact absurd ht (mkValue_ne_ref is32 v t2))

theorem stepPres_replace_argval (b : Block) (t n j : Nat) (inst : Inst) (a : Value)
    (hwf : WF b) (hnt : n ≤ t) (hj : b.get? j = some inst) (hjn : j ≤ n)
    (ha : a ∈ inst.args) :
    StepPres b (replaceUsesWith b t a) n := by
  refine stepPres_replaceUsesWith b t n a hwf hnt ?_ ?_
  · intro t2 ht
    have := ((WF_iff b).mp hwf) j inst hj t2 (ht ▸ ha)
    omega
  · intro t2 ht
    exact ⟨inst, List.get?_mem hj, ht ▸ ha⟩

theorem stepPres_setArg_imm (b : Block) (n i : Nat) (ty : ImmTy) (v : Nat) (hwf : WF b) :
    StepPres b (setArg b n i (Value.imm ty v)) n :=
  stepPres_setArg b n i _ hwf (by intro t2 ht; cases ht) (by intro t2 ht; cases ht)

theorem stepPres_setArg_mk (b : Block) (n i : Nat) (is32 : Bool) (v : Nat) (hwf : WF b) :
    StepPres b (setArg b n i (mkValue is32 v)) n :=
  stepPres_setArg b n i _ hwf
    (by intro t2 ht; exact absurd ht (mkValue_ne_ref is32 v t2))
    (by intro t2 ht; exact absurd ht (mkValue_ne_ref is32 v t2))

theorem stepPres_setArg_argval (b : Block) (n i j : Nat) (inst : Inst) (a : Value)
    (hwf : WF b) (hj : b.get? j = some inst) (hjn : j ≤ n) (ha : a ∈ inst.args) :
    StepPres b (setArg b n i a) n := by
  refine stepPres_setArg b n i a hwf ?_ ?_
  · intro t2 ht
    have := ((WF_iff b).mp hwf) j inst hj t2 (ht ▸ ha)
    omega
  · intro t2 ht
    exact ⟨inst, List.get?_mem hj, ht ▸ ha⟩

theorem stepPres_foldCommutative (b b1 : Block) (n : Nat) (is32 live : Bool)
    (fn : Nat → Nat → Nat) (hwf : WF b)
    (h : foldCommutative b n is32 fn = .ok (b1, live)) :
    StepPres b b1 n := by
  obtain ⟨inst, lhs, rhs, hgi, h0, h1, hc⟩ := foldCommutative_cases b n is32 fn b1 live h
  have hbn : b.get? n = some inst := getInst_some b n inst hgi
  rcases hc with ⟨ty1, v1, ty2, v2, _, _, _, hb⟩ |
    ⟨ty1, v1, j, instj, r0, ty2, v2, hl, hr, hgj, _, _, hr0, _, hb⟩ |
    ⟨ty1, v1, j, hl, hr, _, hb⟩ |
    ⟨j, instj, l0, tyr, vr, ty2, v2, hl, hr, hgj, _, _, hr0, _, hb⟩ |
    ⟨_, _, hb⟩
  · subst hb
    exact stepPres_replace_mk b n n is32 _ hwf le_rfl
  · subst hb
    have hjn : j < n := ((WF_iff b).mp hwf) n inst hbn j (hr ▸ getArg_ok_mem inst 1 rhs h1)
    have s1 : StepPres b (setArg b n 0 r0) n :=
      stepPres_setArg_argval b n 0 j instj r0 hwf (getInst_some b j instj hgj)
        (by omega) (getArg_ok_mem instj 0 r0 hr0)
    have s2 : StepPres (setArg b n 0 r0) (setArg (setArg b n 0 r0) n 1 (mkValue is32 (fn v1 v2))) n :=
      stepPres_setArg_mk (setArg b n 0 r0) n 1 is32 _ s1.2.2.1
    exact stepPres_trans _ _ _ n s1 s2
  · subst hb
    subst hl
    have s1 : StepPres b (setArg b n 0 rhs) n :=
      stepPres_setArg_argval b n 0 n inst rhs hwf hbn le_rfl (getArg_ok_mem inst 1 rhs h1)
    have s2 : StepPres (setArg b n 0 rhs) (setArg (setArg b n 0 rhs) n 1 (Value.imm ty1 v1)) n :=
      stepPres_setArg_imm (setArg b n 0 rhs) n 1 ty1 v1 s1.2.2.1
    exact stepPres_trans _ _ _ n s1 s2
  · subst hb
    have hjn : j < n := ((WF_iff b).mp hwf) n inst hbn j (hl ▸ getArg_ok_mem inst 0 lhs h0)
    have s1 : StepPres b (setArg b n 0 l0) n :=
      stepPres_setArg_argval b n 0 j instj l0 hwf (getInst_some b j instj hgj)
        (by omega) (getArg_ok_mem instj 0 l0 hr0)
    have s2 : StepPres (setArg b n 0 l0) (setArg (setArg b n 0 l0) n 1 (mkValue is32 (fn vr v2))) n :=
      stepPres_setArg_mk (setArg b n 0 l0) n 1 is32 _ s1.2.2.1
    exact stepPres_trans _ _ _ n s1 s2
  · subst hb
    exact stepPres_refl _ n hwf

theorem foldAND_cases (b b2 : Block) (n : Nat) (is32 : Bool)
    (h : foldAND b n is32 = .ok b2) :
    ∃ b1 live, foldCommutative b n is32 (fun a c => a &&& c) = .ok (b1, live) ∧
      CommTailShape n is32 b1 b2 live := by
  unfold foldAND at h
  cases hfc : foldCommutative b n is32 (fun a c => a &&& c) with
  | error e => rw [hfc] at h; simp at h
  | ok p =>
  obtain ⟨b1, live⟩ := p
  refine ⟨b1, live, rfl, ?_⟩
  rw [hfc] at h
  simp only [exc_ok_bind] at h
  cases live with
  | false =>
      simp only [Bool.false_eq_true, if_false, Except.ok.injEq] at h
      exact Or.inl ⟨rfl, h.symm⟩
  | true =>
  simp only [if_true] at h
  refine Or.inr ⟨rfl, ?_⟩
  cases hgi : getInst b1 n with
  | error e => rw [hgi] at h; simp at h
  | ok inst1 =>
  rw [hgi] at h
  simp only [exc_ok_bind] at h
  cases h1 : inst1.getArg 1 with
  | error e => rw [h1] at h; simp at h
  | ok rhs1 =>
  rw [h1] at h
  simp only [exc_ok_bind] at h
  by_cases hz : rhs1.isZero = true
  · rw [if_pos hz] at h
    simp only [Except.ok.injEq] at h
    exact Or.inr (Or.inl h.symm)
  · rw [if_neg hz] at h
    by_cases ha : rhs1.hasAllBitsSet = true
    · rw [if_pos ha] at h
      cases h0 : inst1.getArg 0 with
      | error e => rw [h0] at h; simp at h
      | ok a0 =>
      rw [h0] at h
      simp only [exc_ok_bind, Except.ok.injEq] at h
      exact Or.inr (Or.inr ⟨inst1, a0, rfl, h0, h.symm⟩)
    · rw [if_neg ha] at h
      simp only [Except.ok.injEq] at h
      exact Or.inl h.symm

theorem foldEOR_cases (b b2 : Block) (n : Nat) (is32 : Bool)
    (h : foldEOR b n is32 = .ok b2) :
    ∃ b1 live, foldCommutative b n is32 (fun a c => a ^^^ c) = .ok (b1, live) ∧
      CommTailShape n is32 b1 b2 live := by
  unfold foldEOR at h
  cases hfc : foldCommutative b n is32 (fun a c => a ^^^ c) with
  | error e => rw [hfc] at h; simp at h
  | ok p =>
  obtain ⟨b1, live⟩ := p
  refine ⟨b1, live, rfl, ?_⟩
  rw [hfc] at h
  simp only [exc_ok_bind] at h
  cases live with
  | false =>
      simp only [Bool.false_eq_true, if_false, Except.ok.injEq] at h
      exact Or.inl ⟨rfl, h.symm⟩
  | true =>
  simp only [if_true] at h
  refine Or.inr ⟨rfl, ?_⟩
  cases hgi : getInst b1 n with
  | error e => rw [hgi] at h; simp at h
  | ok inst1 =>
  rw [hgi] at h
  simp only [exc_ok_bind] at h
  cases h1 : inst1.getArg 1 with
  | error e => rw [h1] at h; simp at h
  | ok rhs1 =>
  rw [h1] at h
  simp only [exc_ok_bind] at h
  by_cases hz : rhs1.isZero = true
  · rw [if_pos hz] at h
    cases h0 : inst1.getArg 0 with
    | error e => rw [h0] at h; simp at h
    | ok a0 =>
    rw [h0] at h
    simp only [exc_ok_bind, Except.ok.injEq] at h
    exact Or.inr (Or.inr ⟨inst1, a0, rfl, h0, h.symm⟩)
  · rw [if_neg hz] at h
    simp only [Except.ok.injEq] at h
    exact Or.inl h.symm

theorem foldOR_cases (b b2 : Block) (n : Nat) (is32 : Bool)
    (h : foldOR b n is32 = .ok b2) :
    ∃ b1 live, foldCommutative b n is32 (fun a c => a ||| c) = .ok (b1, live) ∧
      CommTailShape n is32 b1 b2 live := by
  unfold foldOR at h
  cases hfc : foldCommutative b n is32 (fun a c => a ||| c) with
  | error e => rw [hfc] at h; simp at h
  | ok p =>
  obtain ⟨b1, live⟩ := p
  refine ⟨b1, live, rfl, ?_⟩
  rw [hfc] at h
  simp only [exc_ok_bind] at h
  cases live with
  | false =>
      simp only [Bool.false_eq_true, if_false, Except.ok.injEq] at h
      exact Or.inl ⟨rfl, h.symm⟩
  | true =>
  simp only [if_true] at h
  refine Or.inr ⟨rfl, ?_⟩
  cases hgi : getInst b1 n with
  | error e => rw [hgi] at h; simp at h
  | ok inst1 =>
  rw [hgi] at h
  simp only [exc_ok_bind] at h
  cases h1 : inst1.getArg 1 with
  | error e => rw [h1] at h; simp at h
  | ok rhs1 =>
  rw [h1] at h
  simp only [exc_ok_bind] at h
  by_cases hz : rhs1.isZero = true
  · rw [if_pos hz] at h
    cases h0 : inst1.getArg 0 with
    | error e => rw [h0] at h; simp at h
    | ok a0 =>
    rw [h0] at h
    simp only [exc_ok_bind, Except.ok.injEq] at h
    exact Or.inr (Or.inr ⟨inst1, a0, rfl, h0, h.symm⟩)
  · rw [if_neg hz] at h
    simp only [Except.ok.injEq] at h
    exact Or.inl h.symm

theorem foldMultiply_cases (b b2 : Block) (n : Nat) (is32 : Bool)
    (h : foldMultiply b n is32 = .ok b2) :
    ∃ b1 live, foldCommutative b n is32 (fun a c => (a * c) % 2 ^ 64) = .ok (b1, live) ∧
      CommTailShape n is32 b1 b2 live := by
  unfold foldMultiply at h
  cases hfc : foldCommutative b n is32 (fun a c => (a * c) % 2 ^ 64) with
  | error e => rw [hfc] at h; simp at h
  | ok p =>
  obtain ⟨b1, live⟩ := p
  refine ⟨b1, live, rfl, ?_⟩
  rw [hfc] at h
  simp only [exc_ok_bind] at h
  cases live with
  | false =>
      simp only [Bool.false_eq_true, if_false, Except.ok.injEq] at h
      exact Or.inl ⟨rfl, h.symm⟩
  | true =>
  simp only [if_true] at h
  refine Or.inr ⟨rfl, ?_⟩
  cases hgi : getInst b1 n with
  | error e => rw [hgi] at h; simp at h
  | ok inst1 =>
  rw [hgi] at h
  simp only [exc_ok_bind] at h
  cases h1 : inst1.getArg 1 with
  | error e => rw [h1] at h; simp at h
  | ok rhs1 =>
  rw [h1] at h
  simp only [exc_ok_bind] at h
  by_cases hz : rhs1.isZero = true
  · rw [if_pos hz] at h
    simp only [Except.ok.injEq] at h
    exact Or.inr (Or.inl h.symm)
  · rw [if_neg hz] at h
    by_cases ha : Value.isUnsignedImmediate 1 rhs1 = true
    · rw [if_pos ha] at h
      cases h0 : inst1.getArg 0 with
      | error e => rw [h0] at h; simp at h
      | ok a0 =>
      rw [h0] at h
      simp only [exc_ok_bind, Except.ok.injEq] at h
      exact Or.inr (Or.inr ⟨inst1, a0, rfl, h0, h.symm⟩)
    · rw [if_neg ha] at h
      simp only [Except.ok.injEq] at h
      exact Or.inl h.symm

/-- Any block reachable through a commutative folder satisfies the shared
step-preservation facts. -/
theorem stepPres_commTail (b b1 b2 : Block) (n : Nat) (is32 live : Bool)
    (fn : Nat → Nat → Nat) (hwf : WF b)
    (hfc : foldCommutative b n is32 fn = .ok (b1, live))
    (ht : CommTailShape n is32 b1 b2 live) :
    StepPres b b2 n := by
  have s1 : StepPres b b1 n := stepPres_foldCommutative b b1 n is32 live fn hwf hfc
  have hwf1 : WF b1 := s1.2.2.1
  rcases ht with ⟨_, hb⟩ | ⟨_, hb | hb | ⟨inst1, a0, hgi, h0, hb⟩⟩
  · subst hb; exact s1
  · subst hb; exact s1
  · subst hb
    exact stepPres_trans _ _ _ n s1 (stepPres_replace_mk b1 n n is32 0 hwf1 le_rfl)
  · subst hb
    exact stepPres_trans _ _ _ n s1
      (stepPres_replace_argval b1 n n n inst1 a0 hwf1 le_rfl
        (getInst_some b1 n inst1 hgi) le_rfl (getArg_ok_mem inst1 0 a0 h0))

/-! ## Step preservation for the remaining folders -/

theorem stepPres_foldLeastSignificantByte (b b2 : Block) (n : Nat) (hwf : WF b)
    (h : foldLeastSignificantByte b n = .ok b2) : StepPres b b2 n := by
  unfold foldLeastSignificantByte at h
  cases hgi : getInst b n with
  | error e => rw [hgi] at h; simp at h
  | ok inst =>
  rw [hgi] at h
  simp only [exc_ok_bind] at h
  by_cases hai : inst.areAllArgsImmediates = true
  · rw [if_pos hai] at h
    cases h0 : inst.getArg 0 with
    | error e => rw [h0] at h; simp at h
    | ok operand =>
    rw [h0] at h
    simp only [exc_ok_bind] at h
    cases hv : operand.immAsU64 with
    | error e => rw [hv] at h; simp at h
    | ok v =>
    rw [hv] at h
    simp only [exc_ok_bind, Except.ok.injEq] at h
    exact h ▸ stepPres_replace_imm b n n _ _ hwf le_rfl
  · rw [if_neg hai] at h
    simp only [Except.ok.injEq] at h
    exact h ▸ stepPres_refl b n hwf

theorem stepPres_foldLeastSignificantHalf (b b2 : Block) (n : Nat) (hwf : WF b)
    (h : foldLeastSignificantHalf b n = .ok b2) : StepPres b b2 n := by
  unfold foldLeastSignificantHalf at h
  cases hgi : getInst b n with
  | error e => rw [hgi] at h; simp at h
  | ok inst =>
  rw [hgi] at h
  simp only [exc_ok_bind] at h
  by_cases hai : inst.areAllArgsImmediates = true
  · rw [if_pos hai] at h
    cases h0 : inst.getArg 0 with
    | error e => rw [h0] at h; simp at h
    | ok operand =>
    rw [h0] at h
    simp only [exc_ok_bind] at h
    cases hv : operand.immAsU64 with
    | error e => rw [hv] at h; simp at h
    | ok v =>
    rw [hv] at h
    simp only [exc_ok_bind, Except.ok.injEq] at h
    exact h ▸ stepPres_replace_imm b n n _ _ hwf le_rfl
  · rw [if_neg hai] at h
    simp only [Except.ok.injEq] at h
    exact h ▸ stepPres_refl b n hwf

theorem stepPres_foldLeastSignificantWord (b b2 : Block) (n : Nat) (hwf : WF b)
    (h : foldLeastSignificantWord b n = .ok b2) : StepPres b b2 n := by
  unfold foldLeastSignificantWord at h
  cases hgi : getInst b n with
  | error e => rw [hgi] at h; simp at h
  | ok inst =>
  rw [hgi] at h
  simp only [exc_ok_bind] at h
  by_cases hai : inst.areAllArgsImmediates = true
  · rw [if_pos hai] at h
    cases h0 : inst.getArg 0 with
    | error e => rw [h0] at h; simp at h
    | ok operand =>
    rw [h0] at h
    simp only [exc_ok_bind] at h
    cases hv : operand.immAsU64 with
    | error e => rw [hv] at h; simp at h
    | ok v =>
    rw [hv] at h
    simp only [exc_ok_bind, Except.ok.injEq] at h
    exact h ▸ stepPres_replace_imm b n n _ _ hwf le_rfl
  · rw [if_neg hai] at h
    simp only [Except.ok.injEq] at h
    exact h ▸ stepPres_refl b n hwf

theorem stepPres_foldMostSignificantBit (b b2 : Block) (n : Nat) (hwf : WF b)
    (h : foldMostSignificantBit b n = .ok b2) : StepPres b b2 n := by
  unfold foldMostSignificantBit at h
  cases hgi : getInst b n with
  | error e => rw [hgi] at h; simp at h
  | ok inst =>
  rw [hgi] at h
  simp only [exc_ok_bind] at h
  by_cases hai : inst.areAllArgsImmediates = true
  · rw [if_pos hai] at h
    cases h0 : inst.getArg 0 with
    | error e => rw [h0] at h; simp at h
    | ok operand =>
    rw [h0] at h
    simp only [exc_ok_bind] at h
    cases hv : operand.immAsU64 with
    | error e => rw [hv] at h; simp at h
    | ok v =>
    rw [hv] at h
    simp only [exc_ok_bind, Except.ok.injEq] at h
    exact h ▸ stepPres_replace_imm b n n _ _ hwf le_rfl
  · rw [if_neg hai] at h
    simp only [Except.ok.injEq] at h
    exact h ▸ stepPres_refl b n hwf

theorem stepPres_foldSignExtendXToWord (b b2 : Block) (n : Nat) (hwf : WF b)
    (h : foldSignExtendXToWord b n = .ok b2) : StepPres b b2 n := by
  unfold foldSignExtendXToWord at h
  cases hgi : getInst b n with
  | error e => rw [hgi] at h; simp at h
  | ok inst =>
  rw [hgi] at h
  simp only [exc_ok_bind] at h
  by_cases hai : inst.areAllArgsImmediates = true
  · rw [if_pos hai] at h
    cases h0 : inst.getArg 0 with
    | error e => rw [h0] at h; simp at h
    | ok operand =>
    rw [h0] at h
    simp only [exc_ok_bind] at h
    cases hv : operand.immAsS64 with
    | error e => rw [hv] at h; simp at h
    | ok v =>
    rw [hv] at h
    simp only [exc_ok_bind, Except.ok.injEq] at h
    exact h ▸ stepPres_replace_imm b n n _ _ hwf le_rfl
  · rw [if_neg hai] at h
    simp only [Except.ok.injEq] at h
    exact h ▸ stepPres_refl b n hwf

theorem stepPres_foldSignExtendXToLong (b b2 : Block) (n : Nat) (hwf : WF b)
    (h : foldSignExtendXToLong b n = .ok b2) : StepPres b b2 n := by
  unfold foldSignExtendXToLong at h
  cases hgi : getInst b n with
  | error e => rw [hgi] at h; simp at h
  | ok inst =>
  rw [hgi] at h
  simp only [exc_ok_bind] at h
  by_cases hai : inst.areAllArgsImmediates = true
  · rw [if_pos hai] at h
    cases h0 : inst.getArg 0 with
    | error e => rw [h0] at h; simp at h
    | ok operand =>
    rw [h0] at h
    simp only [exc_ok_bind] at h
    cases hv : operand.immAsS64 with
    | error e => rw [hv] at h; simp at h
    | ok v =>
    rw [hv] at h
    simp only [exc_ok_bind, Except.ok.injEq] at h
    exact h ▸ stepPres_replace_imm b n n _ _ hwf le_rfl
  · rw [if_neg hai] at h
    simp only [Except.ok.injEq] at h
    exact h ▸ stepPres_refl b n hwf

theorem stepPres_foldZeroExtendXToWord (b b2 : Block) (n : Nat) (hwf : WF b)
    (h : foldZeroExtendXToWord b n = .ok b2) : StepPres b b2 n := by
  unfold foldZeroExtendXToWord at h
  cases hgi : getInst b n with
  | error e => rw [hgi] at h; simp at h
  | ok inst =>
  rw [hgi] at h
  simp only [exc_ok_bind] at h
  by_cases hai : inst.areAllArgsImmediates = true
  · rw [if_pos hai] at h
    cases h0 : inst.getArg 0 with
    | error e => rw [h0] at h; simp at h
    | ok operand =>
    rw [h0] at h
    simp only [exc_ok_bind] at h
    cases hv : operand.immAsU64 with
    | error e => rw [hv] at h; simp at h
    | ok v =>
    rw [hv] at h
    simp only [exc_ok_bind, Except.ok.injEq] at h
    exact h ▸ stepPres_replace_imm b n n _ _ hwf le_rfl
  · rw [if_neg hai] at h
    simp only [Except.ok.injEq] at h
    exact h ▸ stepPres_refl b n hwf

theorem stepPres_foldZeroExtendXToLong (b b2 : Block) (n : Nat) (hwf : WF b)
    (h : foldZeroExtendXToLong b n = .ok b2) : StepPres b b2 n := by
  unfold foldZeroExtendXToLong at h
  cases hgi : getInst b n with
  | error e => rw [hgi] at h; simp at h
  | ok inst =>
  rw [hgi] at h
  simp only [exc_ok_bind] at h
  by_cases hai : inst.areAllArgsImmediates = true
  · rw [if_pos hai] at h
    cases h0 : inst.getArg 0 with
    | error e => rw [h0] at h; simp at h
    | ok operand =>
    rw [h0] at h
    simp only [exc_ok_bind] at h
    cases hv : operand.immAsU64 with
    | error e => rw [hv] at h; simp at h
    | ok v =>
    rw [hv] at h
    simp only [exc_ok_bind, Except.ok.injEq] at h
    exact h ▸ stepPres_replace_imm b n n _ _ hwf le_rfl
  · rw [if_neg hai] at h
    simp only [Except.ok.injEq] at h
    exact h ▸ stepPres_refl b n hwf

theorem stepPres_foldByteReverse (b b2 : Block) (n : Nat) (op : Opcode) (hwf : WF b)
    (h : foldByteReverse b n op = .ok b2) : StepPres b b2 n := by
  unfold foldByteReverse at h
  cases hgi : getInst b n with
  | error e => rw [hgi] at h; simp at h
  | ok inst =>
  rw [hgi] at h
  simp only [exc_ok_bind] at h
  by_cases hai : inst.args.get? 0 = inst.args.get? 0
  · clear hai
    cases h0 : inst.getArg 0 with
    | error e => rw [h0] at h; simp at h
    | ok operand =>
    rw [h0] at h
    simp only [exc_ok_bind] at h
    by_cases him : operand.isImmediate = true
    · rw [if_pos him] at h
      cases hv : operand.immAsU64 with
      | error e => rw [hv] at h; simp at h
      | ok v =>
      rw [hv] at h
      simp only [exc_ok_bind] at h
      by_cases hw : op = Opcode.ByteReverseWord
      · rw [if_pos hw] at h
        simp only [Except.ok.injEq] at h
        exact h ▸ stepPres_replace_imm b n n _ _ hwf le_rfl
      · rw [if_neg hw] at h
        by_cases hh : op = Opcode.ByteReverseHalf
        · rw [if_pos hh] at h
          simp only [Except.ok.injEq] at h
          exact h ▸ stepPres_replace_imm b n n _ _ hwf le_rfl
        · rw [if_neg hh] at h
          simp only [Except.ok.injEq] at h
          exact h ▸ stepPres_replace_imm b n n _ _ hwf le_rfl
    · rw [if_neg him] at h
      simp only [Except.ok.injEq] at h
      exact h ▸ stepPres_refl b n hwf
  · exact absurd rfl hai

theorem stepPres_foldNOT (b b2 : Block) (n : Nat) (is32 : Bool) (hwf : WF b)
    (h : foldNOT b n is32 = .ok b2) : StepPres b b2 n := by
  unfold foldNOT at h
  cases hgi : getInst b n with
  | error e => rw [hgi] at h; simp at h
  | ok inst =>
  rw [hgi] at h
  simp only [exc_ok_bind] at h
  cases h0 : inst.getArg 0 with
  | error e => rw [h0] at h; simp at h
  | ok operand =>
  rw [h0] at h
  simp only [exc_ok_bind] at h
  by_cases him : operand.isImmediate = true
  · rw [if_pos him] at h
    cases hv : operand.immAsU64 with
    | error e => rw [hv] at h; simp at h
    | ok v =>
    rw [hv] at h
    simp only [exc_ok_bind, Except.ok.injEq] at h
    exact h ▸ stepPres_replace_mk b n n is32 _ hwf le_rfl
  · rw [if_neg him] at h
    simp only [Except.ok.injEq] at h
    exact h ▸ stepPres_refl b n hwf

theorem stepPres_foldDivide (b b2 : Block) (n : Nat) (is32 isSigned : Bool) (hwf : WF b)
    (h : foldDivide b n is32 isSigned = .ok b2) : StepPres b b2 n := by
  unfold foldDivide at h
  cases hgi : getInst b n with
  | error e => rw [hgi] at h; simp at h
  | ok inst =>
  rw [hgi] at h
  simp only [exc_ok_bind] at h
  cases h1 : inst.getArg 1 with
  | error e => rw [h1] at h; simp at h
  | ok rhs =>
  rw [h1] at h
  simp only [exc_ok_bind] at h
  by_cases hz : rhs.isZero = true
  · rw [if_pos hz] at h
    simp only [Except.ok.injEq] at h
    exact h ▸ stepPres_replace_mk b n n is32 0 hwf le_rfl
  · rw [if_neg hz] at h
    cases h0 : inst.getArg 0 with
    | error e => rw [h0] at h; simp at h
    | ok lhs =>
    rw [h0] at h
    simp only [exc_ok_bind] at h
    by_cases hbi : (lhs.isImmediate && rhs.isImmediate) = true
    · rw [if_pos hbi] at h
      cases isSigned with
      | true =>
          simp only [if_true] at h
          cases ha : lhs.immAsS64 with
          | error e => rw [ha] at h; simp at h
          | ok a =>
          rw [ha] at h
          simp only [exc_ok_bind] at h
          cases hc : rhs.immAsS64 with
          | error e => rw [hc] at h; simp at h
          | ok c =>
          rw [hc] at h
          simp only [exc_ok_bind] at h
          cases hr : sdiv64 a c with
          | error e => rw [hr] at h; simp at h
          | ok r =>
          rw [hr] at h
          simp only [exc_ok_bind, Except.ok.injEq] at h
          exact h ▸ stepPres_replace_mk b n n is32 _ hwf le_rfl
      | false =>
          simp only [Bool.false_eq_true, if_false] at h
          cases ha : lhs.immAsU64 with
          | error e => rw [ha] at h; simp at h
          | ok a =>
          rw [ha] at h
          simp only [exc_ok_bind] at h
          cases hc : rhs.immAsU64 with
          | error e => rw [hc] at h; simp at h
          | ok c =>
          rw [hc] at h
          simp only [exc_ok_bind] at h
          cases hr : udiv64 a c with
          | error e => rw [hr] at h; simp at h
          | ok r =>
          rw [hr] at h
          simp only [exc_ok_bind, Except.ok.injEq] at h
          exact h ▸ stepPres_replace_mk b n n is32 _ hwf le_rfl
    · rw [if_neg hbi] at h
      by_cases h1u : Value.isUnsignedImmediate 1 rhs = true
      · rw [if_pos h1u] at h
        simp only [Except.ok.injEq] at h
        exact h ▸ stepPres_replace_argval b n n n inst lhs hwf le_rfl
          (getInst_some b n inst hgi) le_rfl (getArg_ok_mem inst 0 lhs h0)
      · rw [if_neg h1u] at h
        simp only [Except.ok.injEq] at h
        exact h ▸ stepPres_refl b n hwf

/-! ## The carry pseudo-operation sits after its primary instruction -/

theorem getCarry_some_facts (b : Block) (n c : Nat) (h : getCarryPseudoOp b n = some c) :
    ∃ instc, b.get? c = some instc ∧ instc.opcode = Opcode.GetCarryFromOp ∧
      instc.args.get? 0 = some (Value.ref n) := by
  unfold getCarryPseudoOp at h
  have hp := List.find?_some h
  cases hget : b.get? c with
  | none => rw [hget] at hp; simp at hp
  | some instc =>
      rw [hget] at hp
      simp only [Bool.and_eq_true, beq_iff_eq] at hp
      exact ⟨instc, rfl, hp.1, hp.2⟩

theorem getCarry_gt (b : Block) (n c : Nat) (hwf : WF b)
    (h : getCarryPseudoOp b n = some c) : n < c := by
  obtain ⟨instc, hget, _, harg⟩ := getCarry_some_facts b n c h
  exact ((WF_iff b).mp hwf) c instc hget n (List.get?_mem harg)

theorem stepPres_foldMostSignificantWord (b b2 : Block) (n : Nat) (hwf : WF b)
    (h : foldMostSignificantWord b n = .ok b2) : StepPres b b2 n := by
  unfold foldMostSignificantWord at h
  cases hgi : getInst b n with
  | error e => rw [hgi] at h; simp at h
  | ok inst =>
  rw [hgi] at h
  simp only [exc_ok_bind] at h
  by_cases hai : inst.areAllArgsImmediates = true
  · rw [if_pos hai] at h
    cases h0 : inst.getArg 0 with
    | error e => rw [h0] at h; simp at h
    | ok operand =>
    rw [h0] at h
    simp only [exc_ok_bind] at h
    cases hv : operand.immAsU64 with
    | error e => rw [hv] at h; simp at h
    | ok v =>
    rw [hv] at h
    simp only [exc_ok_bind] at h
    cases hc : getCarryPseudoOp b n with
    | none =>
        rw [hc] at h
        simp only [Except.ok.injEq] at h
        exact h ▸ stepPres_replace_imm b n n _ _ hwf le_rfl
    | some c =>
        rw [hc] at h
        simp only [Except.ok.injEq] at h
        have hnc : n < c := getCarry_gt b n c hwf hc
        have s1 : StepPres b (replaceUsesWith b c (Value.imm .U1 ((v / 2 ^ 31) % 2))) n :=
          stepPres_replace_imm b c n _ _ hwf (by omega)
        have s2 := stepPres_replace_imm (replaceUsesWith b c (Value.imm .U1 ((v / 2 ^ 31) % 2)))
          n n ImmTy.U32 ((v / 2 ^ 32) % 2 ^ 32) s1.2.2.1 le_rfl
        exact h ▸ stepPres_trans _ _ _ n s1 s2
  · rw [if_neg hai] at h
    simp only [Except.ok.injEq] at h
    exact h ▸ stepPres_refl b n hwf

theorem stepPres_foldShifts (b b2 : Block) (n : Nat) (hwf : WF b)
    (h : foldShifts b n = .ok b2) : StepPres b b2 n := by
  unfold foldShifts at h
  cases hgi : getInst b n with
  | error e => rw [hgi] at h; simp at h
  | ok inst =>
  rw [hgi] at h
  simp only [exc_ok_bind] at h
  cases hc : getCarryPseudoOp b n with
  | none =>
    rw [hc] at h
    simp only [Option.isNone_none, and_true] at h
    by_cases h3 : inst.numArgs = 3
    · rw [if_pos h3] at h
      have s1 : StepPres b (setArg b n 2 (Value.imm .U1 0)) n :=
        stepPres_setArg_imm b n 2 .U1 0 hwf
      have hwf1 : WF (setArg b n 2 (Value.imm .U1 0)) := s1.2.2.1
      cases hgi1 : getInst (setArg b n 2 (Value.imm .U1 0)) n with
      | error e => rw [hgi1] at h; simp at h
      | ok inst1 =>
      rw [hgi1] at h
      simp only [exc_ok_bind] at h
      cases ham : inst1.getArg 1 with
      | error e => rw [ham] at h; simp at h
      | ok amount =>
      rw [ham] at h
      simp only [exc_ok_bind] at h
      by_cases hz : amount.isZero = true
      · rw [if_neg (by simp [hz])] at h
        simp only [exc_pure_eq, exc_ok_bind] at h
        rw [hgi1] at h
        simp only [exc_ok_bind] at h
        cases h0 : inst1.getArg 0 with
        | error e => rw [h0] at h; simp at h
        | ok a0 =>
        rw [h0] at h
        simp only [exc_ok_bind, Except.ok.injEq] at h
        have s2 := stepPres_replace_argval (setArg b n 2 (Value.imm .U1 0)) n n n inst1 a0
          hwf1 le_rfl (getInst_some _ n inst1 hgi1) le_rfl (getArg_ok_mem inst1 0 a0 h0)
        exact h ▸ stepPres_trans _ _ _ n s1 s2
      · rw [if_pos hz] at h
        simp only [Except.ok.injEq] at h
        exact h ▸ s1
    · rw [if_neg (by simpa using h3)] at h
      rw [hgi] at h
      simp only [exc_ok_bind] at h
      cases ham : inst.getArg 1 with
      | error e => rw [ham] at h; simp at h
      | ok amount =>
      rw [ham] at h
      simp only [exc_ok_bind] at h
      by_cases hz : amount.isZero = true
      · rw [if_neg (by simp [hz])] at h
        simp only [exc_pure_eq, exc_ok_bind] at h
        rw [hgi] at h
        simp only [exc_ok_bind] at h
        cases h0 : inst.getArg 0 with
        | error e => rw [h0] at h; simp at h
        | ok a0 =>
        rw [h0] at h
        simp only [exc_ok_bind, Except.ok.injEq] at h
        exact h ▸ stepPres_replace_argval b n n n inst a0 hwf le_rfl
          (getInst_some b n inst hgi) le_rfl (getArg_ok_mem inst 0 a0 h0)
      · rw [if_pos hz] at h
        simp only [Except.ok.injEq] at h
        exact h ▸ stepPres_refl b n hwf
  | some c =>
    rw [hc] at h
    simp only [Option.isNone_some, Bool.false_eq_true, and_false, if_false] at h
    rw [hgi] at h
    simp only [exc_ok_bind] at h
    cases ham : inst.getArg 1 with
    | error e => rw [ham] at h; simp at h
    | ok amount =>
    rw [ham] at h
    simp only [exc_ok_bind] at h
    by_cases hz : amount.isZero = true
    · rw [if_neg (by simp [hz])] at h
      cases h2 : inst.getArg 2 with
      | error e => rw [h2] at h; simp at h
      | ok a2 =>
      rw [h2] at h
      simp only [exc_ok_bind, exc_pure_eq] at h
      have hnc : n < c := getCarry_gt b n c hwf hc
      have s1 : StepPres b (replaceUsesWith b c a2) n :=
        stepPres_replace_argval b c n n inst a2 hwf (by omega)
          (getInst_some b n inst hgi) le_rfl (getArg_ok_mem inst 2 a2 h2)
      have hwf1 : WF (replaceUsesWith b c a2) := s1.2.2.1
      cases hgi2 : getInst (replaceUsesWith b c a2) n with
      | error e => rw [hgi2] at h; simp at h
      | ok inst2 =>
      rw [hgi2] at h
      simp only [exc_ok_bind] at h
      cases h0 : inst2.getArg 0 with
      | error e => rw [h0] at h; simp at h
      | ok a0 =>
      rw [h0] at h
      simp only [exc_ok_bind, Except.ok.injEq] at h
      have s2 := stepPres_replace_argval (replaceUsesWith b c a2) n n n inst2 a0 hwf1 le_rfl
        (getInst_some _ n inst2 hgi2) le_rfl (getArg_ok_mem inst2 0 a0 h0)
      exact h ▸ stepPres_trans _ _ _ n s1 s2
    · rw [if_pos hz] at h
      simp only [Except.ok.injEq] at h
      exact h ▸ stepPres_refl b n hwf

theorem stepPres_foldAND (b b2 : Block) (n : Nat) (is32 : Bool) (hwf : WF b)
    (h : foldAND b n is32 = .ok b2) : StepPres b b2 n := by
  obtain ⟨b1, live, hfc, ht⟩ := foldAND_cases b b2 n is32 h
  exact stepPres_commTail b b1 b2 n is32 live _ hwf hfc ht

theorem stepPres_foldEOR (b b2 : Block) (n : Nat) (is32 : Bool) (hwf : WF b)
    (h : foldEOR b n is32 = .ok b2) : StepPres b b2 n := by
  obtain ⟨b1, live, hfc, ht⟩ := foldEOR_cases b b2 n is32 h
  exact stepPres_commTail b b1 b2 n is32 live _ hwf hfc ht

theorem stepPres_foldOR (b b2 : Block) (n : Nat) (is32 : Bool) (hwf : WF b)
    (h : foldOR b n is32 = .ok b2) : StepPres b b2 n := by
  obtain ⟨b1, live, hfc, ht⟩ := foldOR_cases b b2 n is32 h
  exact stepPres_commTail b b1 b2 n is32 live _ hwf hfc ht

theorem stepPres_foldMultiply (b b2 : Block) (n : Nat) (is32 : Bool) (hwf : WF b)
    (h : foldMultiply b n is32 = .ok b2) : StepPres b b2 n := by
  obtain ⟨b1, live, hfc, ht⟩ := foldMultiply_cases b b2 n is32 h
  exact stepPres_commTail b b1 b2 n is32 live _ hwf hfc ht

/-- Every successful step of the pass dispatch satisfies the shared\nstep-preservation facts. -/
theorem stepPres_foldInstAt (b b2 : Block) (n : Nat) (hwf : WF b)
    (h : foldInstAt b n = .ok b2) : StepPres b b2 n := by
  unfold foldInstAt at h
  cases hgi : getInst b n with
  | error e => rw [hgi] at h; simp at h
  | ok inst =>
  rw [hgi] at h
  simp only [exc_ok_bind] at h
  cases hop : inst.opcode <;> rw [hop] at h
  case LeastSignificantWord => exact stepPres_foldLeastSignificantWord b b2 n hwf h
  case MostSignificantWord => exact stepPres_foldMostSignificantWord b b2 n hwf h
  case LeastSignificantHalf => exact stepPres_foldLeastSignificantHalf b b2 n hwf h
  case LeastSignificantByte => exact stepPres_foldLeastSignificantByte b b2 n hwf h
  case MostSignificantBit => exact stepPres_foldMostSignificantBit b b2 n hwf h
  case LogicalShiftLeft32 => exact stepPres_foldShifts b b2 n hwf h
  case LogicalShiftLeft64 => exact stepPres_foldShifts b b2 n hwf h
  case LogicalShiftRight32 => exact stepPres_foldShifts b b2 n hwf h
  case LogicalShiftRight64 => exact stepPres_foldShifts b b2 n hwf h
  case ArithmeticShiftRight32 => exact stepPres_foldShifts b b2 n hwf h
  case ArithmeticShiftRight64 => exact stepPres_foldShifts b b2 n hwf h
  case RotateRight32 => exact stepPres_foldShifts b b2 n hwf h
  case RotateRight64 => exact stepPres_foldShifts b b2 n hwf h
  case Mul32 => exact stepPres_foldMultiply b b2 n true hwf h
  case Mul64 => exact stepPres_foldMultiply b b2 n false hwf h
  case SignedDiv32 => exact stepPres_foldDivide b b2 n true true hwf h
  case SignedDiv64 => exact stepPres_foldDivide b b2 n false true hwf h
  case UnsignedDiv32 => exact stepPres_foldDivide b b2 n true false hwf h
  case UnsignedDiv64 => exact stepPres_foldDivide b b2 n false false hwf h
  case And32 => exact stepPres_foldAND b b2 n true hwf h
  case And64 => exact stepPres_foldAND b b2 n false hwf h
  case Eor32 => exact stepPres_foldEOR b b2 n true hwf h
  case Eor64 => exact stepPres_foldEOR b b2 n false hwf h
  case Or32 => exact stepPres_foldOR b b2 n true hwf h
  case Or64 => exact stepPres_foldOR b b2 n false hwf h
  case Not32 => exact stepPres_foldNOT b b2 n true hwf h
  case Not64 => exact stepPres_foldNOT b b2 n false hwf h
  case SignExtendByteToWord => exact stepPres_foldSignExtendXToWord b b2 n hwf h
  case SignExtendHalfToWord => exact stepPres_foldSignExtendXToWord b b2 n hwf h
  case SignExtendByteToLong => exact stepPres_foldSignExtendXToLong b b2 n hwf h
  case SignExtendHalfToLong => exact stepPres_foldSignExtendXToLong b b2 n hwf h
  case SignExtendWordToLong => exact stepPres_foldSignExtendXToLong b b2 n hwf h
  case ZeroExtendByteToWord => exact stepPres_foldZeroExtendXToWord b b2 n hwf h
  case ZeroExtendHalfToWord => exact stepPres_foldZeroExtendXToWord b b2 n hwf h
  case ZeroExtendByteToLong => exact stepPres_foldZeroExtendXToLong b b2 n hwf h
  case ZeroExtendHalfToLong => exact stepPres_foldZeroExtendXToLong b b2 n hwf h
  case ZeroExtendWordToLong => exact stepPres_foldZeroExtendXToLong b b2 n hwf h
  case ByteReverseWord => exact stepPres_foldByteReverse b b2 n _ hwf h
  case ByteReverseHalf => exact stepPres_foldByteReverse b b2 n _ hwf h
  case ByteReverseDual => exact stepPres_foldByteReverse b b2 n _ hwf h
  case GetCarryFromOp => injection h with h2; exact h2 ▸ stepPres_refl b n hwf
  case other k2 => injection h with h2; exact h2 ▸ stepPres_refl b n hwf

/-! ## The normalization fact at the cursor after a commutative folder -/

theorem getArg_ok_get? (inst : Inst) (i : Nat) (a : Value) (h : inst.getArg i = .ok a) :
    inst.args.get? i = some a := by
  unfold Inst.getArg at h
  cases hg : inst.args.get? i with
  | none => rw [hg] at h; cases h
  | some a2 => rw [hg] at h; cases h; rfl

theorem not_refsTo_replace_self (bx : Block) (n : Nat) (v : Value) (hv : v ≠ Value.ref n) :
    ¬ refsTo (replaceUsesWith bx n v) n := by
  intro hr
  obtain ⟨inst2, hmem, harg⟩ := hr
  exact replaceUsesWith_no_refs bx n v hv inst2 hmem harg

/-- After one commutative folder finishes at cursor `n`, if the
instruction at `n` is still referenced then its operand 0 is not an
immediate. -/
theorem good_n_of_commTail (bb b1 b2 : Block) (n : Nat) (is32 live : Bool)
    (fn : Nat → Nat → Nat) (inst : Inst)
    (hgi : getInst bb n = .ok inst) (hopc : inst.opcode ∈ commOps)
    (hwf : WF bb) (hgood : Good bb n)
    (hfc : foldCommutative bb n is32 fn = .ok (b1, live))
    (ht : CommTailShape n is32 b1 b2 live) :
    ∀ inst2, b2.get? n = some inst2 → refsTo b2 n →
      ∀ a0, inst2.args.get? 0 = some a0 → a0.isImmediate = false := by
  obtain ⟨inst9, lhs, rhs, hgi9, h0, h1, hc⟩ := foldCommutative_cases bb n is32 fn b1 live hfc
  have hinst9 : inst9 = inst := by
    rw [hgi] at hgi9
    injection hgi9 with h9
    exact h9.symm
  subst hinst9
  have hbn : bb.get? n = some inst9 := getInst_some bb n inst9 hgi
  have hwf1 : WF b1 := (stepPres_foldCommutative bb b1 n is32 live fn hwf hfc).2.2.1
  rcases ht with ⟨hlive, hb2⟩ | ⟨hlive, hb2 | hb2 | ⟨inst1, a0c, hgi1, h0c, hb2⟩⟩
  · subst hb2
    rcases hc with ⟨ty1, v1, ty2, v2, _, _, _, hb⟩ |
      ⟨_, _, _, _, _, _, _, _, _, _, _, _, _, hl2, _⟩ |
      ⟨_, _, _, _, _, hl2, _⟩ |
      ⟨_, _, _, _, _, _, _, _, _, _, _, _, _, hl2, _⟩ |
      ⟨_, hl2, _⟩ <;> try (rw [hlive] at hl2; cases hl2)
    subst hb
    intro inst2 _ href a0 _
    exact absurd href (not_refsTo_replace_self bb n _ (mkValue_ne_ref is32 _ n))
  · subst hb2
    rcases hc with ⟨_, _, _, _, _, _, hl2, _⟩ |
      ⟨ty1, v1, j, instj, r0, ty2, v2, hl, hr, hgj, hopj, hr1, hr0, _, hb⟩ |
      ⟨ty1, v1, j, hl, hr, _, hb⟩ |
      ⟨j, instj, l0, tyr, vr, ty2, v2, hl, hr, hgj, hopj, hr1, hr0, _, hb⟩ |
      ⟨⟨j, hl⟩, _, hb⟩
    · rw [hlive] at hl2; cases hl2
    · subst hb
      intro inst2 hi2 href a0 ha0
      have hlen0 : 0 < inst9.args.length :=
        (List.get?_eq_some.mp (getArg_ok_get? inst9 0 lhs h0)).choose
      have hs1 : (setArg bb n 0 r0).get? n =
          some { inst9 with args := inst9.args.set 0 r0 } :=
        setArg_get?_same bb n 0 r0 inst9 hbn
      have hs2 : (setArg (setArg bb n 0 r0) n 1 (mkValue is32 (fn v1 v2))).get? n =
          some { inst9 with args := (inst9.args.set 0 r0).set 1 (mkValue is32 (fn v1 v2)) } :=
        setArg_get?_same _ n 1 _ _ hs1
      rw [hs2] at hi2
      injection hi2 with hi2
      subst hi2
      simp only [List.get?_set_ne _ _ (by omega : (1 : Nat) ≠ 0)] at ha0
      rw [List.get?_set_eq_of_lt r0 hlen0] at ha0
      injection ha0 with ha0
      subst ha0
      have hmemj : Value.ref j ∈ inst9.args := hr ▸ getArg_ok_mem inst9 1 rhs h1
      have hjn : j < n := ((WF_iff bb).mp hwf) n inst9 hbn j hmemj
      have hrefj : refsTo bb j := ⟨inst9, List.get?_mem hbn, hmemj⟩
      exact hgood j instj hjn (getInst_some bb j instj hgj) (hopj ▸ hopc) hrefj r0
        (getArg_ok_get? instj 0 r0 hr0)
    · subst hb
      subst hr
      intro inst2 hi2 href a0 ha0
      have hlen0 : 0 < inst9.args.length :=
        (List.get?_eq_some.mp (getArg_ok_get? inst9 0 lhs h0)).choose
      have hs1 : (setArg bb n 0 (Value.ref j)).get? n =
          some { inst9 with args := inst9.args.set 0 (Value.ref j) } :=
        setArg_get?_same bb n 0 _ inst9 hbn
      have hs2 : (setArg (setArg bb n 0 (Value.ref j)) n 1 lhs).get? n =
          some { inst9 with args := (inst9.args.set 0 (Value.ref j)).set 1 lhs } :=
        setArg_get?_same _ n 1 _ _ hs1
      rw [hs2] at hi2
      injection hi2 with hi2
      subst hi2
      simp only [List.get?_set_ne _ _ (by omega : (1 : Nat) ≠ 0)] at ha0
      rw [List.get?_set_eq_of_lt _ hlen0] at ha0
      injection ha0 with ha0
      subst ha0
      rfl
    · subst hb
      intro inst2 hi2 href a0 ha0
      have hlen0 : 0 < inst9.args.length :=
        (List.get?_eq_some.mp (getArg_ok_get? inst9 0 lhs h0)).choose
      have hs1 : (setArg bb n 0 l0).get? n =
          some { inst9 with args := inst9.args.set 0 l0 } :=
        setArg_get?_same bb n 0 l0 inst9 hbn
      have hs2 : (setArg (setArg bb n 0 l0) n 1 (mkValue is32 (fn vr v2))).get? n =
          some { inst9 with args := (inst9.args.set 0 l0).set 1 (mkValue is32 (fn vr v2)) } :=
        setArg_get?_same _ n 1 _ _ hs1
      rw [hs2] at hi2
      injection hi2 with hi2
      subst hi2
      simp only [List.get?_set_ne _ _ (by omega : (1 : Nat) ≠ 0)] at ha0
      rw [List.get?_set_eq_of_lt l0 hlen0] at ha0
      injection ha0 with ha0
      subst ha0
      have hmemj : Value.ref j ∈ inst9.args := hl ▸ getArg_ok_mem inst9 0 lhs h0
      have hjn : j < n := ((WF_iff bb).mp hwf) n inst9 hbn j hmemj
      have hrefj : refsTo bb j := ⟨inst9, List.get?_mem hbn, hmemj⟩
      exact hgood j instj hjn (getInst_some bb j instj hgj) (hopj ▸ hopc) hrefj l0
        (getArg_ok_get? instj 0 l0 hr0)
    · subst hb
      subst hl
      intro inst2 hi2 href a0 ha0
      rw [hbn] at hi2
      injection hi2 with hi2
      subst hi2
      rw [getArg_ok_get? inst9 0 _ h0] at ha0
      injection ha0 with ha0
      subst ha0
      rfl
  · subst hb2
    intro inst2 _ href a0 _
    exact absurd href (not_refsTo_replace_self b1 n _ (mkValue_ne_ref is32 0 n))
  · subst hb2
    intro inst2 _ href a0 _
    refine absurd href (not_refsTo_replace_self b1 n a0c ?_)
    intro he
    have := ((WF_iff b1).mp hwf1) n inst1 (getInst_some b1 n inst1 hgi1) n
      (he ▸ getArg_ok_mem inst1 0 a0c h0c)
    omega

/-! ## Claim C6: the pass normalizes commutative instructions -/

theorem foldInstAt_ok_getInst (b b2 : Block) (n : Nat) (h : foldInstAt b n = .ok b2) :
    ∃ inst, getInst b n = .ok inst := by
  unfold foldInstAt at h
  cases hgi : getInst b n with
  | error e => rw [hgi] at h; simp at h
  | ok inst => exact ⟨inst, rfl⟩

/-- The induction along the forward sweep: after processing the first `n`
instructions of a well-formed block, the block is still well-formed, its
length is unchanged, dead definitions stay dead, and every processed
commutative instruction that is still referenced keeps a non-immediate
operand 0. -/
theorem passUpTo_invariant (b : Block) (n : Nat) (b2 : Block)
    (hwf : WF b) (h : passUpTo b n = .ok b2) :
    WF b2 ∧ b2.length = b.length ∧ Good b2 n ∧ (∀ t, ¬ refsTo b t → ¬ refsTo b2 t) := by
  induction n generalizing b2 with
  | zero =>
      unfold passUpTo at h
      injection h with h2
      subst h2
      refine ⟨hwf, rfl, ?_, fun t ht => ht⟩
      intro k inst hk
      exact absurd hk (Nat.not_lt_zero k)
  | succ n ih =>
      unfold passUpTo at h
      cases hp : passUpTo b n with
      | error e => rw [hp] at h; simp at h
      | ok b1 =>
      rw [hp] at h
      simp only [exc_ok_bind] at h
      obtain ⟨hwf1, hlen1, hgood1, hrefs1⟩ := ih b1 hp
      obtain ⟨hlen2, hbelow, hwf2, hrefs2, hopc⟩ := stepPres_foldInstAt b1 b2 n hwf1 h
      refine ⟨hwf2, hlen2.trans hlen1, ?_, fun t ht => hrefs2 t (hrefs1 t ht)⟩
      intro k inst2 hk hi2 hcomm href a0 ha0
      by_cases hkn : k < n
      · rw [hbelow k hkn] at hi2
        by_cases hr1 : refsTo b1 k
        · exact hgood1 k inst2 hkn hi2 hcomm hr1 a0 ha0
        · exact absurd href (hrefs2 k hr1)
      · have hkeq : k = n := by omega
        subst hkeq
        obtain ⟨inst1, hgi1⟩ := foldInstAt_ok_getInst b1 b2 k h
        have hopeq : inst2.opcode = inst1.opcode :=
          hopc k inst1 inst2 (getInst_some b1 k inst1 hgi1) hi2
        have hc1 : inst1.opcode ∈ commOps := by rw [← hopeq]; exact hcomm
        have hc2 := hc1
        simp only [commOps, List.mem_cons, List.not_mem_nil, or_false] at hc2
        rcases hc2 with h2 | h2 | h2 | h2 | h2 | h2 | h2 | h2 <;>
          rw [foldInstAt_comm_dispatch b1 k inst1 _ hgi1 h2 (h2 ▸ hc1)] at h
        · obtain ⟨b1x, live, hfc, ht⟩ := foldAND_cases b1 b2 k true h
          exact good_n_of_commTail b1 b1x b2 k true live _ inst1 hgi1 hc1 hwf1 hgood1
            hfc ht inst2 hi2 href a0 ha0
        · obtain ⟨b1x, live, hfc, ht⟩ := foldAND_cases b1 b2 k false h
          exact good_n_of_commTail b1 b1x b2 k false live _ inst1 hgi1 hc1 hwf1 hgood1
            hfc ht inst2 hi2 href a0 ha0
        · obtain ⟨b1x, live, hfc, ht⟩ := foldEOR_cases b1 b2 k true h
          exact good_n_of_commTail b1 b1x b2 k true live _ inst1 hgi1 hc1 hwf1 hgood1
            hfc ht inst2 hi2 href a0 ha0
        · obtain ⟨b1x, live, hfc, ht⟩ := foldEOR_cases b1 b2 k false h
          exact good_n_of_commTail b1 b1x b2 k false live _ inst1 hgi1 hc1 hwf1 hgood1
            hfc ht inst2 hi2 href a0 ha0
        · obtain ⟨b1x, live, hfc, ht⟩ := foldOR_cases b1 b2 k true h
          exact good_n_of_commTail b1 b1x b2 k true live _ inst1 hgi1 hc1 hwf1 hgood1
            hfc ht inst2 hi2 href a0 ha0
        · obtain ⟨b1x, live, hfc, ht⟩ := foldOR_cases b1 b2 k false h
          exact good_n_of_commTail b1 b1x b2 k false live _ inst1 hgi1 hc1 hwf1 hgood1
            hfc ht inst2 hi2 href a0 ha0
        · obtain ⟨b1x, live, hfc, ht⟩ := foldMultiply_cases b1 b2 k true h
          exact good_n_of_commTail b1 b1x b2 k true live _ inst1 hgi1 hc1 hwf1 hgood1
            hfc ht inst2 hi2 href a0 ha0
        · obtain ⟨b1x, live, hfc, ht⟩ := foldMultiply_cases b1 b2 k false h
          exact good_n_of_commTail b1 b1x b2 k false live _ inst1 hgi1 hc1 hwf1 hgood1
            hfc ht inst2 hi2 href a0 ha0

/-- C6: after one forward run of the constant-propagation pass over a
well-formed block, no commutative binary instruction (AND, OR, XOR, MUL,
either width) that remains live — that is referenced by some operand of
the resulting block — has an immediate operand in position 0 unless both
of its operands are immediate. -/
theorem C6_normalization_after_pass (b b2 : Block)
    (hwf : WF b) (hrun : constantPropagation b = .ok b2) :
    ∀ k inst, b2.get? k = some inst → inst.opcode ∈ commOps →
      refsTo b2 k →
      ∀ a0, inst.args.get? 0 = some a0 → a0.isImmediate = true →
        ∃ a1, inst.args.get? 1 = some a1 ∧ a1.isImmediate = true := by
  intro k inst hk hcomm href a0 ha0 haimm
  obtain ⟨_, hlen, hgood, _⟩ := passUpTo_invariant b b.length b2 hwf hrun
  have hklen : k < b2.length := (List.get?_eq_some.mp hk).choose
  have hkb : k < b.length := by omega
  have hfalse := hgood k inst hkb hk hcomm href a0 ha0
  rw [haimm] at hfalse
  cases hfalse

/-- Witness for C6 at a concrete block: `t1 = And32(5u32, t0)` is
normalized so that the immediate moves to position 1. -/
theorem C6_witness :
    WF [Inst.mk (.other 0) [], Inst.mk .And32 [Value.imm .U32 5, Value.ref 0],
        Inst.mk (.other 1) [Value.ref 1]] ∧
    ∀ k inst,
      ([Inst.mk (.other 0) [], Inst.mk .And32 [Value.ref 0, Value.imm .U32 5],
        Inst.mk (.other 1) [Value.ref 1]] : Block).get? k = some inst →
      inst.opcode ∈ commOps →
      refsTo [Inst.mk (.other 0) [], Inst.mk .And32 [Value.ref 0, Value.imm .U32 5],
        Inst.mk (.other 1) [Value.ref 1]] k →
      ∀ a0, inst.args.get? 0 = some a0 → a0.isImmediate = true →
        ∃ a1, inst.args.get? 1 = some a1 ∧ a1.isImmediate = true :=
  ⟨rfl,
    C6_normalization_after_pass
      [Inst.mk (.other 0) [], Inst.mk .And32 [Value.imm .U32 5, Value.ref 0],
        Inst.mk (.other 1) [Value.ref 1]]
      [Inst.mk (.other 0) [], Inst.mk .And32 [Value.ref 0, Value.imm .U32 5],
        Inst.mk (.other 1) [Value.ref 1]]
      rfl rfl⟩

/-! ## Claim C7: the selection algorithm never picks a locked location -/

theorem filter_append_not_nil {α : Type} (l : List α) (p : α → Bool) (h : l ≠ []) :
    l.filter p ++ l.filter (fun x => ! p x) ≠ [] := by
  cases l with
  | nil => exact absurd rfl h
  | cons x xs =>
      intro he
      simp only [List.append_eq_nil] at he
      by_cases hp : p x = true
      · have hm : x ∈ List.filter p (x :: xs) := List.mem_filter.mpr ⟨by simp, hp⟩
        rw [he.1] at hm
        cases hm
      · have hm : x ∈ List.filter (fun y => ! p y) (x :: xs) :=
          List.mem_filter.mpr ⟨by simp, by simp [hp]⟩
        rw [he.2] at hm
        cases hm

theorem isRegisterAllocated_eq_locked (st : RState) (l : HostLoc) :
    isRegisterAllocated st l = (st.locs l).IsLocked := by
  simp [isRegisterAllocated, LocInfo.IsIdle, LocInfo.IsLocked]

/-- C7: for every desired-location list, `SelectARegister` (i) fails by
assertion exactly when every entry of the list is locked; (ii) never
returns a locked location, and only ever returns an entry of the list;
(iii) returns an unoccupied (Empty) location whenever at least one
unlocked, unoccupied entry exists in the list. -/
theorem C7_selectARegister_spec (st : RState) (desired : List HostLoc) :
    ((∃ e, selectARegister st desired = .error e) ↔
      ∀ l ∈ desired, (st.locs l).IsLocked = true) ∧
    (∀ l, selectARegister st desired = .ok l →
      l ∈ desired ∧ (st.locs l).IsLocked = false) ∧
    ((∃ l ∈ desired, (st.locs l).IsLocked = false ∧ (st.locs l).IsEmpty = true) →
      ∃ l, selectARegister st desired = .ok l ∧ (st.locs l).IsEmpty = true) := by
  unfold selectARegister
  by_cases hemp : (desired.filter (fun l => ! isRegisterAllocated st l)).isEmpty = true
  · rw [if_pos hemp]
    rw [List.isEmpty_iff] at hemp
    refine ⟨⟨fun _ => ?_, fun _ => ⟨msgAllAllocated, rfl⟩⟩, ?_, ?_⟩
    · intro l hl
      by_contra hlk
      have hmem : l ∈ desired.filter (fun l => ! isRegisterAllocated st l) := by
        refine List.mem_filter.mpr ⟨hl, ?_⟩
        rw [isRegisterAllocated_eq_locked]
        simp only [Bool.not_eq_true] at hlk
        simp [hlk]
      rw [hemp] at hmem
      cases hmem
    · intro l hl
      cases hl
    · rintro ⟨l, hl, hlk, _⟩
      exfalso
      have hmem : l ∈ desired.filter (fun l => ! isRegisterAllocated st l) := by
        refine List.mem_filter.mpr ⟨hl, ?_⟩
        rw [isRegisterAllocated_eq_locked, hlk]
        rfl
      rw [hemp] at hmem
      cases hmem
  · rw [if_neg hemp]
    rw [List.isEmpty_iff] at hemp
    have hne := filter_append_not_nil (desired.filter (fun l => ! isRegisterAllocated st l))
      (fun l => ! isRegisterOccupied st l) hemp
    cases happ : (desired.filter (fun l => ! isRegisterAllocated st l)).filter
        (fun l => ! isRegisterOccupied st l) ++
        (desired.filter (fun l => ! isRegisterAllocated st l)).filter
        (fun l => isRegisterOccupied st l) with
    | nil =>
        exfalso
        apply hne
        rw [← happ]
        congr 1
        apply List.filter_congr
        intro x _
        simp
    | cons l0 rest =>
        have hl0 : l0 ∈ desired.filter (fun l => ! isRegisterAllocated st l) := by
          have : l0 ∈ (desired.filter (fun l => ! isRegisterAllocated st l)).filter
              (fun l => ! isRegisterOccupied st l) ++
              (desired.filter (fun l => ! isRegisterAllocated st l)).filter
              (fun l => isRegisterOccupied st l) := by
            rw [happ]; exact List.mem_cons_self l0 rest
          rcases List.mem_append.mp this with hm | hm
          · exact (List.mem_filter.mp hm).1
          · exact (List.mem_filter.mp hm).1
        obtain ⟨hl0d, hl0a⟩ := List.mem_filter.mp hl0
        refine ⟨⟨?_, ?_⟩, ?_, ?_⟩
        · rintro ⟨e, he⟩
          cases he
        · intro hall
          exfalso
          have := hall l0 hl0d
          rw [isRegisterAllocated_eq_locked] at hl0a
          rw [this] at hl0a
          cases hl0a
        · intro l hl
          injection hl with hl
          subst hl
          refine ⟨hl0d, ?_⟩
          rw [isRegisterAllocated_eq_locked] at hl0a
          simpa using hl0a
        · rintro ⟨l, hl, hlk, hle⟩
          refine ⟨l0, rfl, ?_⟩
          have hlm : l ∈ (desired.filter (fun l => ! isRegisterAllocated st l)).filter
              (fun l => ! isRegisterOccupied st l) := by
            refine List.mem_filter.mpr ⟨List.mem_filter.mpr ⟨hl, ?_⟩, ?_⟩
            · rw [isRegisterAllocated_eq_locked, hlk]; rfl
            · simp [isRegisterOccupied, hle]
          cases hfu : (desired.filter (fun l => ! isRegisterAllocated st l)).filter
              (fun l => ! isRegisterOccupied st l) with
          | nil => rw [hfu] at hlm; cases hlm
          | cons u us =>
              have hu : u ∈ (desired.filter (fun l => ! isRegisterAllocated st l)).filter
                  (fun l => ! isRegisterOccupied st l) := by
                rw [hfu]; exact List.mem_cons_self u us
              have hueq : l0 = u := by
                rw [hfu] at happ
                simp only [List.cons_append, List.cons.injEq] at happ
                exact happ.1.symm
              subst hueq
              have := (List.mem_filter.mp hu).2
              simp only [Bool.not_eq_true] at this
              simp [isRegisterOccupied] at this
              exact this

/-- Witness for C7: from the reset state, the sole desired register is
selected and is unoccupied. -/
theorem C7_witness :
    ∃ l, selectARegister (initState (fun _ => 0)) [RAX] = .ok l ∧
      ((initState (fun _ => 0)).locs l).IsEmpty = true :=
  (C7_selectARegister_spec (initState (fun _ => 0)) [RAX]).2.2 ⟨RAX, by simp, rfl, rfl⟩

/-! ## Claim C10: use_scratch on a value with no remaining uses asserts -/

/-- C10: calling `UseScratchHostLocReg` on a non-immediate value whose
remaining-use count is already zero fails by the hard assertion
"use_inst ran out of uses. (Use-d an IR::Inst* too many times)".  In the
embedding an assertion failure carries no successor state, and the
assertion is evaluated before any state mutation or emission, mirroring
its position at function entry in the source (line 187); in particular the
call never relocates nor returns a value that has no remaining uses
(second conjunct). -/
theorem C10_useScratch_ran_out_of_uses (st : RState) (i : Nat) (desired : List HostLoc)
    (hreg : desired.all HostLocIsRegister = true)
    (hloc : (valueLocation st i).isSome = true)
    (huses : st.uses i = 0) :
    useScratchHostLocRegI i desired st = .error msgRanOutOfUses ∧
    ∀ r, useScratchHostLocRegI i desired st ≠ .ok r := by
  have hmain : useScratchHostLocRegI i desired st = .error msgRanOutOfUses := by
    unfold useScratchHostLocRegI
    rw [if_neg (by simp [hreg])]
    obtain ⟨cur, hcur⟩ := Option.isSome_iff_exists.mp hloc
    rw [hcur]
    dsimp only
    rw [if_pos huses]
  exact ⟨hmain, fun r hr => by rw [hmain] at hr; cases hr⟩

/-- Witness for C10: value 0 resides in RAX with zero remaining uses. -/
theorem C10_witness :
    ([RCX].all HostLocIsRegister = true) ∧
    ((valueLocation ((initState (fun _ => 0)).setLoc RAX ⟨[0], false⟩) 0).isSome = true) ∧
    ((initState (fun _ => 0)).setLoc RAX ⟨[0], false⟩).uses 0 = 0 ∧
    useScratchHostLocRegI 0 [RCX] ((initState (fun _ => 0)).setLoc RAX ⟨[0], false⟩) =
      .error msgRanOutOfUses :=
  ⟨rfl, rfl, rfl,
    (C10_useScratch_ran_out_of_uses ((initState (fun _ => 0)).setLoc RAX ⟨[0], false⟩)
      0 [RCX] rfl rfl rfl).1⟩

/-! ## Claim C1: the locked-fallback path of use_reg decrements twice -/

/-- C1 is violated by the code: `UseHostLocReg(IR::Inst*, ...)` decrements
the remaining-use count at entry (line 141) and the locked-fallback path
(line 152) then delegates to `UseScratchHostLocReg`, which decrements
again (line 213) — two decrements for one `use_reg` call.  Concretely,
with value 0 resident in RAX, locked in Use state, holding 2 remaining
uses, `use_reg(v0, {RCX})` completes and leaves 0 remaining uses (first
conjunct); with 1 remaining use the same call trips the allocator's own
"ran out of uses" assertion even though the consumer holds a legitimate
use (second conjunct). -/
theorem C1_useHostLocReg_locked_fallback_decrements_twice :
    (useHostLocRegI 0 [RCX]
      ⟨fun l => if l = RAX then ⟨[0], true⟩ else LocInfo.init,
       fun j => if j = 0 then 2 else 0, []⟩).map (fun p => (p.1, p.2.uses 0)) =
      .ok (RCX, 0) ∧
    useHostLocRegI 0 [RCX]
      ⟨fun l => if l = RAX then ⟨[0], true⟩ else LocInfo.init,
       fun j => if j = 0 then 1 else 0, []⟩ = .error msgRanOutOfUses := by
  constructor
  · rfl
  · rfl

/-! ## Claim C9: host_call re-reserves the locked return register -/

/-- C9 is violated by the code: `HostCall` builds `other_caller_save` by
erasing only the four parameter registers from `ABI_ALL_CALLER_SAVE`
(lines 242–249) — the return register is not erased.  The final loop
therefore calls `ScratchHostLocReg({ABI_RETURN})` a second time while the
return register is still locked from the first reservation, and
`SelectARegister` fails by assertion: every `HostCall` aborts instead of
leaving all caller-saved registers in Scratch state. -/
theorem C9_hostCall_always_asserts :
    hostCall none none none none none (initState (fun _ => 0)) = .error msgAllAllocated ∧
    hostCall (some 0) none none none none (initState (fun _ => 0)) =
      .error msgAllAllocated := by
  constructor
  · rfl
  · rfl

/-! ## Claim C4: the XMM-to-XMM exchange assertion is reachable -/

/-- Counterexample to C4 as stated: a sequence of public allocator
operations from the reset state reaches the XMM-to-XMM assertion in
`EmitExchange`.  Define `v0` in XMM0 and `v1` in XMM1 (one remaining use
each), close both scopes, then request `use_reg(v0, {XMM1})`: the current
location XMM0 is not in the desired list and is unlocked, `SelectARegister`
returns the occupied XMM1, the classes match, and `Exchange` on two
occupied vector registers asserts. -/
theorem C4_counterexample_xmm_exchange_assert_reachable :
    (do
      let p0 ← scratchHostLocReg [XMM0] (initState (fun j => if j < 2 then 1 else 0))
      let s2 ← defineValue 0 p0.1 p0.2
      let p1 ← scratchHostLocReg [XMM1] (endOfAllocScope s2)
      let s5 ← defineValue 1 p1.1 p1.2
      let p2 ← useHostLocRegI 0 [XMM1] (endOfAllocScope s5)
      pure p2.1) = .error msgXmmXchg := by
  rfl

/-- C4 amended: the allocator never actually emits a vector-to-vector
exchange into the code stream — `EmitExchange` emits an `xchg` only when
both locations are GPRs and aborts by assertion otherwise — but the
assertion itself is reachable from public operations (see the
counterexample), so it is not dead. -/
theorem C4_emitExchange_only_gpr (st st2 : RState) (a b : HostLoc)
    (h : emitExchange st a b = .ok st2) :
    HostLocIsGPR a = true ∧ HostLocIsGPR b = true ∧
    st2.emitted = st.emitted ++ [MEvent.xchg a b] := by
  unfold emitExchange at h
  by_cases h1 : (HostLocIsGPR a && HostLocIsGPR b) = true
  · rw [if_pos h1] at h
    injection h with h2
    subst h2
    simp only [Bool.and_eq_true] at h1
    exact ⟨h1.1, h1.2, rfl⟩
  · rw [if_neg h1] at h
    by_cases h2 : (HostLocIsXMM a && HostLocIsXMM b) = true
    · rw [if_pos h2] at h
      cases h
    · rw [if_neg h2] at h
      cases h

/-- Witness for the amended C4 at a concrete exchange of two GPRs. -/
theorem C4_witness :
    HostLocIsGPR RAX = true ∧ HostLocIsGPR RBX = true ∧
    ((initState (fun _ => 0)).emit (.xchg RAX RBX)).emitted =
      (initState (fun _ => 0)).emitted ++ [MEvent.xchg RAX RBX] :=
  C4_emitExchange_only_gpr (initState (fun _ => 0))
    ((initState (fun _ => 0)).emit (.xchg RAX RBX)) RAX RBX rfl

/-! ## Primitive lemmas for the allocator simulation -/

theorem containsV_iff (st : RState) (l : HostLoc) (v : Nat) :
    (st.locs l).ContainsValue v = true ↔ ContainsV st l v := by
  unfold LocInfo.ContainsValue ContainsV
  exact List.elem_iff

theorem valueLocation_none_not_resident (st : RState) (v : Nat)
    (h : valueLocation st v = none) : ¬ Resident st v := by
  rintro ⟨l, hl⟩
  unfold valueLocation at h
  rw [List.find?_eq_none] at h
  exact h l (List.mem_finRange l) ((containsV_iff st l v).mpr hl)

theorem valueLocation_some_resident (st : RState) (v : Nat) (l : HostLoc)
    (h : valueLocation st v = some l) : ContainsV st l v := by
  unfold valueLocation at h
  have hp := List.find?_some h
  exact (containsV_iff st l v).mp (by simpa using hp)

theorem APres_refl (st : RState) : APres st st :=
  ⟨fun h => h, fun _ h _ => h, fun _ => le_rfl⟩

theorem APres_trans (st st1 st2 : RState) (h1 : APres st st1) (h2 : APres st1 st2) :
    APres st st2 := by
  obtain ⟨hi1, hp1, hu1⟩ := h1
  obtain ⟨hi2, hp2, hu2⟩ := h2
  refine ⟨fun h => hi2 (hi1 h), ?_, fun v => (hu2 v).trans (hu1 v)⟩
  intro v hr hu
  exact hp2 v (hp1 v hr (lt_of_lt_of_le hu (hu2 v))) hu

/-- The workhorse: if the new state's value sets are a self-inverse
permutation of the old ones and the use counts are unchanged, every
simulation fact holds. -/
theorem APres_of_values_perm (st st2 : RState) (σ : HostLoc → HostLoc)
    (hσ : ∀ x, σ (σ x) = x)
    (hv : ∀ x, (st2.locs x).values = (st.locs (σ x)).values)
    (hu : ∀ v, st2.uses v = st.uses v) : APres st st2 := by
  have hc : ∀ x v, ContainsV st2 x v ↔ ContainsV st (σ x) v := by
    intro x v
    unfold ContainsV
    rw [hv x]
  refine ⟨?_, ?_, fun v => (hu v).le⟩
  · intro hinv v huv hres
    obtain ⟨x, hx⟩ := hres
    rw [hu v] at huv
    obtain ⟨l0, hl0, huniq⟩ := hinv v huv ⟨σ x, (hc x v).mp hx⟩
    refine ⟨σ l0, ?_, ?_⟩
    · show ContainsV st2 (σ l0) v
      rw [hc (σ l0) v, hσ l0]
      exact hl0
    · intro y hy
      have := huniq (σ y) ((hc y v).mp hy)
      calc y = σ (σ y) := (hσ y).symm
      _ = σ l0 := by rw [this]
  · intro v hres _
    obtain ⟨l, hl⟩ := hres
    refine ⟨σ l, ?_⟩
    show ContainsV st2 (σ l) v
    rw [hc (σ l) v, hσ l]
    exact hl

theorem APres_of_locs_eq (st st2 : RState)
    (hl : ∀ x, (st2.locs x).values = (st.locs x).values)
    (hu : ∀ v, st2.uses v = st.uses v) : APres st st2 :=
  APres_of_values_perm st st2 id (fun _ => rfl) hl hu

theorem APres_decUses (st : RState) (v0 : Nat) : APres st (st.decUses v0) := by
  refine ⟨?_, ?_, ?_⟩
  · intro hinv v huv hres
    have hle : (st.decUses v0).uses v ≤ st.uses v := by
      unfold RState.decUses
      by_cases hv : v = v0 <;> simp [hv] <;> omega
    exact hinv v (lt_of_lt_of_le huv hle) hres
  · intro v hr _
    exact hr
  · intro v
    unfold RState.decUses
    by_cases hv : v = v0 <;> simp [hv] <;> omega

theorem setLoc_values (st : RState) (l : HostLoc) (i : LocInfo) (x : HostLoc) :
    ((st.setLoc l i).locs x).values = if x = l then i.values else (st.locs x).values := by
  unfold RState.setLoc
  by_cases hx : x = l <;> simp [hx]

theorem APres_defineValue (d : Nat) (l : HostLoc) (st st2 : RState)
    (h : defineValue d l st = .ok st2) : APres st st2 := by
  unfold defineValue at h
  by_cases hdef : (valueLocation st d).isSome = true
  · rw [if_pos hdef] at h; cases h
  · rw [if_neg hdef] at h
    injection h with h2
    subst h2
    have hnr : ¬ Resident st d := by
      apply valueLocation_none_not_resident
      cases hv : valueLocation st d with
      | none => rfl
      | some l2 => rw [hv] at hdef; simp at hdef
    have hc : ∀ x v, ContainsV (st.setLoc l ((st.locs l).AddValue d)) x v ↔
        (ContainsV st x v ∨ (v = d ∧ x = l)) := by
      intro x v
      unfold ContainsV
      rw [setLoc_values]
      by_cases hx : x = l
      · subst hx
        rw [if_pos rfl]
        show v ∈ (st.locs x).values ++ [d] ↔ _
        rw [List.mem_append, List.mem_singleton]
        constructor
        · rintro (hm | hm)
          · exact Or.inl hm
          · exact Or.inr ⟨hm, rfl⟩
        · rintro (hm | ⟨hm, _⟩)
          · exact Or.inl hm
          · exact Or.inr hm
      · rw [if_neg hx]
        constructor
        · exact fun hm => Or.inl hm
        · rintro (hm | ⟨_, hx2⟩)
          · exact hm
          · exact absurd hx2 hx
    refine ⟨?_, ?_, fun v => le_rfl⟩
    · intro hinv v huv hres
      by_cases hvd : v = d
      · subst hvd
        refine ⟨l, (hc l v).mpr (Or.inr ⟨rfl, rfl⟩), ?_⟩
        intro y hy
        rcases (hc y v).mp hy with hm | ⟨_, hy2⟩
        · exact absurd ⟨y, hm⟩ hnr
        · exact hy2
      · obtain ⟨x, hx⟩ := hres
        rcases (hc x v).mp hx with hm | ⟨hvd2, _⟩
        · obtain ⟨l0, hl0, huniq⟩ := hinv v huv ⟨x, hm⟩
          refine ⟨l0, (hc l0 v).mpr (Or.inl hl0), ?_⟩
          intro y hy
          rcases (hc y v).mp hy with hm2 | ⟨hvd2, _⟩
          · exact huniq y hm2
          · exact absurd hvd2 hvd
        · exact absurd hvd2 hvd
    · intro v hres _
      obtain ⟨x, hx⟩ := hres
      exact ⟨x, (hc x v).mpr (Or.inl hx)⟩

theorem APres_endOfAllocScope (st : RState) : APres st (endOfAllocScope st) := by
  have hc : ∀ x v, ContainsV (endOfAllocScope st) x v ↔
      (ContainsV st x v ∧ st.uses v ≠ 0) := by
    intro x v
    unfold ContainsV endOfAllocScope LocInfo.EndOfAllocScope
    simp [List.mem_filter]
  refine ⟨?_, ?_, fun v => le_rfl⟩
  · intro hinv v huv hres
    obtain ⟨x, hx⟩ := hres
    obtain ⟨hm, hne⟩ := (hc x v).mp hx
    obtain ⟨l0, hl0, huniq⟩ := hinv v huv ⟨x, hm⟩
    refine ⟨l0, (hc l0 v).mpr ⟨hl0, hne⟩, ?_⟩
    intro y hy
    exact huniq y ((hc y v).mp hy).1
  · intro v hres huv
    obtain ⟨l, hl⟩ := hres
    refine ⟨l, (hc l v).mpr ⟨hl, ?_⟩⟩
    have h2 : (endOfAllocScope st).uses v = st.uses v := rfl
    omega

theorem emitMove_state (st st2 : RState) (a b : HostLoc) (h : emitMove st a b = .ok st2) :
    st2.locs = st.locs ∧ st2.uses = st.uses := by
  unfold emitMove at h
  repeat' split at h
  all_goals (first
    | (injection h with h2; subst h2; exact ⟨rfl, rfl⟩)
    | cases h)

theorem APres_emitMove (st st2 : RState) (a b : HostLoc) (h : emitMove st a b = .ok st2) :
    APres st st2 := by
  obtain ⟨hl, hu⟩ := emitMove_state st st2 a b h
  exact APres_of_locs_eq st st2 (fun x => by rw [hl]) (fun v => by rw [hu])

theorem emitExchange_state (st st2 : RState) (a b : HostLoc)
    (h : emitExchange st a b = .ok st2) : st2.locs = st.locs ∧ st2.uses = st.uses := by
  unfold emitExchange at h
  repeat' split at h
  all_goals (first
    | (injection h with h2; subst h2; exact ⟨rfl, rfl⟩)
    | cases h)

theorem APres_emitExchange (st st2 : RState) (a b : HostLoc)
    (h : emitExchange st a b = .ok st2) : APres st st2 := by
  obtain ⟨hl, hu⟩ := emitExchange_state st st2 a b h
  exact APres_of_locs_eq st st2 (fun x => by rw [hl]) (fun v => by rw [hu])

theorem APres_loadImm (v : Value) (l l2 : HostLoc) (st st2 : RState)
    (h : loadImmediateIntoHostLocReg v l st = .ok (l2, st2)) : APres st st2 := by
  unfold loadImmediateIntoHostLocReg at h
  by_cases h1 : v.isImmediate = true
  · rw [if_neg (by simp [h1])] at h
    by_cases h2 : HostLocIsGPR l = true
    · rw [if_neg (by simp [h2])] at h
      cases hv : immediateToU64 v with
      | error e => rw [hv] at h; simp at h
      | ok x =>
          rw [hv] at h
          simp only [exc_ok_bind] at h
          split at h <;>
            (injection h with h3
             injection h3 with h3a h3b
             subst h3b
             exact APres_of_locs_eq st _ (fun _ => rfl) (fun _ => rfl))
    · rw [if_pos (by simp [h2])] at h
      cases h
  · rw [if_pos (by simp [h1])] at h
    cases h

/-! ## Simulation lemmas for the state-moving helpers -/

theorem APres_swapLocs (st : RState) (a b : HostLoc) :
    APres st ((st.setLoc a (st.locs b)).setLoc b (st.locs a)) := by
  refine APres_of_values_perm st _ (fun x => if x = b then a else if x = a then b else x)
    ?_ ?_ (fun v => rfl)
  · intro x
    by_cases hxb : x = b <;> by_cases hxa : x = a <;> by_cases hab : a = b <;>
      simp_all
  · intro x
    rw [setLoc_values, setLoc_values]
    by_cases hxb : x = b <;> by_cases hxa : x = a <;> by_cases hab : a = b <;>
      simp_all

theorem APres_transplant (st : RState) (l newLoc : HostLoc) (hne : newLoc ≠ l)
    (hempty : (st.locs newLoc).values = []) :
    APres st ((st.setLoc newLoc (st.locs l)).setLoc l LocInfo.init) := by
  refine APres_of_values_perm st _ (fun x => if x = l then newLoc else if x = newLoc then l else x)
    ?_ ?_ (fun v => rfl)
  · intro x
    by_cases hxl : x = l <;> by_cases hxn : x = newLoc <;>
      simp_all [Ne.symm hne]
  · intro x
    rw [setLoc_values, setLoc_values]
    by_cases hxl : x = l <;> by_cases hxn : x = newLoc <;>
      simp_all [LocInfo.init, Ne.symm hne]

theorem isEmpty_values_nil (i : LocInfo) (h : i.IsEmpty = true) : i.values = [] := by
  unfold LocInfo.IsEmpty at h
  simp only [Bool.and_eq_true, List.isEmpty_iff] at h
  exact h.2

theorem findFreeSpill_facts (st : RState) (newLoc : HostLoc)
    (h : findFreeSpill st = .ok newLoc) :
    (st.locs newLoc).values = [] ∧ HostLocIsSpill newLoc = true := by
  unfold findFreeSpill at h
  cases hf : (List.range SpillCount).find? (fun i => ! isRegisterOccupied st (hostLocSpill i)) with
  | none => rw [hf] at h; cases h
  | some i =>
      rw [hf] at h
      injection h with h2
      subst h2
      have hp := List.find?_some hf
      simp only [Bool.not_eq_true'] at hp
      constructor
      · apply isEmpty_values_nil
        unfold isRegisterOccupied at hp
        simpa using hp
      · unfold HostLocIsSpill hostLocSpill
        simp

theorem spill_ne_register (l newLoc : HostLoc) (hreg : HostLocIsRegister l = true)
    (hspill : HostLocIsSpill newLoc = true) : newLoc ≠ l := by
  intro he
  subst he
  unfold HostLocIsRegister HostLocIsGPR HostLocIsXMM at hreg
  unfold HostLocIsSpill at hspill
  simp only [Bool.or_eq_true, Bool.and_eq_true, decide_eq_true_eq] at hreg hspill
  omega

theorem APres_spillRegister (l : HostLoc) (st st2 : RState)
    (h : spillRegister l st = .ok st2) : APres st st2 := by
  unfold spillRegister at h
  by_cases h1 : HostLocIsRegister l = true
  · rw [if_neg (by simp [h1])] at h
    by_cases h2 : isRegisterOccupied st l = true
    · rw [if_neg (by simp [h2])] at h
      by_cases h3 : isRegisterAllocated st l = true
      · rw [if_pos h3] at h
        cases h
      · rw [if_neg h3] at h
        cases hf : findFreeSpill st with
        | error e => rw [hf] at h; simp at h
        | ok newLoc =>
            rw [hf] at h
            simp only [exc_ok_bind] at h
            obtain ⟨hempty, hspill⟩ := findFreeSpill_facts st newLoc hf
            cases hm : emitMove st newLoc l with
            | error e => rw [hm] at h; simp at h
            | ok stm =>
                rw [hm] at h
                simp only [exc_ok_bind, Except.ok.injEq] at h
                subst h
                refine APres_trans st stm _ (APres_emitMove st stm newLoc l hm) ?_
                obtain ⟨hml, hmu⟩ := emitMove_state st stm newLoc l hm
                refine APres_transplant stm l newLoc (spill_ne_register l newLoc h1 hspill) ?_
                rw [hml]
                exact hempty
    · rw [if_pos (by simp [h2])] at h
      cases h
  · rw [if_pos (by simp [h1])] at h
    cases h

theorem APres_move (a b : HostLoc) (st st2 : RState) (h : move a b st = .ok st2) :
    APres st st2 := by
  unfold move at h
  by_cases h1 : ((st.locs a).IsEmpty && ! (st.locs b).IsLocked) = true
  · rw [if_neg (by simp_all)] at h
    by_cases h2 : (st.locs b).IsEmpty = true
    · rw [if_pos h2] at h
      injection h with h3
      subst h3
      exact APres_refl st
    · rw [if_neg h2] at h
      simp only [Bool.and_eq_true] at h1
      have haemp : (st.locs a).values = [] := isEmpty_values_nil _ h1.1
      have hne : a ≠ b := by
        intro he
        rw [he] at h1
        exact h2 h1.1
      refine APres_trans st _ st2 (APres_transplant st b a hne haemp) ?_
      exact APres_emitMove _ st2 a b h
  · rw [if_pos (by simp_all)] at h
    cases h

theorem APres_exchange (a b : HostLoc) (st st2 : RState) (h : exchange a b st = .ok st2) :
    APres st st2 := by
  unfold exchange at h
  by_cases h1 : ((st.locs a).IsLocked || (st.locs b).IsLocked) = true
  · rw [if_pos h1] at h
    cases h
  · rw [if_neg h1] at h
    by_cases h2 : (st.locs a).IsEmpty = true
    · rw [if_pos h2] at h
      exact APres_move a b st st2 h
    · rw [if_neg h2] at h
      by_cases h3 : (st.locs b).IsEmpty = true
      · rw [if_pos h3] at h
        exact APres_move b a st st2 h
      · rw [if_neg h3] at h
        refine APres_trans st _ st2 (APres_swapLocs st a b) ?_
        exact APres_emitExchange _ st2 a b h

theorem APres_moveOutOfTheWay (l : HostLoc) (st st2 : RState)
    (h : moveOutOfTheWay l st = .ok st2) : APres st st2 := by
  unfold moveOutOfTheWay at h
  by_cases h1 : (st.locs l).IsLocked = true
  · rw [if_pos h1] at h
    cases h
  · rw [if_neg h1] at h
    by_cases h2 : isRegisterOccupied st l = true
    · rw [if_pos h2] at h
      exact APres_spillRegister l st st2 h
    · rw [if_neg h2] at h
      injection h with h3
      subst h3
      exact APres_refl st

theorem APres_lock (st : RState) (l : HostLoc) :
    APres st (st.setLoc l ((st.locs l).Lock)) := by
  refine APres_of_locs_eq st _ ?_ (fun v => rfl)
  intro x
  rw [setLoc_values]
  by_cases hx : x = l <;> simp [hx, LocInfo.Lock]

theorem APres_scratchHostLocReg (desired : List HostLoc) (st st2 : RState) (l2 : HostLoc)
    (h : scratchHostLocReg desired st = .ok (l2, st2)) : APres st st2 := by
  unfold scratchHostLocReg at h
  by_cases h1 : desired.all HostLocIsRegister = true
  · rw [if_neg (by simp [h1])] at h
    cases hs : selectARegister st desired with
    | error e => rw [hs] at h; simp at h
    | ok l =>
        rw [hs] at h
        simp only [exc_ok_bind] at h
        by_cases ho : isRegisterOccupied st l = true
        · rw [if_pos ho] at h
          cases hm : spillRegister l st with
          | error e => rw [hm] at h; simp at h
          | ok stm =>
              rw [hm] at h
              simp only [exc_ok_bind] at h
              split at h
              · cases h
              · injection h with h2
                injection h2 with h2a h2b
                subst h2b
                exact APres_trans st stm _ (APres_spillRegister l st stm hm) (APres_lock stm l)
        · rw [if_neg ho] at h
          simp only [exc_pure_eq, exc_ok_bind] at h
          split at h
          · cases h
          · injection h with h2
            injection h2 with h2a h2b
            subst h2b
            exact APres_lock st l
  · rw [if_pos (by simp [h1])] at h
    cases h

theorem spillRegister_clears (l : HostLoc) (st stm : RState)
    (h : spillRegister l st = .ok stm) : (stm.locs l).values = [] := by
  unfold spillRegister at h
  by_cases h1 : HostLocIsRegister l = true
  · rw [if_neg (by simp [h1])] at h
    by_cases h2 : isRegisterOccupied st l = true
    · rw [if_neg (by simp [h2])] at h
      by_cases h3 : isRegisterAllocated st l = true
      · rw [if_pos h3] at h
        cases h
      · rw [if_neg h3] at h
        cases hf : findFreeSpill st with
        | error e => rw [hf] at h; simp at h
        | ok newLoc =>
            rw [hf] at h
            simp only [exc_ok_bind] at h
            cases hm : emitMove st newLoc l with
            | error e => rw [hm] at h; simp at h
            | ok stx =>
                rw [hm] at h
                simp only [exc_ok_bind, Except.ok.injEq] at h
                subst h
                rw [setLoc_values, if_pos rfl]
                rfl
    · rw [if_pos (by simp [h2])] at h
      cases h
  · rw [if_pos (by simp [h1])] at h
    cases h

theorem APres_setLoc_init_of_empty (st : RState) (l : HostLoc)
    (hv : (st.locs l).values = []) : APres st (st.setLoc l LocInfo.init) := by
  refine APres_of_locs_eq st _ ?_ (fun v => rfl)
  intro x
  rw [setLoc_values]
  by_cases hx : x = l <;> simp [hx, LocInfo.init, hv]

theorem not_occupied_values_nil (st : RState) (l : HostLoc)
    (h : ¬ isRegisterOccupied st l = true) : (st.locs l).values = [] := by
  apply isEmpty_values_nil
  unfold isRegisterOccupied at h
  simpa using h

theorem APres_useScratchHostLocRegI (i : Nat) (desired : List HostLoc) (st st2 : RState)
    (l2 : HostLoc) (h : useScratchHostLocRegI i desired st = .ok (l2, st2)) :
    APres st st2 := by
  unfold useScratchHostLocRegI at h
  by_cases h1 : desired.all HostLocIsRegister = true
  · rw [if_neg (by simp [h1])] at h
    cases hvl : valueLocation st i with
    | none => rw [hvl] at h; simp at h
    | some cur =>
    rw [hvl] at h
    dsimp only at h
    by_cases hu0 : st.uses i = 0
    · rw [if_pos hu0] at h
      cases h
    · rw [if_neg hu0] at h
      cases hsel : selectARegister st desired with
      | error e => rw [hsel] at h; simp at h
      | ok newl =>
      rw [hsel] at h
      simp only [exc_ok_bind] at h
      have hbody : ∀ stm, APres st stm → (stm.locs newl).values = [] →
          (stm.locs cur = st.locs cur ∨ isRegisterOccupied st newl = true) →
          (if HostLocIsSpill cur = true then do
            let st3 ← emitMove stm newl cur
            let st4 : RState := st3.setLoc newl ((st3.locs newl).Lock)
            let st5 : RState := st4.decUses i
            if ¬ (st5.locs newl).IsScratch = true then Except.error msgScratchGuard
            else Except.ok (newl, st5)
          else if HostLocIsRegister cur = true then
            if ¬ ((stm.locs cur).IsIdle || (stm.locs cur).IsUse) = true then
              Except.error msgUseKindGuard
            else do
              let st3 ←
                if cur ≠ newl then emitMove stm newl cur
                else if ¬ (stm.locs cur).IsIdle = true then Except.error msgIdleGuard
                else pure stm
              let st4 : RState := st3.setLoc newl LocInfo.init
              let st5 : RState := st4.setLoc newl ((st4.locs newl).Lock)
              let st6 : RState := st5.decUses i
              if ¬ (st6.locs newl).IsScratch = true then Except.error msgScratchGuard
              else Except.ok (newl, st6)
          else Except.error msgInvalidCurrentLocation) = .ok (l2, st2) → APres st st2 := by
        intro stm hpre hempty _ hb
        by_cases hsp : HostLocIsSpill cur = true
        · rw [if_pos hsp] at hb
          cases hm2 : emitMove stm newl cur with
          | error e => rw [hm2] at hb; simp at hb
          | ok st3 =>
              rw [hm2] at hb
              simp only [exc_ok_bind] at hb
              split at hb
              · cases hb
              · injection hb with hb2
                injection hb2 with hb2a hb2b
                subst hb2b
                refine APres_trans st st3 _ (APres_trans st stm st3 hpre
                  (APres_emitMove stm st3 newl cur hm2)) ?_
                exact APres_trans st3 _ _ (APres_lock st3 newl) (APres_decUses _ i)
        · rw [if_neg hsp] at hb
          by_cases hrg : HostLocIsRegister cur = true
          · rw [if_pos hrg] at hb
            by_cases hik : ((stm.locs cur).IsIdle || (stm.locs cur).IsUse) = true
            · rw [if_neg (by simp [hik])] at hb
              have htail : ∀ stx, APres st stx → (stx.locs newl).values = [] →
                  (do
                    let st4 : RState := stx.setLoc newl LocInfo.init
                    let st5 : RState := st4.setLoc newl ((st4.locs newl).Lock)
                    let st6 : RState := st5.decUses i
                    if ¬ (st6.locs newl).IsScratch = true then Except.error msgScratchGuard
                    else Except.ok (newl, st6)) = .ok (l2, st2) → APres st st2 := by
                intro stx hprex hex hbx
                dsimp only at hbx
                split at hbx
                · cases hbx
                · injection hbx with hb2
                  injection hb2 with hb2a hb2b
                  subst hb2b
                  refine APres_trans st _ _ (APres_trans st stx _ hprex
                    (APres_setLoc_init_of_empty stx newl hex)) ?_
                  exact APres_trans _ _ _ (APres_lock _ newl) (APres_decUses _ i)
              by_cases hcn : cur = newl
              · rw [if_neg (by simp [hcn])] at hb
                by_cases hidle : (stm.locs cur).IsIdle = true
                · rw [if_neg (by simp [hidle])] at hb
                  simp only [exc_pure_eq, exc_ok_bind] at hb
                  exact htail stm hpre hempty hb
                · rw [if_pos (by simp [hidle])] at hb
                  simp at hb
              · rw [if_pos hcn] at hb
                cases hm2 : emitMove stm newl cur with
                | error e => rw [hm2] at hb; simp at hb
                | ok st3 =>
                    rw [hm2] at hb
                    simp only [exc_ok_bind] at hb
                    refine htail st3 (APres_trans st stm st3 hpre
                      (APres_emitMove stm st3 newl cur hm2)) ?_ hb
                    rw [(emitMove_state stm st3 newl cur hm2).1]
                    exact hempty
            · rw [if_pos (by simp [hik])] at hb
              cases hb
          · rw [if_neg hrg] at hb
            cases hb
      by_cases ho : isRegisterOccupied st newl = true
      · rw [if_pos ho] at h
        cases hm : spillRegister newl st with
        | error e => rw [hm] at h; simp at h
        | ok stm =>
            rw [hm] at h
            simp only [exc_ok_bind] at h
            exact hbody stm (APres_spillRegister newl st stm hm)
              (spillRegister_clears newl st stm hm) (Or.inr ho) h
      · rw [if_neg ho] at h
        simp only [exc_pure_eq, exc_ok_bind] at h
        exact hbody st (APres_refl st) (not_occupied_values_nil st newl ho) (Or.inl rfl) h
  · rw [if_pos (by simp [h1])] at h
    cases h

theorem APres_useHostLocRegI (i : Nat) (desired : List HostLoc) (st st2 : RState)
    (l2 : HostLoc) (h : useHostLocRegI i desired st = .ok (l2, st2)) :
    APres st st2 := by
  unfold useHostLocRegI at h
  dsimp only at h
  have hdec : APres st (st.decUses i) := APres_decUses st i
  cases hvl : valueLocation (st.decUses i) i with
  | none => rw [hvl] at h; simp at h
  | some cur =>
  rw [hvl] at h
  dsimp only at h
  by_cases hmem : cur ∈ desired
  · rw [if_pos hmem] at h
    injection h with h2
    injection h2 with h2a h2b
    subst h2b
    exact APres_trans st _ _ hdec (APres_lock _ cur)
  · rw [if_neg hmem] at h
    by_cases hlk : ((st.decUses i).locs cur).IsLocked = true
    · rw [if_pos hlk] at h
      exact APres_trans st _ _ hdec
        (APres_useScratchHostLocRegI i desired _ st2 l2 h)
    · rw [if_neg hlk] at h
      cases hsel : selectARegister (st.decUses i) desired with
      | error e => rw [hsel] at h; simp at h
      | ok dest =>
      rw [hsel] at h
      simp only [exc_ok_bind] at h
      by_cases hsc : isSameHostLocClass dest cur = true
      · rw [if_pos hsc] at h
        cases hex : exchange dest cur (st.decUses i) with
        | error e => rw [hex] at h; simp at h
        | ok st3 =>
            rw [hex] at h
            simp only [exc_ok_bind] at h
            injection h with h2
            injection h2 with h2a h2b
            subst h2b
            exact APres_trans st _ _ (APres_trans st _ st3 hdec
              (APres_exchange dest cur _ st3 hex)) (APres_lock st3 dest)
      · rw [if_neg hsc] at h
        cases hmo : moveOutOfTheWay dest (st.decUses i) with
        | error e => rw [hmo] at h; simp at h
        | ok stx =>
            rw [hmo] at h
            simp only [exc_ok_bind] at h
            cases hmv : move dest cur stx with
            | error e => rw [hmv] at h; simp at h
            | ok st3 =>
                rw [hmv] at h
                simp only [exc_ok_bind] at h
                injection h with h2
                injection h2 with h2a h2b
                subst h2b
                refine APres_trans st st3 _ ?_ (APres_lock st3 dest)
                refine APres_trans st stx st3 ?_ (APres_move dest cur stx st3 hmv)
                exact APres_trans st _ stx hdec (APres_moveOutOfTheWay dest _ stx hmo)

theorem APres_useScratchHostLocRegV (v : Value) (desired : List HostLoc)
    (st st2 : RState) (l2 : HostLoc)
    (h : useScratchHostLocRegV v desired st = .ok (l2, st2)) : APres st st2 := by
  cases v with
  | ref i => exact APres_useScratchHostLocRegI i desired st st2 l2 h
  | imm ty val =>
      unfold useScratchHostLocRegV at h
      dsimp only at h
      cases hs : scratchHostLocReg desired st with
      | error e => rw [hs] at h; simp at h
      | ok p =>
          obtain ⟨l, stm⟩ := p
          rw [hs] at h
          simp only [exc_ok_bind] at h
          exact APres_trans st stm st2 (APres_scratchHostLocReg desired st stm l hs)
            (APres_loadImm _ l l2 stm st2 h)

theorem APres_useHostLocRegV (v : Value) (desired : List HostLoc)
    (st st2 : RState) (l2 : HostLoc)
    (h : useHostLocRegV v desired st = .ok (l2, st2)) : APres st st2 := by
  cases v with
  | ref i => exact APres_useHostLocRegI i desired st st2 l2 h
  | imm ty val =>
      unfold useHostLocRegV at h
      dsimp only at h
      cases hs : scratchHostLocReg desired st with
      | error e => rw [hs] at h; simp at h
      | ok p =>
          obtain ⟨l, stm⟩ := p
          rw [hs] at h
          simp only [exc_ok_bind] at h
          exact APres_trans st stm st2 (APres_scratchHostLocReg desired st stm l hs)
            (APres_loadImm _ l l2 stm st2 h)

theorem APres_useOpArg (v : Value) (desired : List HostLoc) (st st2 : RState)
    (x2 : HostLoc) (h : useOpArg v desired st = .ok (x2, st2)) : APres st st2 := by
  cases v with
  | imm ty val => unfold useOpArg at h; cases h
  | ref i =>
      unfold useOpArg at h
      dsimp only at h
      cases hu : useHostLocRegI i desired st with
      | error e => rw [hu] at h; simp at h
      | ok p =>
          obtain ⟨l, stm⟩ := p
          rw [hu] at h
          simp only [exc_ok_bind] at h
          cases hx : hostLocToX64 l with
          | error e => rw [hx] at h; simp at h
          | ok x =>
              rw [hx] at h
              simp only [exc_ok_bind, Except.ok.injEq, Prod.mk.injEq] at h
              rw [h.2] at hu
              exact APres_useHostLocRegI i desired st st2 l hu

theorem APres_useDefOpArgHostLocReg (useV : Value) (defI : Nat)
    (desired : List HostLoc) (st st2 : RState) (r2 : HostLoc × HostLoc)
    (h : useDefOpArgHostLocReg useV defI desired st = .ok (r2, st2)) :
    APres st st2 := by
  unfold useDefOpArgHostLocReg at h
  by_cases h1 : desired.all HostLocIsRegister = true
  · rw [if_neg (by simp [h1])] at h
    by_cases h2 : (valueLocation st defI).isSome = true
    · rw [if_pos h2] at h
      cases h
    · rw [if_neg h2] at h
      have hmain : (do
            let (oparg, stx2) ← useOpArg useV anyGpr st
            let (defReg, stx3) ← scratchHostLocReg desired stx2
            let stx4 ← defineValue defI defReg stx3
            Except.ok ((oparg, defReg), stx4)) = Except.ok (r2, st2) → APres st st2 := by
          intro hm
          cases hu : useOpArg useV anyGpr st with
          | error e => rw [hu] at hm; simp at hm
          | ok p =>
              obtain ⟨oparg, stm⟩ := p
              rw [hu] at hm
              simp only [exc_ok_bind] at hm
              cases hs : scratchHostLocReg desired stm with
              | error e => rw [hs] at hm; simp at hm
              | ok q =>
                  obtain ⟨defReg, stm2⟩ := q
                  rw [hs] at hm
                  simp only [exc_ok_bind] at hm
                  cases hd : defineValue defI defReg stm2 with
                  | error e => rw [hd] at hm; simp at hm
                  | ok stm3 =>
                      rw [hd] at hm
                      simp only [exc_ok_bind, Except.ok.injEq, Prod.mk.injEq] at hm
                      rw [hm.2] at hd
                      refine APres_trans st stm2 st2 ?_
                        (APres_defineValue defI defReg stm2 st2 hd)
                      exact APres_trans st stm stm2
                        (APres_useOpArg useV anyGpr st stm oparg hu)
                        (APres_scratchHostLocReg desired stm stm2 defReg hs)
      split at h
      · cases h
      · cases useV with
        | imm ty val =>
            simp only [exc_pure_eq, exc_ok_bind] at h
            exact hmain h
        | ref i =>
            simp only [isLastUse, Bool.false_eq_true, if_false,
              exc_pure_eq, exc_ok_bind] at h
            exact hmain h
  · rw [if_pos (by simp [h1])] at h
    cases h

theorem APres_registerAddDef (defI : Nat) (useV : Value) (st st2 : RState)
    (h : registerAddDef defI useV st = .ok st2) : APres st st2 := by
  unfold registerAddDef at h
  by_cases h1 : (valueLocation st defI).isSome = true
  · rw [if_pos h1] at h
    cases h
  · rw [if_neg h1] at h
    cases useV with
    | imm ty val =>
        dsimp only at h
        cases hs : scratchHostLocReg anyGpr st with
        | error e => rw [hs] at h; simp at h
        | ok p =>
            obtain ⟨l, stm⟩ := p
            rw [hs] at h
            simp only [exc_ok_bind] at h
            cases hd : defineValue defI l stm with
            | error e => rw [hd] at h; simp at h
            | ok stm2 =>
                rw [hd] at h
                simp only [exc_ok_bind] at h
                cases hl : loadImmediateIntoHostLocReg (Value.imm ty val) l stm2 with
                | error e => rw [hl] at h; simp at h
                | ok q =>
                    obtain ⟨l2, stm3⟩ := q
                    rw [hl] at h
                    simp only [exc_ok_bind, Except.ok.injEq] at h
                    subst h
                    refine APres_trans st stm2 _ ?_
                      (APres_loadImm _ l l2 stm2 _ hl)
                    exact APres_trans st stm stm2
                      (APres_scratchHostLocReg anyGpr st stm l hs)
                      (APres_defineValue defI l stm stm2 hd)
    | ref i =>
        dsimp only at h
        cases hvl : valueLocation (st.decUses i) i with
        | none => rw [hvl] at h; simp at h
        | some l =>
            rw [hvl] at h
            dsimp only at h
            exact APres_trans st (st.decUses i) st2 (APres_decUses st i)
              (APres_defineValue defI l _ st2 h)

theorem APres_useHostLoc (i : Nat) (desired : List HostLoc) (st st2 : RState)
    (r2 : HostLoc × Bool) (h : useHostLoc i desired st = .ok (r2, st2)) :
    APres st st2 := by
  unfold useHostLoc at h
  by_cases h1 : desired.all HostLocIsRegister = true
  · rw [if_neg (by simp [h1])] at h
    cases hvl : valueLocation st i with
    | none => rw [hvl] at h; simp at h
    | some cur =>
    rw [hvl] at h
    dsimp only at h
    by_cases hmem : cur ∈ desired
    · rw [if_pos hmem] at h
      by_cases hik : ((st.locs cur).IsUse || (st.locs cur).IsIdle) = true
      · rw [if_neg (by simp [hik])] at h
        split at h
        · cases h
        · injection h with h2
          injection h2 with h2a h2b
          subst h2b
          exact APres_trans st _ _ (APres_lock st cur) (APres_decUses _ i)
      · rw [if_pos (by simp [hik])] at h
        cases h
    · rw [if_neg hmem] at h
      by_cases hsp : HostLocIsSpill cur = true
      · rw [if_pos hsp] at h
        split at h
        · cases h
        · injection h with h2
          injection h2 with h2a h2b
          subst h2b
          exact APres_trans st _ _ (APres_lock st cur) (APres_decUses _ i)
      · rw [if_neg hsp] at h
        by_cases hrg : HostLocIsRegister cur = true
        · rw [if_pos hrg] at h
          cases hsel : selectARegister st desired with
          | error e => rw [hsel] at h; simp at h
          | ok newl =>
          rw [hsel] at h
          simp only [exc_ok_bind] at h
          by_cases hidle : (st.locs cur).IsIdle = true
          · rw [if_neg (by simp [hidle])] at h
            cases hex : emitExchange st newl cur with
            | error e => rw [hex] at h; simp at h
            | ok stm =>
                rw [hex] at h
                simp only [exc_ok_bind] at h
                split at h
                · cases h
                · injection h with h2
                  injection h2 with h2a h2b
                  subst h2b
                  refine APres_trans st stm _
                    (APres_emitExchange st stm newl cur hex) ?_
                  refine APres_trans stm _ _ (APres_swapLocs stm newl cur) ?_
                  exact APres_trans _ _ _ (APres_lock _ newl) (APres_decUses _ i)
          · rw [if_pos (by simp [hidle])] at h
            cases h
        · rw [if_neg hrg] at h
          cases h
  · rw [if_pos (by simp [h1])] at h
    cases h

theorem exc_bind_ok {α β : Type} (ma : Except String α) (f : α → Except String β)
    (b : β) (h : ma >>= f = .ok b) : ∃ a, ma = .ok a ∧ f a = .ok b := by
  cases ma with
  | error e => simp at h
  | ok a => exact ⟨a, rfl, h⟩

theorem exc_map_ok {α β : Type} (ma : Except String α) (g : α → β) (b : β)
    (h : ma.map g = .ok b) : ∃ a, ma = .ok a ∧ g a = b := by
  cases ma with
  | error e => simp [Except.map] at h
  | ok a =>
      refine ⟨a, rfl, ?_⟩
      simpa [Except.map] using h

theorem APres_foldlM {β : Type} (f : RState → β → Except String RState)
    (hf : ∀ stx sty x, f stx x = .ok sty → APres stx sty) :
    ∀ (l : List β) (st st2 : RState), l.foldlM f st = .ok st2 → APres st st2 := by
  intro l
  induction l with
  | nil =>
      intro st st2 h
      simp only [List.foldlM_nil, exc_pure_eq, Except.ok.injEq] at h
      subst h
      exact APres_refl st
  | cons x xs ih =>
      intro st st2 h
      rw [List.foldlM_cons] at h
      obtain ⟨stm, hx, h2⟩ := exc_bind_ok _ _ _ h
      exact APres_trans st stm st2 (hf st stm x hx) (ih stm st2 h2)

theorem APres_hostCall (resultDef : Option Nat) (a0 a1 a2 a3 : Option Value)
    (st st2 : RState) (h : hostCall resultDef a0 a1 a2 a3 st = .ok st2) :
    APres st st2 := by
  unfold hostCall at h
  have hargStep : ∀ (sx sy : RState) (p : Option Value × HostLoc),
      (match p.1 with
        | some v => do
            let (_, sty) ← useScratchHostLocRegV v [p.2] sx
            pure sty
        | none => do
            let (_, sty) ← scratchHostLocReg [p.2] sx
            pure sty) = Except.ok sy → APres sx sy := by
    intro sx sy p hq
    obtain ⟨pa, pb⟩ := p
    cases pa with
    | some v =>
        dsimp only at hq
        obtain ⟨q, hu, hq2⟩ := exc_bind_ok _ _ _ hq
        obtain ⟨lq, stq⟩ := q
        simp only [exc_pure_eq, Except.ok.injEq] at hq2
        subst hq2
        exact APres_useScratchHostLocRegV v [pb] sx stq lq hu
    | none =>
        dsimp only at hq
        obtain ⟨q, hu, hq2⟩ := exc_bind_ok _ _ _ hq
        obtain ⟨lq, stq⟩ := q
        simp only [exc_pure_eq, Except.ok.injEq] at hq2
        subst hq2
        exact APres_scratchHostLocReg [pb] sx stq lq hu
  have hsaveStep : ∀ (sx sy : RState) (l : HostLoc),
      (do
        let (_, sty) ← scratchHostLocReg [l] sx
        pure sty) = Except.ok sy → APres sx sy := by
    intro sx sy l hq
    obtain ⟨q, hu, hq2⟩ := exc_bind_ok _ _ _ hq
    obtain ⟨lq, stq⟩ := q
    simp only [exc_pure_eq, Except.ok.injEq] at hq2
    subst hq2
    exact APres_scratchHostLocReg [l] sx stq lq hu
  cases resultDef with
  | some r =>
      dsimp only at h
      obtain ⟨q, hs, h⟩ := exc_bind_ok _ _ _ h
      obtain ⟨l, stx⟩ := q
      obtain ⟨st1, hd, h⟩ := exc_bind_ok _ _ _ h
      obtain ⟨stm, hf1, h⟩ := exc_bind_ok _ _ _ h
      have hpre : APres st st1 :=
        APres_trans st stx st1 (APres_scratchHostLocReg [ABI_RETURN] st stx l hs)
          (APres_defineValue r l stx st1 hd)
      have hp1 : APres st1 stm := APres_foldlM _ hargStep _ st1 stm hf1
      have hp2 : APres stm st2 := APres_foldlM _ hsaveStep _ stm st2 h
      exact APres_trans st st1 st2 hpre (APres_trans st1 stm st2 hp1 hp2)
  | none =>
      dsimp only at h
      obtain ⟨q, hs, h⟩ := exc_bind_ok _ _ _ h
      obtain ⟨l, stx⟩ := q
      simp only [exc_pure_eq, exc_ok_bind] at h
      obtain ⟨stm, hf1, h⟩ := exc_bind_ok _ _ _ h
      have hpre : APres st stx := APres_scratchHostLocReg [ABI_RETURN] st stx l hs
      have hp1 : APres stx stm := APres_foldlM _ hargStep _ stx stm hf1
      have hp2 : APres stm st2 := APres_foldlM _ hsaveStep _ stm st2 h
      exact APres_trans st stx st2 hpre (APres_trans stx stm st2 hp1 hp2)

theorem APres_applyOp (op : AllocOp) (st st2 : RState)
    (h : applyOp op st = .ok st2) : APres st st2 := by
  cases op with
  | defineOp v l => exact APres_defineValue v l st st2 h
  | useReg v d =>
      obtain ⟨p, hu, hp⟩ := exc_map_ok _ _ _ h
      obtain ⟨l, stq⟩ := p
      cases hp
      exact APres_useHostLocRegV v d st stq l hu
  | useScratchReg v d =>
      obtain ⟨p, hu, hp⟩ := exc_map_ok _ _ _ h
      obtain ⟨l, stq⟩ := p
      cases hp
      exact APres_useScratchHostLocRegV v d st stq l hu
  | scratchReg d =>
      obtain ⟨p, hu, hp⟩ := exc_map_ok _ _ _ h
      obtain ⟨l, stq⟩ := p
      cases hp
      exact APres_scratchHostLocReg d st stq l hu
  | useOpA v d =>
      obtain ⟨p, hu, hp⟩ := exc_map_ok _ _ _ h
      obtain ⟨l, stq⟩ := p
      cases hp
      exact APres_useOpArg v d st stq l hu
  | useDefOp u dd d =>
      obtain ⟨p, hu, hp⟩ := exc_map_ok _ _ _ h
      obtain ⟨r, stq⟩ := p
      cases hp
      exact APres_useDefOpArgHostLocReg u dd d st stq r hu
  | addDef dd u => exact APres_registerAddDef dd u st st2 h
  | callHost r a0 a1 a2 a3 => exact APres_hostCall r a0 a1 a2 a3 st st2 h
  | useLoc v d =>
      obtain ⟨p, hu, hp⟩ := exc_map_ok _ _ _ h
      obtain ⟨r, stq⟩ := p
      cases hp
      exact APres_useHostLoc v d st stq r hu
  | spillOp l => exact APres_spillRegister l st st2 h
  | moveOp a b => exact APres_move a b st st2 h
  | exchangeOp a b => exact APres_exchange a b st st2 h
  | moveOutOp l => exact APres_moveOutOfTheWay l st st2 h
  | endScope =>
      cases h
      exact APres_endOfAllocScope st

/-- **C2**: every allocator operation (define, use, use-scratch, scratch,
use-op-arg, use-def, add-def, host-call, use-host-loc, spill, move,
exchange, move-out-of-the-way, end-of-scope) that completes without
asserting preserves the invariant that every IR value with a positive
remaining-use count is resident in exactly one HostLoc. -/
theorem C2_allocOp_preserves_unique_residence (op : AllocOp) (st st2 : RState)
    (hinv : UniqueResidence st) (h : applyOp op st = .ok st2) :
    UniqueResidence st2 := by
  have hp : APres st st2 := APres_applyOp op st st2 h
  intro v hv
  have hv1 : 0 < st.uses v := lt_of_lt_of_le hv (hp.2.2 v)
  obtain ⟨l, hl, _⟩ := hinv v hv1
  have hres2 : Resident st2 v := hp.2.1 v ⟨l, hl⟩ hv
  have hai : AllocInv st2 := hp.1 (fun w hw _ => hinv w hw)
  exact hai v hv hres2

/-- Witness for C2 at the end-of-scope operation from the reset state. -/
theorem C2_witness : UniqueResidence (endOfAllocScope (initState (fun _ => 0))) :=
  C2_allocOp_preserves_unique_residence AllocOp.endScope (initState (fun _ => 0)) _
    (fun v hv => absurd hv (Nat.lt_irrefl 0)) rfl

end Dynarmic
